import Mathlib

/-!
# Mass-spring models (`src/src/models.h`, `src/src/models.cpp`)

A shallow embedding of the four mass-spring models of the repository
(`MassOnASpringModel`, `ChainPendulumModel`, `ClothModel`, `CubeModel`).

## Arithmetic

The source computes with C++ `float` and `glm::vec3`.  Two arithmetics are embedded.

* Exact arithmetic (`float R`, `vec3f R`, and the definitions without a prefix).  Rounding is
  not modelled: a finite `float` is an element of an ordered field `R` with exact square roots
  (`SqrtField`), and the only non-finite value is `nan`, which every operation propagates and
  which compares unequal to everything, as in IEEE 754.  Division by zero yields `nan`; in this
  program the numerator of such a division is zero whenever the denominator is
  (`0 * inversesqrt(0)`, `0 / 0`), so that infinities never have to be told apart from `nan`.
  Statements proved here are statements about the program up to rounding and overflow.

* Binary32 arithmetic (`float32` and the namespace `binary32`).  Every operation is evaluated
  in IEEE 754 binary32 and rounded to nearest, ties to even, with signed zeros, infinities and
  `nan`; no intermediate result is kept in a wider format and no multiplication is fused with
  an addition.  The functions of the single-spring
  model and of the chain pendulum are embedded a second time over this arithmetic, with the
  same text.

## State

A model owns `std::vector<std::shared_ptr<Particle>> particles` and
`std::vector<Spring> springs`.  The shared pointers held by a spring always
point at elements of `particles`; they are embedded as indices into the list.
-/

namespace simulation

/-- An ordered field with a square root on the non-negative elements: the finite
values of the exact-arithmetic model of `float`. -/
class SqrtField (R : Type) extends LinearOrderedField R where
  /-- The square root. -/
  sqrt : R → R
  /-- Square roots are non-negative. -/
  sqrt_nonneg : ∀ x : R, 0 ≤ sqrt x
  /-- The square root of a non-negative element squares to it. -/
  sqrt_mul_self : ∀ x : R, 0 ≤ x → sqrt x * sqrt x = x

/-- The real numbers are a `SqrtField`. -/
noncomputable instance instSqrtFieldReal : SqrtField ℝ :=
  { Real.instLinearOrderedField with
    sqrt := Real.sqrt
    sqrt_nonneg := Real.sqrt_nonneg
    sqrt_mul_self := fun _ hx => Real.mul_self_sqrt hx }

/-- The C++ type `float` in exact arithmetic: a finite value or `nan`. -/
inductive float (R : Type) where
  | nan : float R
  | val : R → float R
  deriving DecidableEq

namespace float

variable {R : Type} [SqrtField R]

/-- Lifts a binary operation on finite values, propagating `nan`. -/
def lift2 (f : R → R → R) : float R → float R → float R
  | val a, val b => val (f a b)
  | _, _ => nan

/-- Unary minus, propagating `nan`. -/
def neg : float R → float R
  | val a => val (-a)
  | nan => nan

instance : Zero (float R) := ⟨val 0⟩
instance : Add (float R) := ⟨lift2 (· + ·)⟩
instance : Sub (float R) := ⟨lift2 (· - ·)⟩
instance : Mul (float R) := ⟨lift2 (· * ·)⟩
instance : Neg (float R) := ⟨neg⟩

/-- Addition of floats is associative and commutative with unit `0`, also on `nan`. -/
instance : AddCommMonoid (float R) where
  add_assoc a b c := by
    cases a <;> cases b <;> cases c <;> simp only [HAdd.hAdd, Add.add, lift2]
    exact congrArg val (add_assoc _ _ _)
  zero_add a := by
    cases a <;> simp only [HAdd.hAdd, Add.add, OfNat.ofNat, Zero.zero, lift2]
    exact congrArg val (zero_add _)
  add_zero a := by
    cases a <;> simp only [HAdd.hAdd, Add.add, OfNat.ofNat, Zero.zero, lift2]
    exact congrArg val (add_zero _)
  add_comm a b := by
    cases a <;> cases b <;> simp only [HAdd.hAdd, Add.add, lift2]
    exact congrArg val (add_comm _ _)
  nsmul := nsmulRec

/-- Division `a / b`; a zero divisor gives `nan`. -/
def fdiv : float R → float R → float R
  | val a, val b => if b = 0 then nan else val (a / b)
  | _, _ => nan

instance : Div (float R) := ⟨fdiv⟩

/-- The function `sqrt` of `<cmath>`; a negative argument gives `nan`. -/
def sqrt : float R → float R
  | val a => if a < 0 then nan else val (SqrtField.sqrt a)
  | nan => nan

/-- The function `glm::inversesqrt`: `1 / sqrt(x)`. -/
def inversesqrt (x : float R) : float R := val 1 / sqrt x

/-- The function `glm::abs` on a scalar. -/
def abs : float R → float R
  | val a => val (|a|)
  | nan => nan

/-- The comparison `a == b` of two floats: `nan` is equal to nothing. -/
def eq : float R → float R → Bool
  | val a, val b => decide (a = b)
  | _, _ => false

/-- The comparison `a > b` of two floats: false when either is `nan`. -/
def gt : float R → float R → Bool
  | val a, val b => decide (b < a)
  | _, _ => false

/-- The comparison `a <= b` of two floats: false when either is `nan`. -/
def le : float R → float R → Bool
  | val a, val b => decide (a ≤ b)
  | _, _ => false

end float

/-- The type `glm::vec3` (`vec3f` in the source). -/
structure vec3f (R : Type) where
  x : float R
  y : float R
  z : float R
  deriving DecidableEq

namespace vec3f

variable {R : Type} [SqrtField R]

/-- The constructor `vec3f{s}`: all three components equal to `s`. -/
def splat (s : float R) : vec3f R := ⟨s, s, s⟩

instance : Zero (vec3f R) := ⟨splat (float.val 0)⟩
instance : Add (vec3f R) := ⟨fun a b => ⟨a.x + b.x, a.y + b.y, a.z + b.z⟩⟩
instance : Sub (vec3f R) := ⟨fun a b => ⟨a.x - b.x, a.y - b.y, a.z - b.z⟩⟩
instance : Neg (vec3f R) := ⟨fun a => ⟨-a.x, -a.y, -a.z⟩⟩

/-- Addition of vectors is associative and commutative with unit `0`. -/
instance : AddCommMonoid (vec3f R) where
  add_assoc a b c := by
    show mk _ _ _ = mk _ _ _
    congr 1 <;> exact add_assoc _ _ _
  zero_add a := by
    show mk _ _ _ = a
    cases a
    congr 1 <;> exact zero_add _
  add_zero a := by
    show mk _ _ _ = a
    cases a
    congr 1 <;> exact add_zero _
  add_comm a b := by
    show mk _ _ _ = mk _ _ _
    congr 1 <;> exact add_comm _ _
  nsmul := nsmulRec

/-- The product `s * v` of a scalar and a vector. -/
def smul (s : float R) (v : vec3f R) : vec3f R := ⟨s * v.x, s * v.y, s * v.z⟩

/-- The product `v * s` of a vector and a scalar. -/
def muls (v : vec3f R) (s : float R) : vec3f R := ⟨v.x * s, v.y * s, v.z * s⟩

/-- The quotient `v / s` of a vector by a scalar. -/
def divs (v : vec3f R) (s : float R) : vec3f R := ⟨v.x / s, v.y / s, v.z / s⟩

/-- The comparison `a == b` of two vectors: all components compare equal. -/
def eq (a b : vec3f R) : Bool := float.eq a.x b.x && float.eq a.y b.y && float.eq a.z b.z

/-- The function `glm::abs` on a vector: componentwise. -/
def abs (v : vec3f R) : vec3f R := ⟨float.abs v.x, float.abs v.y, float.abs v.z⟩

end vec3f

variable {R : Type} [SqrtField R]

/-- The function `glm::dot`: `a.x * b.x + a.y * b.y + a.z * b.z`. -/
def dot (a b : vec3f R) : float R := a.x * b.x + a.y * b.y + a.z * b.z

/-- The function `glm::length`: `sqrt(dot(v, v))`. -/
def length (v : vec3f R) : float R := float.sqrt (dot v v)

/-- The function `glm::distance`: `length(p0 - p1)`. -/
def distance (p0 p1 : vec3f R) : float R := length (p0 - p1)

/-- The function `glm::normalize`: `v * inversesqrt(dot(v, v))`. -/
def normalize (v : vec3f R) : vec3f R := vec3f.muls v (float.inversesqrt (dot v v))

/-- The struct `Particle`: position `x`, velocity `v`, mass `m`, net force `F`. -/
structure Particle (R : Type) where
  x : vec3f R
  v : vec3f R
  m : float R
  F : vec3f R
  deriving DecidableEq

/-- A particle standing for the target of an index outside the particle list; states built by
`reset` and `step` hold no such index. -/
instance : Inhabited (Particle R) := ⟨⟨0, 0, float.val 1, 0⟩⟩

/-- The struct `Spring`; the shared pointers `pi` and `pj` are indices into the particle list. -/
structure Spring (R : Type) where
  ks : float R
  kd : float R
  pi : Nat
  pj : Nat
  l : float R
  deriving DecidableEq

/-- The constructor `Spring(a, b, stiffness, damping)`, with the member initialiser
`l = distance(pi->x, pj->x)` evaluated on the particles as they are at construction. -/
def Spring.new (particles : List (Particle R)) (a b : Nat) (stiffness damping : float R) :
    Spring R :=
  { ks := stiffness, kd := damping, pi := a, pj := b,
    l := distance (particles.getD a default).x (particles.getD b default).x }

/-- The data members `particles` and `springs`, which the four model classes all have. -/
structure Model (R : Type) where
  particles : List (Particle R)
  springs : List (Spring R)
  deriving DecidableEq

/-- An assignment through the shared pointer with index `i`: `*p = f(*p)`. -/
def update (particles : List (Particle R)) (i : Nat) (f : Particle R → Particle R) :
    List (Particle R) :=
  particles.set i (f (particles.getD i default))

/-- The spring force `Fs_ij` of `ChainPendulumModel::step`, `ClothModel::step` and
`CubeModel::step`:
`-1.f * spring.ks * (distance(pi->x, pj->x) - spring.l) * normalize(pi->x - pj->x)`. -/
def Fs_ij (spring : Spring R) (pi pj : Particle R) : vec3f R :=
  vec3f.smul (float.val (-1) * spring.ks * (distance pi.x pj.x - spring.l))
    (normalize (pi.x - pj.x))

/-- The damping force `Fd_ij` of `ChainPendulumModel::step`, `ClothModel::step` and
`CubeModel::step`, with its two branches; `kd0` is `springs[0].kd`. -/
def Fd_ij (kd0 : float R) (Fs : vec3f R) (pi pj : Particle R) : vec3f R :=
  if vec3f.eq Fs (vec3f.splat (float.val 0)) then
    let dVector := pi.x - pj.x
    vec3f.smul (float.val (-1) * kd0 * dot (pi.v - pj.v) (normalize dVector)
      / dot (normalize dVector) (normalize dVector)) (normalize dVector)
  else
    vec3f.smul (float.val (-1) * kd0
      * (dot (pi.v - pj.v) (normalize Fs) / dot (normalize Fs) (normalize Fs))) (normalize Fs)

/-- The vector `Fs_ij + Fd_ij` that one spring contributes, computed from the particle list. -/
def springForce (kd0 : float R) (particles : List (Particle R)) (spring : Spring R) : vec3f R :=
  let pi := particles.getD spring.pi default
  let pj := particles.getD spring.pj default
  Fs_ij spring pi pj + Fd_ij kd0 (Fs_ij spring pi pj) pi pj

/-- The body of the loop `for (auto& spring : springs)` of `ChainPendulumModel::step`,
`ClothModel::step` and `CubeModel::step` (the same text in the three functions):
`spring.pi->F += Fs_ij + Fd_ij; spring.pj->F -= (Fs_ij + Fd_ij)`. -/
def springBody (kd0 : float R) (particles : List (Particle R)) (spring : Spring R) :
    List (Particle R) :=
  let f := springForce kd0 particles spring
  let particles := update particles spring.pi (fun p => { p with F := p.F + f })
  update particles spring.pj (fun p => { p with F := p.F - f })

/-- The loop `for (auto& spring : springs)`; the body reads `springs[0].kd`, which exists
whenever the body runs. -/
def springLoop (particles : List (Particle R)) (springs : List (Spring R)) :
    List (Particle R) :=
  match springs with
  | [] => particles
  | spring0 :: _ => springs.foldl (springBody spring0.kd) particles

/-- The body of the loop `for (auto& p : particles)`: gravity, then semi-implicit Euler
integration of the particles with `m > 0`. -/
def integrate (gravity : vec3f R) (dt : float R) (p : Particle R) : Particle R :=
  let p := { p with F := p.F + vec3f.smul p.m gravity }
  if float.gt p.m (float.val 0) then
    let p := { p with v := p.v + vec3f.muls (vec3f.divs p.F p.m) dt }
    let p := { p with x := p.x + vec3f.muls p.v dt }
    { p with F := vec3f.splat (float.val 0) }
  else p

/-- The common text of `ChainPendulumModel::step`, `ClothModel::step` and `CubeModel::step`:
the loop over the springs, then the loop over the particles. -/
def stepWith (gravity : vec3f R) (s : Model R) (dt : float R) : Model R :=
  { s with particles := (springLoop s.particles s.springs).map (integrate gravity dt) }

namespace MassOnASpringModel

/-- Member `mass = 0.1f`. -/
def mass : float R := float.val 0.1
/-- Member `ks = 10.f`. -/
def ks : float R := float.val 10
/-- Member `kd = 0.5`. -/
def kd : float R := float.val 0.5

/-- The first part of `MassOnASpringModel::reset`, up to and including
`springs.push_back(Spring(p0, p1, ks, kd))`; the pointer `p1` is returned with the model. -/
def resetCreate (s : Model R) : Model R × Nat :=
  let s : Model R := { s with particles := [], springs := [] }
  let p0 := s.particles.length
  let s := { s with particles := s.particles ++
    [Particle.mk ⟨float.val 0, float.val 5, float.val 0⟩ (vec3f.splat (float.val 0))
      (float.val 0) (vec3f.splat (float.val 0))] }
  let p1 := s.particles.length
  let s := { s with particles := s.particles ++
    [Particle.mk ⟨float.val 0, float.val (-5), float.val 0⟩ (vec3f.splat (float.val 0))
      mass (vec3f.splat (float.val 0))] }
  let s := { s with springs := s.springs ++ [Spring.new s.particles p0 p1 ks kd] }
  (s, p1)

/-- The function `MassOnASpringModel::reset`: `resetCreate`, then the spring is compressed by
`p1->x = vec3f{0.f, 2.5f, 0.f}`. -/
def reset (s : Model R) : Model R :=
  let st := resetCreate s
  let s := st.1
  let p1 := st.2
  { s with particles :=
      update s.particles p1 (fun p => { p with x := ⟨float.val 0, float.val 2.5, float.val 0⟩ }) }

/-- The function `MassOnASpringModel::step`.  The subscripts `springs[0]` and `particles[1]`
are unchecked in the source; the result is `none` when one of them is out of range. -/
def step (s : Model R) (dt : float R) : Option (Model R) :=
  match s.springs[0]?, s.particles[1]? with
  | some spring0, some _ =>
    let pi := s.particles.getD spring0.pi default
    let pj := s.particles.getD spring0.pj default
    let Fs_ij := vec3f.divs
      (vec3f.smul (float.val (-1) * spring0.ks * (distance pj.x pi.x - spring0.l)) (pj.x - pi.x))
      (distance pj.x pi.x)
    let Fd_ij :=
      if vec3f.eq Fs_ij (vec3f.splat (float.val 0)) then
        let dVector := pj.x - pi.x
        vec3f.smul (float.val (-1) * spring0.kd * dot (pj.v - pi.v) (normalize dVector)
          / dot (normalize dVector) (normalize dVector)) (normalize dVector)
      else
        vec3f.smul (float.val (-1) * spring0.kd
          * (dot (pj.v - pi.v) (normalize Fs_ij) / dot (normalize Fs_ij) (normalize Fs_ij)))
          (normalize Fs_ij)
    let particles := update s.particles 1 (fun p => { p with F := p.F + (Fs_ij + Fd_ij) })
    let particles := update particles 1
      (fun p => { p with v := p.v + vec3f.muls (vec3f.divs p.F p.m) dt })
    let particles := update particles 1 (fun p => { p with x := p.x + vec3f.muls p.v dt })
    let particles := update particles 1 (fun p => { p with F := vec3f.splat (float.val 0) })
    some { s with particles := particles }
  | _, _ => none

/-- A sequence of calls `step(dt)`, one for each element of `dts`. -/
def steps (s : Model R) : List (float R) → Option (Model R)
  | [] => some s
  | dt :: dts => (step s dt).bind (fun s => steps s dts)

end MassOnASpringModel

namespace ChainPendulumModel

/-- Member `mass = 0.5f`. -/
def mass : float R := float.val 0.5
/-- Member `ks = 500.f`. -/
def ks : float R := float.val 500
/-- Member `kd = 0.5f`. -/
def kd : float R := float.val 0.5
/-- Member `gravity = vec3f{0.0f, -9.81f, 0.f}`. -/
def gravity : vec3f R := ⟨float.val 0, float.val (-9.81), float.val 0⟩

/-- The body of the loop `for (int i = 0; i < 10; i++)` of `ChainPendulumModel::reset`; the
loop variable `pf` is carried as an index next to the model. -/
def resetBody (st : Model R × Nat) (i : Nat) : Model R × Nat :=
  let s := st.1
  let pf := st.2
  let p := s.particles.length
  let s := { s with particles := s.particles ++
    [Particle.mk ⟨float.val ((2 * (i + 1) : Nat) : R), float.val 10, float.val 0⟩
      (vec3f.splat (float.val 0)) mass (vec3f.splat (float.val 0))] }
  let s := { s with springs := s.springs ++ [Spring.new s.particles pf p ks kd] }
  (s, p)

/-- The function `ChainPendulumModel::reset`. -/
def reset (s : Model R) : Model R :=
  let s : Model R := { s with particles := [], springs := [] }
  let pf := s.particles.length
  let s := { s with particles := s.particles ++
    [Particle.mk ⟨float.val 0, float.val 10, float.val 0⟩ (vec3f.splat (float.val 0))
      (float.val 0) (vec3f.splat (float.val 0))] }
  ((List.range 10).foldl resetBody (s, pf)).1

/-- The function `ChainPendulumModel::step`. -/
def step (s : Model R) (dt : float R) : Model R := stepWith gravity s dt

end ChainPendulumModel

namespace ClothModel

/-- Member `mass = 0.1f`. -/
def mass : float R := float.val 0.1
/-- Member `ks = 100.f`. -/
def ks : float R := float.val 100
/-- Member `kd = 0.5f`. -/
def kd : float R := float.val 0.5
/-- Member `gravity = vec3f{0.0f, -9.81f, 0.f}`. -/
def gravity : vec3f R := ⟨float.val 0, float.val (-9.81), float.val 0⟩

/-- The particle pushed for grid cell `(i, j)` in `ClothModel::reset`. -/
def newParticle (i j : Nat) : Particle R :=
  let m : float R := mass
  let m : float R := if (i = 0 ∧ j = 0) ∨ (i = 0 ∧ j = 9) then float.val 0 else m
  ⟨⟨float.val 2 * (float.val (i : R) - float.val 5), float.val 0,
      float.val 2 * (float.val (j : R) - float.val 5)⟩,
    vec3f.splat (float.val 0), m, vec3f.splat (float.val 0)⟩

/-- The loops that create the particles in `ClothModel::reset`. -/
def resetParticles (particles : List (Particle R)) : List (Particle R) :=
  (List.range 10).foldl (fun particles i =>
    (List.range 10).foldl (fun particles j => particles ++ [newParticle i j]) particles)
    particles

/-- The loops that create the springs in `ClothModel::reset`. -/
def resetSprings (particles : List (Particle R)) (springs : List (Spring R)) :
    List (Spring R) :=
  (List.range particles.length).foldl (fun springs i =>
    (List.range i).foldl (fun springs j =>
      let d := vec3f.abs ((particles.getD i default).x - (particles.getD j default).x)
      if float.le d.x (float.val 2) && float.le d.z (float.val 2) then
        springs ++ [Spring.new particles i j ks kd]
      else springs) springs) springs

/-- The function `ClothModel::reset`. -/
def reset (s : Model R) : Model R :=
  let s : Model R := { s with particles := [], springs := [] }
  let s := { s with particles := resetParticles s.particles }
  { s with springs := resetSprings s.particles s.springs }

/-- The function `ClothModel::step`. -/
def step (s : Model R) (dt : float R) : Model R := stepWith gravity s dt

end ClothModel

namespace CubeModel

/-- Member `mass = 1.f`. -/
def mass : float R := float.val 1
/-- Member `ks = 150.f`. -/
def ks : float R := float.val 150
/-- Member `kd = 0.2f`. -/
def kd : float R := float.val 0.2
/-- Member `gravity = vec3f{0.0f, -9.81f, 0.f}`. -/
def gravity : vec3f R := ⟨float.val 0, float.val (-9.81), float.val 0⟩

/-- The particle pushed for the indices `(i, j, k, h)` in `CubeModel::reset`; `k` is unused
in the source. -/
def newParticle (i j _k h : Nat) : Particle R :=
  ⟨⟨float.val ((2 * i : Nat) : R), float.val ((2 * h : Nat) : R),
      float.val 2 * (float.val (j : R) - float.val 5)⟩,
    vec3f.splat (float.val 0), mass, vec3f.splat (float.val 0)⟩

/-- The loops that create the particles in `CubeModel::reset`. -/
def resetParticles (particles : List (Particle R)) : List (Particle R) :=
  (List.range 6).foldl (fun particles i =>
    (List.range 6).foldl (fun particles j =>
      (List.range 6).foldl (fun particles k =>
        (List.range 6).foldl (fun particles h => particles ++ [newParticle i j k h]) particles)
        particles) particles) particles

/-- The loops that create the springs in `CubeModel::reset`. -/
def resetSprings (particles : List (Particle R)) (springs : List (Spring R)) :
    List (Spring R) :=
  (List.range particles.length).foldl (fun springs i =>
    (List.range i).foldl (fun springs j =>
      let d := vec3f.abs ((particles.getD i default).x - (particles.getD j default).x)
      if float.le d.x (float.val 2) && float.le d.y (float.val 2) && float.le d.z (float.val 2)
      then springs ++ [Spring.new particles i j ks kd]
      else springs) springs) springs

/-- The function `CubeModel::reset`. -/
def reset (s : Model R) : Model R :=
  let s : Model R := { s with particles := [], springs := [] }
  let s := { s with particles := resetParticles s.particles }
  { s with springs := resetSprings s.particles s.springs }

/-- The function `CubeModel::step`. -/
def step (s : Model R) (dt : float R) : Model R := stepWith gravity s dt

end CubeModel

/-- A sequence of calls `step(dt)`, one for each element of `dts`. -/
def stepsWith (step : Model R → float R → Model R) (s : Model R) (dts : List (float R)) :
    Model R :=
  dts.foldl step s

/-- The position, velocity and mass of a particle: all of it but the force accumulator. -/
def kin (p : Particle R) : vec3f R × vec3f R × float R := (p.x, p.v, p.m)

/-- The states of a model with a total `step`: those that `reset()` produces and those that a
call of `step(dt)` produces from one of them. -/
inductive Reachable (reset : Model R → Model R) (step : Model R → float R → Model R) :
    Model R → Prop
  | init (s : Model R) : Reachable reset step (reset s)
  | next {s : Model R} (dt : float R) : Reachable reset step s → Reachable reset step (step s dt)

/-- The states of `MassOnASpringModel`: those that `reset()` produces and those that a call of
`step(dt)` produces from one of them. -/
inductive MassOnASpringModel.Reachable : Model R → Prop
  | init (s : Model R) : MassOnASpringModel.Reachable (MassOnASpringModel.reset s)
  | next {s s' : Model R} (dt : float R) : MassOnASpringModel.Reachable s →
      MassOnASpringModel.step s dt = some s' → MassOnASpringModel.Reachable s'

/-- The fixed particle that `MassOnASpringModel::reset` creates. -/
def MassOnASpringModel.p0 : Particle R :=
  ⟨⟨float.val 0, float.val 5, float.val 0⟩, 0, float.val 0, 0⟩

/-- The shape of the states of `MassOnASpringModel`: the fixed particle `p0`, one particle of
mass `mass` with a zero force accumulator, and one spring from the first to the second with rest
length `10`. -/
def MassOnASpringModel.WellFormed (s : Model R) : Prop :=
  ∃ x v : vec3f R, s = ⟨[MassOnASpringModel.p0, ⟨x, v, MassOnASpringModel.mass, 0⟩],
    [⟨MassOnASpringModel.ks, MassOnASpringModel.kd, 0, 1, float.val 10⟩]⟩

/-- Every particle of `s` with `mass == 0` is in `s'`, at the same index, with the same
position, velocity and mass. -/
def FixedKept (s s' : Model R) : Prop :=
  ∀ (i : Nat) (p : Particle R), s.particles[i]? = some p → p.m = float.val 0 →
    ∃ p', s'.particles[i]? = some p' ∧ p'.x = p.x ∧ p'.v = p.v ∧ p'.m = p.m

/-- Every free particle (`m > 0`) of `s` has a zero force accumulator. -/
def FreeForcesZero (s : Model R) : Prop :=
  ∀ p ∈ s.particles, float.gt p.m (float.val 0) = true → p.F = 0

/-- What one spring adds to the force accumulator of the particle with index `k`:
`springForce` if `k` is its `pi`, minus `springForce` if `k` is its `pj`; the force is computed
from the given particle list. -/
def contribution (kd0 : float R) (particles : List (Particle R)) (k : Nat) (spring : Spring R) :
    vec3f R :=
  (if spring.pi = k then springForce kd0 particles spring else 0)
    + (if spring.pj = k then -(springForce kd0 particles spring) else 0)

/-- The sum `S` of the contributions of all springs of `s` to the particle with index `k`, every
one computed from the positions and velocities that the particles have in `s`. -/
def springSum (s : Model R) (k : Nat) : vec3f R :=
  match s.springs with
  | [] => 0
  | spring0 :: _ => (s.springs.map (contribution spring0.kd s.particles k)).sum

/-- The Hookean term in the words of the specification (section 4.1), as a function of the
displacement vector `d`: `Fs = -ks * (len - l) * normalize(d)` with `len = |d|`. -/
def hooke (ks l : float R) (d : vec3f R) : vec3f R :=
  vec3f.smul (-ks * (length d - l)) (normalize d)

/-- The vector all of whose components are `nan`. -/
def vec3f.nan : vec3f R := ⟨float.nan, float.nan, float.nan⟩

/-- A stretched spring: particle `0` at the origin, particle `1` at `(3, 0, 0)`, both at rest
and of mass `1`; one spring with `pi = 0`, `pj = 1`, `ks = 1`, `kd = 0.5` and rest length `2`. -/
def stretched : List (Particle R) × Spring R :=
  ([⟨⟨float.val 0, float.val 0, float.val 0⟩, 0, float.val 1, 0⟩,
    ⟨⟨float.val 3, float.val 0, float.val 0⟩, 0, float.val 1, 0⟩],
   ⟨float.val 1, float.val 0.5, 0, 1, float.val 2⟩)

/-- The loop body of `step` with the damping coefficient of the spring itself, `spring.kd`, in
the place of `springs[0].kd`. -/
def springBodyOwnKd (particles : List (Particle R)) (spring : Spring R) : List (Particle R) :=
  springBody spring.kd particles spring

/-- A step that uses each spring's own `kd`: the text of `ChainPendulumModel::step`,
`ClothModel::step` and `CubeModel::step` with `spring.kd` in the place of `springs[0].kd`. -/
def stepOwnKd (gravity : vec3f R) (s : Model R) (dt : float R) : Model R :=
  { s with particles := (s.springs.foldl springBodyOwnKd s.particles).map (integrate gravity dt) }

/-- The value that the fallback branch of the damping force computes (the branch taken when
`Fs_ij == vec3f{0.f}`), for the displacement `dVector = pi->x - pj->x` and the relative velocity
`dv = pi->v - pj->v`. -/
def dampingFallback (kd0 : float R) (dVector dv : vec3f R) : vec3f R :=
  vec3f.smul (float.val (-1) * kd0 * dot dv (normalize dVector)
    / dot (normalize dVector) (normalize dVector)) (normalize dVector)

/-- The value that the else-branch of the damping force computes, for the spring force `Fs` and
the relative velocity `dv = pi->v - pj->v`. -/
def dampingElse (kd0 : float R) (Fs dv : vec3f R) : vec3f R :=
  vec3f.smul (float.val (-1) * kd0
    * (dot dv (normalize Fs) / dot (normalize Fs) (normalize Fs))) (normalize Fs)

/-- The projection of `dv` onto the axis of the spring with displacement `d`:
`dot(dv, n) * n` with `n = normalize(d)`. -/
def axisProjection (d dv : vec3f R) : vec3f R :=
  vec3f.smul (dot dv (normalize d)) (normalize d)

/-- The vector sum of the force accumulators of all particles. -/
def totalForce (particles : List (Particle R)) : vec3f R :=
  (particles.map (fun p => p.F)).sum

/-- The total momentum of a state: the sum of `m * v` over all particles. -/
def momentum (s : Model R) : vec3f R :=
  (s.particles.map (fun p => vec3f.smul p.m p.v)).sum

/-- Whether the spring joins the particles with indices `a` and `b`, in either orientation. -/
def Spring.joins (sp : Spring R) (a b : Nat) : Bool :=
  (sp.pi == a && sp.pj == b) || (sp.pi == b && sp.pj == a)

/-- Grid neighbourhood of the cloth particles with indices `a` and `b`, where index `n` is the
particle of grid cell `(n / 10, n % 10)`: the rows differ by at most one and the columns differ
by at most one. -/
def ClothModel.adjacent (a b : Nat) : Bool :=
  decide (a / 10 ≤ b / 10 + 1 ∧ b / 10 ≤ a / 10 + 1 ∧ a % 10 ≤ b % 10 + 1 ∧ b % 10 ≤ a % 10 + 1)

/-- Whether the cloth particles with indices `a` and `b` lie in one row or in one column. -/
def ClothModel.axisAligned (a b : Nat) : Bool :=
  decide (a / 10 = b / 10 ∨ a % 10 = b % 10)

/-- The index pairs `(a, b)`, `b < a < 100`, of neighbouring cloth particles, in the order of
the loops of `ClothModel::reset`. -/
def ClothModel.pairs : List (Nat × Nat) :=
  (List.range 100).flatMap (fun a =>
    ((List.range a).filter (fun b => ClothModel.adjacent a b)).map (fun b => (a, b)))

/-- Whether two lattice coordinates differ by at most one. -/
def CubeModel.near (u v : Nat) : Bool := decide (u ≤ v + 1 ∧ v ≤ u + 1)

/-- A relation `r` on lattice coordinates, applied to the three coordinates that enter the
position of the cube particles with indices `a` and `b`: index `n` is the particle created for
`i = n / 216`, `j = n % 216 / 36`, `k = n % 216 % 36 / 6`, `h = n % 216 % 36 % 6`, and `k` is
left out. -/
def CubeModel.rel3 (r : Nat → Nat → Bool) (a b : Nat) : Bool :=
  r (a / 216) (b / 216) && (r (a % 216 / 36) (b % 216 / 36)
    && r (a % 216 % 36 % 6) (b % 216 % 36 % 6))

/-- Neighbourhood of the cube particles with indices `a` and `b`: each of the three coordinates
that enter the position differs by at most one. -/
def CubeModel.adjacent (a b : Nat) : Bool := CubeModel.rel3 CubeModel.near a b

/-- Whether the cube particles with indices `a` and `b` have the same three coordinates
`i`, `j`, `h`. -/
def CubeModel.colocated (a b : Nat) : Bool := CubeModel.rel3 (fun u v => decide (u = v)) a b

/-- The index pairs `(a, b)`, `b < a < 1296`, of neighbouring cube particles, in the order of
the loops of `CubeModel::reset`. -/
def CubeModel.pairs : List (Nat × Nat) :=
  (List.range 1296).flatMap (fun a =>
    ((List.range a).filter (fun b => CubeModel.adjacent a b)).map (fun b => (a, b)))

/-- The position that `CubeModel::reset` gives to the particles created for `i`, `j`, `h`. -/
def CubeModel.latticePoint (i j h : Nat) : vec3f R :=
  ⟨float.val ((2 * i : Nat) : R), float.val ((2 * h : Nat) : R),
    float.val 2 * (float.val (j : R) - float.val 5)⟩

/-- The spring force `Fs_ij` of `MassOnASpringModel::step`:
`-1.f * springs[0].ks * (distance(pj->x, pi->x) - springs[0].l) * (pj->x - pi->x)
/ distance(pj->x, pi->x)`. -/
def MassOnASpringModel.Fs_ij (spring0 : Spring R) (pi pj : Particle R) : vec3f R :=
  vec3f.divs
    (vec3f.smul (float.val (-1) * spring0.ks * (distance pj.x pi.x - spring0.l)) (pj.x - pi.x))
    (distance pj.x pi.x)

/-- The damping force `Fd_ij` of `MassOnASpringModel::step`, with its two branches. -/
def MassOnASpringModel.Fd_ij (spring0 : Spring R) (Fs : vec3f R) (pi pj : Particle R) :
    vec3f R :=
  if vec3f.eq Fs (vec3f.splat (float.val 0)) then
    let dVector := pj.x - pi.x
    vec3f.smul (float.val (-1) * spring0.kd * dot (pj.v - pi.v) (normalize dVector)
      / dot (normalize dVector) (normalize dVector)) (normalize dVector)
  else
    vec3f.smul (float.val (-1) * spring0.kd
      * (dot (pj.v - pi.v) (normalize Fs) / dot (normalize Fs) (normalize Fs))) (normalize Fs)

/-! ## Binary32 arithmetic

The definitions above compute in exact arithmetic.  The definitions below compute as the
program does on a platform whose `float` is IEEE 754 binary32: every operation is evaluated in
binary32 and rounded to nearest, ties to even, with signed zeros, infinities and `nan`.  The
text of the functions is the same; only the type of the scalars differs. -/

/-- A datum of the IEEE 754 binary32 format, the type `float` of the program: `nan`, the
infinities, and the finite values `(-1)^neg * m * 2^e`, kept in the form with `m` odd, or
`m = 0` and `e = 0` for the two zeros. -/
inductive float32 where
  | nan : float32
  | inf (neg : Bool) : float32
  | fin (neg : Bool) (m : Nat) (e : Int) : float32
  deriving DecidableEq

namespace float32

/-- The number of binary digits of `n`, counted in at most `fuel` halvings. -/
def bitLengthFrom : Nat → Nat → Nat
  | 0, _ => 0
  | fuel + 1, n => if n = 0 then 0 else bitLengthFrom fuel (n / 2) + 1

/-- The number of binary digits of `n`. -/
def bitLength (n : Nat) : Nat := bitLengthFrom n n

/-- Removes factors two from `m`, at most `fuel` of them, raising the exponent. -/
def stripZeros : Nat → Nat → Int → Nat × Int
  | 0, m, e => (m, e)
  | fuel + 1, m, e => if m ≠ 0 ∧ m % 2 = 0 then stripZeros fuel (m / 2) (e + 1) else (m, e)

/-- The finite datum `(-1)^neg * m * 2^e` in the kept form. -/
def mkFin (neg : Bool) (m : Nat) (e : Int) : float32 :=
  if m = 0 then fin neg 0 0
  else fin neg (stripZeros (bitLength m) m e).1 (stripZeros (bitLength m) m e).2

/-- The integer `floor (log2 (n / d))` for positive `n` and `d`. -/
def ilog2 (n d : Nat) : Int :=
  let l : Int := (bitLength n : Int) - (bitLength d : Int)
  if 0 ≤ l then (if d * 2 ^ l.toNat ≤ n then l else l - 1)
  else (if d ≤ n * 2 ^ (-l).toNat then l else l - 1)

/-- Rounding to nearest, ties to even: the binary32 datum nearest to `(-1)^neg * (n / d) * 2^e`,
for `d > 0`.  The spacing of the format at a value of binary exponent `E` is `2^(E - 23)`, and
`2^(-149)` in the subnormal range; a rounded magnitude of `2^128` or more is an infinity. -/
def round (neg : Bool) (n d : Nat) (e : Int) : float32 :=
  if n = 0 then fin neg 0 0
  else
    let g : Int := max (ilog2 n d + e - 23) (-149)
    let s : Int := e - g
    let N : Nat := if 0 ≤ s then n * 2 ^ s.toNat else n
    let D : Nat := if 0 ≤ s then d else d * 2 ^ (-s).toNat
    let q : Nat := N / D
    let r : Nat := N % D
    let q : Nat := if 2 * r < D then q else if D < 2 * r then q + 1
      else if q % 2 = 0 then q else q + 1
    if 104 < g ∨ (g = 104 ∧ 2 ^ 24 ≤ q) then inf neg else mkFin neg q g

/-- The binary32 datum nearest to the decimal literal `n / d`. -/
def lit (n d : Nat) : float32 := round false n d 0

/-- Unary minus. -/
def neg : float32 → float32
  | nan => nan
  | inf s => inf (!s)
  | fin s m e => fin (!s) m e

/-- The integer `(-1)^neg * m * 2^(e - e0)`, for `e0 ≤ e`. -/
def scaled (neg : Bool) (m : Nat) (e e0 : Int) : Int :=
  if neg then -((m * 2 ^ (e - e0).toNat : Nat) : Int) else ((m * 2 ^ (e - e0).toNat : Nat) : Int)

/-- Addition. -/
def add : float32 → float32 → float32
  | nan, _ => nan
  | _, nan => nan
  | inf s, inf t => if s = t then inf s else nan
  | inf s, fin _ _ _ => inf s
  | fin _ _ _, inf t => inf t
  | fin s m e, fin t n f =>
    let e0 := min e f
    let z : Int := scaled s m e e0 + scaled t n f e0
    if z = 0 then fin (s && t) 0 0 else round (decide (z < 0)) z.natAbs 1 e0

/-- Subtraction. -/
def sub (a b : float32) : float32 := add a (neg b)

/-- Multiplication. -/
def mul : float32 → float32 → float32
  | nan, _ => nan
  | _, nan => nan
  | inf s, inf t => inf (xor s t)
  | inf s, fin t n _ => if n = 0 then nan else inf (xor s t)
  | fin s m _, inf t => if m = 0 then nan else inf (xor s t)
  | fin s m e, fin t n f => round (xor s t) (m * n) 1 (e + f)

/-- Division. -/
def div : float32 → float32 → float32
  | nan, _ => nan
  | _, nan => nan
  | inf _, inf _ => nan
  | inf s, fin t _ _ => inf (xor s t)
  | fin s _ _, inf t => fin (xor s t) 0 0
  | fin s m e, fin t n f =>
    if n = 0 then (if m = 0 then nan else inf (xor s t))
    else round (xor s t) m n (e - f)

/-- The integer `floor (sqrt n)`, found digit by digit from binary digit `k - 1` downwards,
starting from `r`. -/
def isqrtFrom (n : Nat) : Nat → Nat → Nat
  | 0, r => r
  | k + 1, r => if (r + 2 ^ k) * (r + 2 ^ k) ≤ n then isqrtFrom n k (r + 2 ^ k)
    else isqrtFrom n k r

/-- The integer `floor (sqrt n)`. -/
def isqrt (n : Nat) : Nat := isqrtFrom n (bitLength n / 2 + 1) 0

/-- The function `sqrt` of `<cmath>`, correctly rounded.  The argument `m * 2^e` is written as
`x * 2^(2 h)` with an integer `x` of at least 52 binary digits; the root of `x` lies between
`r = floor (sqrt x)` and `r + 1`, and is rounded like `r` itself when `r * r = x` and like
`r + 1/2` otherwise, because `r` has more than 25 binary digits. -/
def sqrt : float32 → float32
  | nan => nan
  | inf s => if s then nan else inf false
  | fin s m e =>
    if m = 0 then fin s 0 0
    else if s then nan
    else
      let k : Nat := if e % 2 = 0 then 52 else 53
      let x : Nat := m * 2 ^ k
      let r : Nat := isqrt x
      round false (if r * r = x then 2 * r else 2 * r + 1) 2 ((e - k) / 2)

/-- The comparison `a == b`: false when either is `nan`; the two zeros are equal. -/
def eq : float32 → float32 → Bool
  | inf s, inf t => s == t
  | fin s m e, fin t n f => (m == 0 && n == 0) || (s == t && m == n && e == f)
  | _, _ => false

/-- The comparison `a < b`: false when either is `nan`. -/
def lt : float32 → float32 → Bool
  | nan, _ => false
  | _, nan => false
  | inf s, inf t => s && !t
  | inf s, fin _ _ _ => s
  | fin _ _ _, inf t => !t
  | fin s m e, fin t n f => decide (scaled s m e (min e f) < scaled t n f (min e f))

/-- The comparison `a > b`. -/
def gt (a b : float32) : Bool := lt b a

/-- The comparison `a <= b`. -/
def le (a b : float32) : Bool := lt a b || eq a b

instance : Add float32 := ⟨add⟩
instance : Sub float32 := ⟨sub⟩
instance : Mul float32 := ⟨mul⟩
instance : Div float32 := ⟨div⟩
instance : Neg float32 := ⟨neg⟩

end float32

namespace binary32

/-- The type `vec3f` (`glm::vec3`) with binary32 components. -/
structure vec3f where
  x : float32
  y : float32
  z : float32
  deriving DecidableEq

namespace vec3f

/-- The constructor `vec3f{s}`: all three components equal to `s`. -/
def splat (s : float32) : vec3f := ⟨s, s, s⟩

instance : Add vec3f := ⟨fun a b => ⟨a.x + b.x, a.y + b.y, a.z + b.z⟩⟩
instance : Sub vec3f := ⟨fun a b => ⟨a.x - b.x, a.y - b.y, a.z - b.z⟩⟩

/-- The product `s * v` of a scalar and a vector. -/
def smul (s : float32) (v : vec3f) : vec3f := ⟨s * v.x, s * v.y, s * v.z⟩

/-- The product `v * s` of a vector and a scalar. -/
def muls (v : vec3f) (s : float32) : vec3f := ⟨v.x * s, v.y * s, v.z * s⟩

/-- The quotient `v / s` of a vector by a scalar. -/
def divs (v : vec3f) (s : float32) : vec3f := ⟨v.x / s, v.y / s, v.z / s⟩

/-- The comparison `a == b` of two vectors: all components compare equal. -/
def eq (a b : vec3f) : Bool := float32.eq a.x b.x && float32.eq a.y b.y && float32.eq a.z b.z

end vec3f

/-- The function `glm::dot`: `a.x * b.x + a.y * b.y + a.z * b.z`. -/
def dot (a b : vec3f) : float32 := a.x * b.x + a.y * b.y + a.z * b.z

/-- The function `glm::length`: `sqrt(dot(v, v))`. -/
def length (v : vec3f) : float32 := float32.sqrt (dot v v)

/-- The function `glm::distance`: `length(p0 - p1)`. -/
def distance (p0 p1 : vec3f) : float32 := length (p0 - p1)

/-- The function `glm::inversesqrt`: `1 / sqrt(x)`. -/
def inversesqrt (x : float32) : float32 := float32.lit 1 1 / float32.sqrt x

/-- The function `glm::normalize`: `v * inversesqrt(dot(v, v))`. -/
def normalize (v : vec3f) : vec3f := vec3f.muls v (inversesqrt (dot v v))

/-- The struct `Particle` with binary32 members. -/
structure Particle where
  x : vec3f
  v : vec3f
  m : float32
  F : vec3f
  deriving DecidableEq

instance : Inhabited Particle :=
  ⟨⟨vec3f.splat (float32.lit 0 1), vec3f.splat (float32.lit 0 1), float32.lit 1 1,
    vec3f.splat (float32.lit 0 1)⟩⟩

/-- The struct `Spring` with binary32 members; the shared pointers are list indices. -/
structure Spring where
  ks : float32
  kd : float32
  pi : Nat
  pj : Nat
  l : float32
  deriving DecidableEq

/-- The constructor `Spring(a, b, stiffness, damping)`. -/
def Spring.new (particles : List Particle) (a b : Nat) (stiffness damping : float32) : Spring :=
  { ks := stiffness, kd := damping, pi := a, pj := b,
    l := distance (particles.getD a default).x (particles.getD b default).x }

/-- The data members `particles` and `springs`. -/
structure Model where
  particles : List Particle
  springs : List Spring
  deriving DecidableEq

/-- An assignment through the shared pointer with index `i`: `*p = f(*p)`. -/
def update (particles : List Particle) (i : Nat) (f : Particle → Particle) : List Particle :=
  particles.set i (f (particles.getD i default))

/-- The value of the fallback branch of the damping force. -/
def dampingFallback (kd0 : float32) (dVector dv : vec3f) : vec3f :=
  vec3f.smul (-(float32.lit 1 1) * kd0 * dot dv (normalize dVector)
    / dot (normalize dVector) (normalize dVector)) (normalize dVector)

/-- The value of the else-branch of the damping force. -/
def dampingElse (kd0 : float32) (Fs dv : vec3f) : vec3f :=
  vec3f.smul (-(float32.lit 1 1) * kd0
    * (dot dv (normalize Fs) / dot (normalize Fs) (normalize Fs))) (normalize Fs)

namespace MassOnASpringModel

/-- Member `mass = 0.1f`. -/
def mass : float32 := float32.lit 1 10
/-- Member `ks = 10.f`. -/
def ks : float32 := float32.lit 10 1
/-- Member `kd = 0.5`. -/
def kd : float32 := float32.lit 5 10

/-- The first part of `MassOnASpringModel::reset`, up to and including
`springs.push_back(Spring(p0, p1, ks, kd))`; the pointer `p1` is returned with the model. -/
def resetCreate (s : Model) : Model × Nat :=
  let s : Model := { s with particles := [], springs := [] }
  let p0 := s.particles.length
  let s := { s with particles := s.particles ++
    [Particle.mk ⟨float32.lit 0 1, float32.lit 5 1, float32.lit 0 1⟩
      (vec3f.splat (float32.lit 0 1)) (float32.lit 0 1) (vec3f.splat (float32.lit 0 1))] }
  let p1 := s.particles.length
  let s := { s with particles := s.particles ++
    [Particle.mk ⟨float32.lit 0 1, -(float32.lit 5 1), float32.lit 0 1⟩
      (vec3f.splat (float32.lit 0 1)) mass (vec3f.splat (float32.lit 0 1))] }
  let s := { s with springs := s.springs ++ [Spring.new s.particles p0 p1 ks kd] }
  (s, p1)

/-- The function `MassOnASpringModel::reset`: `resetCreate`, then the spring is compressed by
`p1->x = vec3f{0.f, 2.5f, 0.f}`. -/
def reset (s : Model) : Model :=
  let st := resetCreate s
  let s := st.1
  let p1 := st.2
  let x1 : vec3f := ⟨float32.lit 0 1, float32.lit 25 10, float32.lit 0 1⟩
  { s with particles := update s.particles p1 (fun p => { p with x := x1 }) }

/-- The spring force `Fs_ij` of `MassOnASpringModel::step`. -/
def Fs_ij (spring0 : Spring) (pi pj : Particle) : vec3f :=
  vec3f.divs
    (vec3f.smul (-(float32.lit 1 1) * spring0.ks * (distance pj.x pi.x - spring0.l))
      (pj.x - pi.x))
    (distance pj.x pi.x)

/-- The function `MassOnASpringModel::step`. -/
def step (s : Model) (dt : float32) : Option Model :=
  match s.springs[0]?, s.particles[1]? with
  | some spring0, some _ =>
    let pi := s.particles.getD spring0.pi default
    let pj := s.particles.getD spring0.pj default
    let Fs := Fs_ij spring0 pi pj
    let Fd :=
      if vec3f.eq Fs (vec3f.splat (float32.lit 0 1)) then
        dampingFallback spring0.kd (pj.x - pi.x) (pj.v - pi.v)
      else dampingElse spring0.kd Fs (pj.v - pi.v)
    let particles := update s.particles 1 (fun p => { p with F := p.F + (Fs + Fd) })
    let particles := update particles 1
      (fun p => { p with v := p.v + vec3f.muls (vec3f.divs p.F p.m) dt })
    let particles := update particles 1 (fun p => { p with x := p.x + vec3f.muls p.v dt })
    let particles := update particles 1
      (fun p => { p with F := vec3f.splat (float32.lit 0 1) })
    some { s with particles := particles }
  | _, _ => none

/-- A sequence of calls `step(dt)`. -/
def steps (s : Model) : List float32 → Option Model
  | [] => some s
  | dt :: dts => (step s dt).bind (fun s => steps s dts)

end MassOnASpringModel

/-- The spring force `Fs_ij` of `ChainPendulumModel::step`, `ClothModel::step` and
`CubeModel::step`. -/
def Fs_ij (spring : Spring) (pi pj : Particle) : vec3f :=
  vec3f.smul (-(float32.lit 1 1) * spring.ks * (distance pi.x pj.x - spring.l))
    (normalize (pi.x - pj.x))

/-- The damping force `Fd_ij` of `ChainPendulumModel::step`, `ClothModel::step` and
`CubeModel::step`, with its two branches; `kd0` is `springs[0].kd`. -/
def Fd_ij (kd0 : float32) (Fs : vec3f) (pi pj : Particle) : vec3f :=
  if vec3f.eq Fs (vec3f.splat (float32.lit 0 1)) then
    dampingFallback kd0 (pi.x - pj.x) (pi.v - pj.v)
  else dampingElse kd0 Fs (pi.v - pj.v)

/-- The vector `Fs_ij + Fd_ij` that one spring contributes. -/
def springForce (kd0 : float32) (particles : List Particle) (spring : Spring) : vec3f :=
  let pi := particles.getD spring.pi default
  let pj := particles.getD spring.pj default
  Fs_ij spring pi pj + Fd_ij kd0 (Fs_ij spring pi pj) pi pj

/-- The body of the loop `for (auto& spring : springs)`. -/
def springBody (kd0 : float32) (particles : List Particle) (spring : Spring) : List Particle :=
  let f := springForce kd0 particles spring
  let particles := update particles spring.pi (fun p => { p with F := p.F + f })
  update particles spring.pj (fun p => { p with F := p.F - f })

/-- The loop `for (auto& spring : springs)`. -/
def springLoop (particles : List Particle) (springs : List Spring) : List Particle :=
  match springs with
  | [] => particles
  | spring0 :: _ => springs.foldl (springBody spring0.kd) particles

/-- The body of the loop `for (auto& p : particles)`. -/
def integrate (gravity : vec3f) (dt : float32) (p : Particle) : Particle :=
  let p := { p with F := p.F + vec3f.smul p.m gravity }
  if float32.gt p.m (float32.lit 0 1) then
    let p := { p with v := p.v + vec3f.muls (vec3f.divs p.F p.m) dt }
    let p := { p with x := p.x + vec3f.muls p.v dt }
    { p with F := vec3f.splat (float32.lit 0 1) }
  else p

/-- The common text of `ChainPendulumModel::step`, `ClothModel::step` and `CubeModel::step`. -/
def stepWith (gravity : vec3f) (s : Model) (dt : float32) : Model :=
  { s with particles := (springLoop s.particles s.springs).map (integrate gravity dt) }

namespace ChainPendulumModel

/-- Member `mass = 0.5f`. -/
def mass : float32 := float32.lit 5 10
/-- Member `ks = 500.f`. -/
def ks : float32 := float32.lit 500 1
/-- Member `kd = 0.5f`. -/
def kd : float32 := float32.lit 5 10
/-- Member `gravity = vec3f{0.0f, -9.81f, 0.f}`. -/
def gravity : vec3f := ⟨float32.lit 0 1, -(float32.lit 981 100), float32.lit 0 1⟩

/-- The body of the loop `for (int i = 0; i < 10; i++)` of `ChainPendulumModel::reset`. -/
def resetBody (st : Model × Nat) (i : Nat) : Model × Nat :=
  let s := st.1
  let pf := st.2
  let p := s.particles.length
  let s := { s with particles := s.particles ++
    [Particle.mk ⟨float32.lit (2 * (i + 1)) 1, float32.lit 10 1, float32.lit 0 1⟩
      (vec3f.splat (float32.lit 0 1)) mass (vec3f.splat (float32.lit 0 1))] }
  let s := { s with springs := s.springs ++ [Spring.new s.particles pf p ks kd] }
  (s, p)

/-- The function `ChainPendulumModel::reset`. -/
def reset (s : Model) : Model :=
  let s : Model := { s with particles := [], springs := [] }
  let pf := s.particles.length
  let s := { s with particles := s.particles ++
    [Particle.mk ⟨float32.lit 0 1, float32.lit 10 1, float32.lit 0 1⟩
      (vec3f.splat (float32.lit 0 1)) (float32.lit 0 1) (vec3f.splat (float32.lit 0 1))] }
  ((List.range 10).foldl resetBody (s, pf)).1

/-- The function `ChainPendulumModel::step`. -/
def step (s : Model) (dt : float32) : Model := stepWith gravity s dt

end ChainPendulumModel

end binary32

/-! ## Lemmas -/

namespace float

@[simp] theorem val_add_val (a b : R) : (val a + val b : float R) = val (a + b) := rfl
@[simp] theorem val_sub_val (a b : R) : (val a - val b : float R) = val (a - b) := rfl
@[simp] theorem val_mul_val (a b : R) : (val a * val b : float R) = val (a * b) := rfl
@[simp] theorem neg_val (a : R) : (-(val a) : float R) = val (-a) := rfl
@[simp] theorem nan_add (a : float R) : nan + a = nan := by cases a <;> rfl
@[simp] theorem add_nan (a : float R) : a + nan = nan := by cases a <;> rfl
@[simp] theorem nan_sub (a : float R) : nan - a = nan := by cases a <;> rfl
@[simp] theorem sub_nan (a : float R) : a - nan = nan := by cases a <;> rfl
@[simp] theorem nan_mul (a : float R) : nan * a = nan := by cases a <;> rfl
@[simp] theorem mul_nan (a : float R) : a * nan = nan := by cases a <;> rfl
@[simp] theorem neg_nan : (-(nan) : float R) = nan := rfl
@[simp] theorem nan_div (a : float R) : nan / a = nan := by cases a <;> rfl
@[simp] theorem div_nan (a : float R) : a / nan = nan := by cases a <;> rfl
theorem val_div_val (a b : R) :
    (val a / val b : float R) = if b = 0 then nan else val (a / b) := rfl
@[simp] theorem val_div_val_of_ne (a : R) {b : R} (h : b ≠ 0) :
    (val a / val b : float R) = val (a / b) := by
  rw [val_div_val, if_neg h]
@[simp] theorem val_div_zero (a : R) : (val a / val 0 : float R) = nan := by
  rw [val_div_val, if_pos rfl]
theorem zero_def : (0 : float R) = val 0 := rfl

theorem sqrt_eq_of_mul_self {a x : R} (ha : 0 ≤ a) (h : a * a = x) :
    SqrtField.sqrt x = a := by
  have hx : 0 ≤ x := h ▸ mul_self_nonneg a
  have h1 := SqrtField.sqrt_mul_self x hx
  have h2 := SqrtField.sqrt_nonneg x
  nlinarith [sq_nonneg (SqrtField.sqrt x - a), sq_nonneg (SqrtField.sqrt x + a)]

theorem sqrt_val {a x : R} (ha : 0 ≤ a) (h : a * a = x) : sqrt (val x) = val a := by
  have hx : ¬ x < 0 := not_lt.mpr (h ▸ mul_self_nonneg a)
  simp [sqrt, hx, sqrt_eq_of_mul_self ha h]

end float

theorem distance_val {a b c d e f g : R} (h : 0 ≤ g)
    (hg : g * g = (a - d) * (a - d) + (b - e) * (b - e) + (c - f) * (c - f)) :
    distance (⟨float.val a, float.val b, float.val c⟩ : vec3f R)
      ⟨float.val d, float.val e, float.val f⟩ = float.val g := by
  simp only [distance, length, dot]
  show float.sqrt (float.val _ * float.val _ + float.val _ * float.val _
    + float.val _ * float.val _) = _
  simp only [float.val_mul_val, float.val_add_val]
  exact float.sqrt_val h hg

/-! ### Assignments through an index -/

theorem length_update (ps : List (Particle R)) (i : Nat) (f : Particle R → Particle R) :
    (update ps i f).length = ps.length := by
  simp [update]

theorem getElem?_update (ps : List (Particle R)) (i j : Nat) (f : Particle R → Particle R) :
    (update ps i f)[j]? = if i = j then (ps[j]?).map f else ps[j]? := by
  unfold update
  rw [List.getElem?_set]
  by_cases hij : i = j
  · subst hij
    by_cases hi : i < ps.length
    · simp [hi, List.getD_eq_getElem?_getD, List.getElem?_eq_getElem hi]
    · simp [hi, List.getElem?_eq_none (not_lt.mp hi)]
  · simp [hij]

theorem map_update (ps : List (Particle R)) (i : Nat) (f : Particle R → Particle R)
    {β : Type} (g : Particle R → β) (h : ∀ p, g (f p) = g p) :
    (update ps i f).map g = ps.map g := by
  apply List.ext_getElem?
  intro n
  rw [List.getElem?_map, List.getElem?_map, getElem?_update]
  split
  · cases ps[n]? <;> simp [h]
  · rfl

theorem getD_kin_of_map_eq {ps ps' : List (Particle R)} (h : ps'.map kin = ps.map kin)
    (i : Nat) : kin (ps'.getD i default) = kin (ps.getD i default) := by
  have h1 := List.getD_map ps' default (n := i) kin
  have h2 := List.getD_map ps default (n := i) kin
  rw [← h1, ← h2, h]

/-! ### The loop over the springs -/

theorem springForce_congr (kd0 : float R) {ps ps' : List (Particle R)}
    (h : ps'.map kin = ps.map kin) (sp : Spring R) :
    springForce kd0 ps' sp = springForce kd0 ps sp := by
  have hi := getD_kin_of_map_eq h sp.pi
  have hj := getD_kin_of_map_eq h sp.pj
  simp only [kin, Prod.mk.injEq] at hi hj
  simp only [springForce, Fs_ij, Fd_ij, hi.1, hi.2.1, hj.1, hj.2.1]

theorem springBody_map_kin (kd0 : float R) (ps : List (Particle R)) (sp : Spring R) :
    (springBody kd0 ps sp).map kin = ps.map kin := by
  have h1 := map_update ps sp.pi
    (fun p => { p with F := p.F + springForce kd0 ps sp }) kin (fun _ => rfl)
  have h2 := map_update
    (update ps sp.pi (fun p => { p with F := p.F + springForce kd0 ps sp })) sp.pj
    (fun p => { p with F := p.F - springForce kd0 ps sp }) kin (fun _ => rfl)
  exact h2.trans h1

theorem foldl_springBody_map_kin (kd0 : float R) (sps : List (Spring R))
    (ps : List (Particle R)) :
    (sps.foldl (springBody kd0) ps).map kin = ps.map kin := by
  induction sps generalizing ps with
  | nil => rfl
  | cons sp sps ih => rw [List.foldl_cons, ih, springBody_map_kin]

theorem springLoop_map_kin (ps : List (Particle R)) (sps : List (Spring R)) :
    (springLoop ps sps).map kin = ps.map kin := by
  cases sps with
  | nil => rfl
  | cons sp sps => exact foldl_springBody_map_kin _ _ _

theorem vec3f.sub_eq (a b : vec3f R) : a - b = a + -b := by
  show vec3f.mk _ _ _ = vec3f.mk _ _ _
  have h : ∀ u v : float R, u - v = u + -v := by
    intro u v
    cases u <;> cases v <;> try rfl
    show float.val (_ - _) = float.val (_ + -_)
    rw [sub_eq_add_neg]
  congr 1 <;> exact h _ _

theorem springBody_getElem? (kd0 : float R) (ps : List (Particle R)) (sp : Spring R) (k : Nat) :
    (springBody kd0 ps sp)[k]?
      = (ps[k]?).map (fun p => { p with F := p.F + contribution kd0 ps k sp }) := by
  simp only [springBody, getElem?_update, contribution]
  by_cases hi : sp.pi = k <;> by_cases hj : sp.pj = k <;> simp only [hi, hj, if_true, if_false]
  · cases ps[k]? with
    | none => rfl
    | some p => simp [vec3f.sub_eq, add_assoc]
  · cases ps[k]? with
    | none => rfl
    | some p => simp
  · cases ps[k]? with
    | none => rfl
    | some p => simp [vec3f.sub_eq]
  · cases ps[k]? with
    | none => rfl
    | some p => simp

theorem foldl_springBody_getElem? (kd0 : float R) (sps : List (Spring R))
    (ps : List (Particle R)) (k : Nat) :
    (sps.foldl (springBody kd0) ps)[k]?
      = (ps[k]?).map (fun p => { p with F := p.F + (sps.map (contribution kd0 ps k)).sum }) := by
  induction sps generalizing ps with
  | nil =>
    cases h : ps[k]? with
    | none => simp [h]
    | some p => simp [h]
  | cons sp sps ih =>
    rw [List.foldl_cons, ih, springBody_getElem?]
    have hc : contribution kd0 (springBody kd0 ps sp) k = contribution kd0 ps k := by
      funext sp'
      simp only [contribution, springForce_congr kd0 (springBody_map_kin kd0 ps sp)]
    rw [hc]
    cases ps[k]? with
    | none => rfl
    | some p => simp [add_assoc]

theorem springLoop_getElem? (s : Model R) (k : Nat) :
    (springLoop s.particles s.springs)[k]?
      = (s.particles[k]?).map (fun p => { p with F := p.F + springSum s k }) := by
  unfold springLoop springSum
  cases h : s.springs with
  | nil =>
    cases h' : s.particles[k]? with
    | none => simp
    | some p => simp
  | cons sp sps => exact foldl_springBody_getElem? _ _ _ _

/-! ### The loop over the particles -/

theorem integrate_of_fixed (g : vec3f R) (dt : float R) {p : Particle R}
    (h : p.m = float.val 0) : kin (integrate g dt p) = kin p := by
  simp [integrate, h, float.gt, kin]

theorem integrate_of_free (g : vec3f R) (dt : float R) {p : Particle R}
    (h : float.gt p.m (float.val 0) = true) :
    integrate g dt p =
      ⟨p.x + vec3f.muls (p.v + vec3f.muls (vec3f.divs (p.F + vec3f.smul p.m g) p.m) dt) dt,
        p.v + vec3f.muls (vec3f.divs (p.F + vec3f.smul p.m g) p.m) dt, p.m, 0⟩ := by
  simp only [integrate, h, if_true]
  rfl

theorem stepWith_getElem? (g : vec3f R) (s : Model R) (dt : float R) (k : Nat) :
    (stepWith g s dt).particles[k]?
      = (s.particles[k]?).map (fun p => integrate g dt { p with F := p.F + springSum s k }) := by
  simp only [stepWith, List.getElem?_map, springLoop_getElem?, Option.map_map]
  rfl

/-! ### Fixed particles -/

theorem fixedKept_refl (s : Model R) : FixedKept s s :=
  fun _ p hp _ => ⟨p, hp, rfl, rfl, rfl⟩

theorem fixedKept_trans {s t u : Model R} (h1 : FixedKept s t) (h2 : FixedKept t u) :
    FixedKept s u := by
  intro i p hp hm
  obtain ⟨q, hq, hx, hv, hm'⟩ := h1 i p hp hm
  obtain ⟨r, hr, hx', hv', hm2⟩ := h2 i q hq (hm'.trans hm)
  exact ⟨r, hr, hx'.trans hx, hv'.trans hv, hm2.trans hm'⟩

theorem stepWith_fixedKept (g : vec3f R) (s : Model R) (dt : float R) :
    FixedKept s (stepWith g s dt) := by
  intro i p hp hm
  have h := integrate_of_fixed g dt (p := { p with F := p.F + springSum s i }) hm
  simp only [kin, Prod.mk.injEq] at h
  exact ⟨_, by rw [stepWith_getElem?, hp]; rfl, h.1, h.2.1, h.2.2⟩

theorem stepsWith_fixedKept (g : vec3f R) (dts : List (float R)) (s : Model R) :
    FixedKept s (stepsWith (stepWith g) s dts) := by
  induction dts generalizing s with
  | nil => exact fixedKept_refl s
  | cons dt dts ih => exact fixedKept_trans (stepWith_fixedKept g s dt) (ih _)

theorem stepWith_free_force (g : vec3f R) (s : Model R) (dt : float R) :
    FreeForcesZero (stepWith g s dt) := by
  intro p hp hm
  obtain ⟨k, hk⟩ := List.getElem?_of_mem hp
  rw [stepWith_getElem?] at hk
  cases hq : s.particles[k]? with
  | none => simp [hq] at hk
  | some q =>
    simp only [hq, Option.map_some', Option.some.injEq] at hk
    by_cases hqm : float.gt q.m (float.val 0) = true
    · rw [integrate_of_free g dt (p := { q with F := q.F + springSum s k }) hqm] at hk
      rw [← hk]
    · have : p.m = q.m := by
        rw [← hk]
        simp [integrate, hqm]
      rw [this] at hm
      exact absurd hm hqm

/-! ### The mass on a spring -/

namespace MassOnASpringModel

theorem mass_resetCreate_eq (s : Model R) :
    resetCreate s = (⟨[p0, ⟨⟨float.val 0, float.val (-5), float.val 0⟩, 0, mass, 0⟩],
      [⟨ks, kd, 0, 1, float.val 10⟩]⟩, 1) := by
  have hd : distance (⟨float.val 0, float.val 5, float.val 0⟩ : vec3f R)
      ⟨float.val 0, float.val (-5), float.val 0⟩ = float.val 10 :=
    distance_val (by norm_num) (by norm_num)
  simp only [resetCreate, List.length_nil, List.nil_append, List.length_singleton, Spring.new,
    List.singleton_append, List.getD_cons_zero, List.getD_cons_succ, hd]
  rfl

theorem mass_reset_eq (s : Model R) :
    reset s = ⟨[p0, ⟨⟨float.val 0, float.val 2.5, float.val 0⟩, 0, mass, 0⟩],
      [⟨ks, kd, 0, 1, float.val 10⟩]⟩ := by
  simp only [reset, mass_resetCreate_eq, update, List.getD_cons_zero, List.getD_cons_succ,
    List.set_cons_succ, List.set_cons_zero]

theorem mass_reset_wellFormed (s : Model R) : WellFormed (reset s) :=
  ⟨_, _, mass_reset_eq s⟩

theorem mass_step_of_wellFormed {s : Model R} (h : WellFormed s) (dt : float R) :
    ∃ s', step s dt = some s' ∧ WellFormed s' := by
  obtain ⟨x, v, rfl⟩ := h
  simp only [step, List.getElem?_cons_zero, List.getElem?_cons_succ, update,
    List.getD_cons_zero, List.getD_cons_succ, List.set_cons_succ, List.set_cons_zero]
  exact ⟨_, rfl, _, _, rfl⟩

theorem mass_wellFormed_of_reachable {s : Model R} (h : Reachable s) : WellFormed s := by
  induction h with
  | init s => exact mass_reset_wellFormed s
  | next dt _ hs ih =>
    obtain ⟨s', hs', hw⟩ := mass_step_of_wellFormed ih dt
    rw [hs'] at hs
    cases hs
    exact hw

theorem mass_fixedKept_of_wellFormed {s s' : Model R} (h : WellFormed s) (h' : WellFormed s') :
    FixedKept s s' := by
  obtain ⟨x, v, rfl⟩ := h
  obtain ⟨x', v', rfl⟩ := h'
  intro i p hp hm
  match i with
  | 0 =>
    simp only [List.getElem?_cons_zero, Option.some.injEq] at hp
    subst hp
    exact ⟨p0, rfl, rfl, rfl, rfl⟩
  | 1 =>
    simp only [List.getElem?_cons_succ, List.getElem?_cons_zero, Option.some.injEq] at hp
    subst hp
    simp only [mass, float.val.injEq] at hm
    norm_num at hm
  | n + 2 => simp at hp

theorem mass_steps_of_wellFormed (dts : List (float R)) {s : Model R} (h : WellFormed s) :
    ∃ s', steps s dts = some s' ∧ WellFormed s' := by
  induction dts generalizing s with
  | nil => exact ⟨s, rfl, h⟩
  | cons dt dts ih =>
    obtain ⟨t, ht, hw⟩ := mass_step_of_wellFormed h dt
    obtain ⟨u, hu, hw'⟩ := ih hw
    exact ⟨u, by simp [steps, ht, hu], hw'⟩

end MassOnASpringModel

/-! ### Loops that push onto a vector -/

theorem foldl_push {α β : Type} (g : α → List β) (l : List α) (init : List β) :
    l.foldl (fun acc a => acc ++ g a) init = init ++ l.flatMap g := by
  induction l generalizing init with
  | nil => simp
  | cons a l ih => simp [ih, List.flatMap_cons, List.append_assoc]

theorem foldl_push_one {α β : Type} (f : α → β) (l : List α) (init : List β) :
    l.foldl (fun acc a => acc ++ [f a]) init = init ++ l.map f := by
  induction l generalizing init with
  | nil => simp
  | cons a l ih => simp [ih, List.append_assoc]

theorem foldl_push_if {α β : Type} (c : α → Bool) (f : α → β) (l : List α) (init : List β) :
    l.foldl (fun acc a => if c a then acc ++ [f a] else acc) init
      = init ++ (l.filter c).map f := by
  induction l generalizing init with
  | nil => simp
  | cons a l ih =>
    rw [List.foldl_cons, ih]
    cases h : c a <;> simp [h, List.filter_cons]

theorem flatMap_range_map {β : Type} (f : Nat → Nat → β) (n c : Nat) :
    (List.range n).flatMap (fun i => (List.range c).map (f i))
      = (List.range (n * c)).map (fun k => f (k / c) (k % c)) := by
  induction n with
  | zero => simp
  | succ n ih =>
    rw [List.range_succ, List.flatMap_append, ih, Nat.succ_mul, List.range_add, List.map_append,
      List.map_map]
    congr 1
    simp only [List.flatMap_cons, List.flatMap_nil, List.append_nil]
    apply List.map_congr_left
    intro k hk
    have hk' : k < c := List.mem_range.mp hk
    have hc : 0 < c := Nat.lt_of_le_of_lt (Nat.zero_le k) hk'
    simp only [Function.comp]
    rw [Nat.mul_comm n c, Nat.mul_add_div hc, Nat.mul_add_mod, Nat.div_eq_of_lt hk',
      Nat.mod_eq_of_lt hk', Nat.add_zero]

namespace ClothModel

theorem cloth_resetParticles_eq (ps : List (Particle R)) :
    resetParticles ps = ps ++ (List.range 100).map (fun k => newParticle (k / 10) (k % 10)) := by
  unfold resetParticles
  simp only [foldl_push_one, foldl_push]
  rw [flatMap_range_map]

theorem cloth_resetSprings_eq (ps : List (Particle R)) (sps : List (Spring R)) :
    resetSprings ps sps = sps ++ (List.range ps.length).flatMap (fun i =>
      ((List.range i).filter (fun j =>
        float.le (vec3f.abs ((ps.getD i default).x - (ps.getD j default).x)).x (float.val 2)
        && float.le (vec3f.abs ((ps.getD i default).x - (ps.getD j default).x)).z (float.val 2))).map
        (fun j => Spring.new ps i j ks kd)) := by
  unfold resetSprings
  simp only [foldl_push_if, foldl_push]

end ClothModel

namespace CubeModel

theorem cube_resetParticles_eq (ps : List (Particle R)) :
    resetParticles ps = ps ++ (List.range 1296).map
      (fun n => newParticle (n / 216) (n % 216 / 36) (n % 216 % 36 / 6) (n % 216 % 36 % 6)) := by
  unfold resetParticles
  simp only [foldl_push_one, foldl_push]
  simp only [flatMap_range_map]

theorem cube_resetSprings_eq (ps : List (Particle R)) (sps : List (Spring R)) :
    resetSprings ps sps = sps ++ (List.range ps.length).flatMap (fun i =>
      ((List.range i).filter (fun j =>
        float.le (vec3f.abs ((ps.getD i default).x - (ps.getD j default).x)).x (float.val 2)
        && float.le (vec3f.abs ((ps.getD i default).x - (ps.getD j default).x)).y (float.val 2)
        && float.le (vec3f.abs ((ps.getD i default).x - (ps.getD j default).x)).z (float.val 2))).map
        (fun j => Spring.new ps i j ks kd)) := by
  unfold resetSprings
  simp only [foldl_push_if, foldl_push]

end CubeModel

/-! ### Reachable states -/

theorem springs_of_reachable {reset : Model R → Model R} {g : vec3f R}
    (hreset : ∀ s t, reset s = reset t) {s : Model R} (h : Reachable reset (stepWith g) s) :
    s.springs = (reset s).springs := by
  induction h with
  | init s => rw [hreset (reset s) s]
  | next dt _ ih => rw [hreset _ _]; exact ih

theorem freeForcesZero_of_reachable {reset : Model R → Model R} {g : vec3f R}
    (hreset : ∀ s, ∀ p ∈ (reset s).particles, p.F = 0) {s : Model R}
    (h : Reachable reset (stepWith g) s) : FreeForcesZero s := by
  cases h with
  | init s => exact fun p hp _ => hreset s p hp
  | next dt _ => exact stepWith_free_force g _ dt

theorem getD_map_range {β : Type} (f : Nat → β) {n k : Nat} (h : k < n) (d : β) :
    ((List.range n).map f).getD k d = f k := by
  simp [List.getD_eq_getElem?_getD, List.getElem?_range h]

theorem getElem?_map_range {β : Type} (f : Nat → β) {n k : Nat} (h : k < n) :
    ((List.range n).map f)[k]? = some (f k) := by
  simp [List.getElem?_range h]

@[simp] theorem vec3f.splat_zero : vec3f.splat (float.val 0) = (0 : vec3f R) := rfl

/-! ### The chain pendulum -/

namespace ChainPendulumModel

theorem chain_reset_particles (s : Model R) :
    (reset s).particles = (List.range 11).map (fun k =>
      ⟨⟨float.val ((2 * k : Nat) : R), float.val 10, float.val 0⟩, 0,
        if k = 0 then float.val 0 else mass, 0⟩) := by
  simp [reset, resetBody, List.range_succ, mass]
  norm_num

theorem chain_reset_springs (s : Model R) :
    (reset s).springs = (List.range 10).map (fun k => ⟨ks, kd, k, k + 1, float.val 2⟩) := by
  simp [reset, resetBody, List.range_succ, Spring.new, mass]
  refine ⟨?_, ?_, ?_, ?_, ?_, ?_, ?_, ?_, ?_, ?_⟩ <;>
    exact distance_val (by norm_num) (by norm_num)

theorem chain_reset_forces (s : Model R) : ∀ p ∈ (reset s).particles, p.F = 0 := by
  intro p hp
  rw [chain_reset_particles, List.mem_map] at hp
  obtain ⟨k, _, rfl⟩ := hp
  rfl

theorem chain_reset_const (s t : Model R) : reset s = reset t := by
  unfold reset
  rfl

theorem chain_restLength_reset (s : Model R) : ∀ sp ∈ (reset s).springs,
    sp.l = float.val 2 ∧ sp.l = distance ((reset s).particles.getD sp.pi default).x
      ((reset s).particles.getD sp.pj default).x := by
  intro sp hsp
  rw [chain_reset_springs, List.mem_map] at hsp
  obtain ⟨k, hk, rfl⟩ := hsp
  have hk' : k < 10 := List.mem_range.mp hk
  refine ⟨rfl, ?_⟩
  rw [chain_reset_particles, getD_map_range _ (show k < 11 by omega),
    getD_map_range _ (show k + 1 < 11 by omega)]
  refine (distance_val (by norm_num) ?_).symm
  push_cast
  ring

end ChainPendulumModel

/-! ### The cloth -/

namespace ClothModel

theorem cloth_resetSprings_mem (ps : List (Particle R)) {sp : Spring R}
    (h : sp ∈ resetSprings ps []) : ∃ i j, sp = Spring.new ps i j ks kd := by
  simp only [cloth_resetSprings_eq, List.nil_append, List.mem_flatMap, List.mem_map] at h
  obtain ⟨i, _, j, _, h⟩ := h
  exact ⟨i, j, h.symm⟩

theorem cloth_reset_springs (s : Model R) :
    (reset s).springs = resetSprings (reset s).particles [] := by
  simp only [reset]

theorem cloth_reset_particles (s : Model R) :
    (reset s).particles = (List.range 100).map (fun k => newParticle (k / 10) (k % 10)) := by
  simp only [reset, cloth_resetParticles_eq, List.nil_append]

theorem cloth_reset_forces (s : Model R) : ∀ p ∈ (reset s).particles, p.F = 0 := by
  intro p hp
  rw [cloth_reset_particles, List.mem_map] at hp
  obtain ⟨k, _, rfl⟩ := hp
  simp only [newParticle, vec3f.splat_zero]

theorem cloth_reset_const (s t : Model R) : reset s = reset t := by
  simp only [reset]

theorem cloth_restLength_reset (s : Model R) : ∀ sp ∈ (reset s).springs,
    sp.l = distance ((reset s).particles.getD sp.pi default).x
      ((reset s).particles.getD sp.pj default).x := by
  intro sp hsp
  rw [cloth_reset_springs] at hsp
  obtain ⟨i, j, rfl⟩ := cloth_resetSprings_mem _ hsp
  simp only [Spring.new]

end ClothModel

/-! ### The cube -/

namespace CubeModel

theorem cube_resetSprings_mem (ps : List (Particle R)) {sp : Spring R}
    (h : sp ∈ resetSprings ps []) : ∃ i j, sp = Spring.new ps i j ks kd := by
  simp only [cube_resetSprings_eq, List.nil_append, List.mem_flatMap, List.mem_map] at h
  obtain ⟨i, _, j, _, h⟩ := h
  exact ⟨i, j, h.symm⟩

theorem cube_reset_springs (s : Model R) :
    (reset s).springs = resetSprings (reset s).particles [] := by
  simp only [reset]

theorem cube_reset_particles (s : Model R) :
    (reset s).particles = (List.range 1296).map
      (fun n => newParticle (n / 216) (n % 216 / 36) (n % 216 % 36 / 6) (n % 216 % 36 % 6)) := by
  simp only [reset, cube_resetParticles_eq, List.nil_append]

theorem cube_reset_forces (s : Model R) : ∀ p ∈ (reset s).particles, p.F = 0 := by
  intro p hp
  rw [cube_reset_particles, List.mem_map] at hp
  obtain ⟨k, _, rfl⟩ := hp
  simp only [newParticle, vec3f.splat_zero]

theorem cube_reset_const (s t : Model R) : reset s = reset t := by
  simp only [reset]

theorem cube_restLength_reset (s : Model R) : ∀ sp ∈ (reset s).springs,
    sp.l = distance ((reset s).particles.getD sp.pi default).x
      ((reset s).particles.getD sp.pj default).x := by
  intro sp hsp
  rw [cube_reset_springs] at hsp
  obtain ⟨i, j, rfl⟩ := cube_resetSprings_mem _ hsp
  simp only [Spring.new]

end CubeModel

/-! ### Evaluation of `normalize` -/

@[simp] theorem vec3f.add_x (a b : vec3f R) : (a + b).x = a.x + b.x := rfl
@[simp] theorem vec3f.add_y (a b : vec3f R) : (a + b).y = a.y + b.y := rfl
@[simp] theorem vec3f.add_z (a b : vec3f R) : (a + b).z = a.z + b.z := rfl
@[simp] theorem vec3f.sub_x (a b : vec3f R) : (a - b).x = a.x - b.x := rfl
@[simp] theorem vec3f.sub_y (a b : vec3f R) : (a - b).y = a.y - b.y := rfl
@[simp] theorem vec3f.sub_z (a b : vec3f R) : (a - b).z = a.z - b.z := rfl
@[simp] theorem vec3f.zero_x : (0 : vec3f R).x = float.val 0 := rfl
@[simp] theorem vec3f.zero_y : (0 : vec3f R).y = float.val 0 := rfl
@[simp] theorem vec3f.zero_z : (0 : vec3f R).z = float.val 0 := rfl
theorem vec3f.add_def (a b : vec3f R) : a + b = ⟨a.x + b.x, a.y + b.y, a.z + b.z⟩ := rfl
theorem vec3f.sub_def (a b : vec3f R) : a - b = ⟨a.x - b.x, a.y - b.y, a.z - b.z⟩ := rfl
theorem vec3f.zero_eq : (0 : vec3f R) = ⟨float.val 0, float.val 0, float.val 0⟩ := rfl

theorem normalize_val {a b c g : R} (h : 0 < g) (hg : g * g = a * a + b * b + c * c) :
    normalize (⟨float.val a, float.val b, float.val c⟩ : vec3f R)
      = ⟨float.val (a / g), float.val (b / g), float.val (c / g)⟩ := by
  have hs : float.sqrt (float.val (a * a + b * b + c * c)) = float.val g :=
    float.sqrt_val (le_of_lt h) hg
  have hg' : g ≠ 0 := ne_of_gt h
  simp only [normalize, dot, vec3f.muls, float.inversesqrt, float.val_mul_val,
    float.val_add_val, hs, float.val_div_val_of_ne _ hg']
  simp only [div_eq_mul_inv, one_mul]

theorem normalize_sub_self (x : vec3f R) : normalize (x - x) = vec3f.nan := by
  obtain ⟨a, b, c⟩ := x
  have h0 : SqrtField.sqrt (0 : R) = 0 := float.sqrt_eq_of_mul_self le_rfl (by ring)
  cases a <;> cases b <;> cases c <;>
    simp [normalize, dot, vec3f.muls, vec3f.nan, float.inversesqrt, float.sqrt, h0]

theorem vec3f.smul_nan (c : float R) : vec3f.smul c vec3f.nan = vec3f.nan := by
  simp [vec3f.smul, vec3f.nan]

theorem vec3f.vnan_add (v : vec3f R) : vec3f.nan + v = vec3f.nan := by
  show vec3f.mk _ _ _ = _
  simp [vec3f.nan]

theorem vec3f.add_vnan (v : vec3f R) : v + vec3f.nan = vec3f.nan := by
  show vec3f.mk _ _ _ = _
  simp [vec3f.nan]

theorem vec3f.neg_vnan : -(vec3f.nan : vec3f R) = vec3f.nan := rfl

theorem springForce_of_coincident (kd0 : float R) (ps : List (Particle R)) (sp : Spring R)
    (h : (ps.getD sp.pi default).x = (ps.getD sp.pj default).x) :
    springForce kd0 ps sp = vec3f.nan := by
  simp only [springForce, Fs_ij, h, normalize_sub_self, vec3f.smul_nan, vec3f.vnan_add]

theorem sum_eq_nan {l : List (vec3f R)} (h : vec3f.nan ∈ l) : l.sum = vec3f.nan := by
  induction l with
  | nil => simp at h
  | cons a l ih =>
    rw [List.sum_cons]
    rcases List.mem_cons.mp h with h | h
    · rw [← h, vec3f.vnan_add]
    · rw [ih h, vec3f.add_vnan]

namespace MassOnASpringModel

theorem mass_step_reset (s : Model R) (t : R) :
    step (reset s) (float.val t) = some
      ⟨[p0, ⟨⟨float.val 0, float.val (2.5 - 750 * t * t), float.val 0⟩,
          ⟨float.val 0, float.val (-750 * t), float.val 0⟩, mass, 0⟩],
        [⟨ks, kd, 0, 1, float.val 10⟩]⟩ := by
  have hd : distance (⟨float.val 0, float.val 2.5, float.val 0⟩ : vec3f R)
      ⟨float.val 0, float.val 5, float.val 0⟩ = float.val 2.5 :=
    distance_val (by norm_num) (by norm_num)
  have hn : normalize (⟨float.val 0, float.val (-75), float.val 0⟩ : vec3f R)
      = ⟨float.val 0, float.val (-1), float.val 0⟩ := by
    rw [normalize_val (g := 75) (by norm_num) (by norm_num)]
    norm_num
  have h25 : (2.5 : R) ≠ 0 := by norm_num
  have h01 : (0.1 : R) ≠ 0 := by norm_num
  have hFs : vec3f.divs (vec3f.smul (float.val (-1) * float.val 10 * (float.val 2.5 - float.val 10))
      ((⟨float.val 0, float.val 2.5, float.val 0⟩ : vec3f R)
        - ⟨float.val 0, float.val 5, float.val 0⟩)) (float.val 2.5)
      = ⟨float.val 0, float.val (-75), float.val 0⟩ := by
    simp only [vec3f.sub_def, vec3f.smul, vec3f.divs, float.val_mul_val, float.val_sub_val,
      float.val_div_val_of_ne _ h25]
    norm_num
  rw [mass_reset_eq]
  simp only [step, List.getElem?_cons_zero, List.getElem?_cons_succ, update,
    List.getD_cons_zero, List.getD_cons_succ, List.set_cons_succ, List.set_cons_zero, p0, ks, kd,
    mass, hd, hFs, hn]
  simp only [vec3f.eq, float.eq, vec3f.splat, vec3f.zero_eq, vec3f.sub_def, vec3f.add_def, dot,
    vec3f.smul, vec3f.muls, vec3f.divs, float.val_mul_val, float.val_sub_val, float.val_add_val,
    float.val_div_val_of_ne _ h01]
  norm_num
  ring

end MassOnASpringModel

/-! ### The force law on a stretched spring -/

theorem Fs_ij_eq_hooke (sp : Spring R) (pi pj : Particle R) :
    Fs_ij sp pi pj = hooke sp.ks sp.l (pi.x - pj.x) := by
  have h : float.val (-1) * sp.ks = -sp.ks := by
    cases sp.ks with
    | nan => rfl
    | val a => exact congrArg float.val (by ring)
  simp only [Fs_ij, hooke, h, distance]

theorem springBody_endpoints (kd0 : float R) (ps : List (Particle R)) (sp : Spring R)
    (pi pj : Particle R) (hi : ps[sp.pi]? = some pi) (hj : ps[sp.pj]? = some pj)
    (hij : sp.pi ≠ sp.pj) :
    (springBody kd0 ps sp)[sp.pi]? = some { pi with F := pi.F + springForce kd0 ps sp } ∧
    (springBody kd0 ps sp)[sp.pj]? = some { pj with F := pj.F - springForce kd0 ps sp } := by
  simp only [springBody, getElem?_update, hi, hj, hij, Ne.symm hij, if_true, if_false,
    Option.map_some', and_self]

theorem springForce_stretched :
    springForce (float.val 0.5) (stretched (R := R)).1 (stretched (R := R)).2
      = ⟨float.val 1, float.val 0, float.val 0⟩ := by
  have hd : distance (⟨float.val 0, float.val 0, float.val 0⟩ : vec3f R)
      ⟨float.val 3, float.val 0, float.val 0⟩ = float.val 3 :=
    distance_val (by norm_num) (by norm_num)
  have hn : normalize (⟨float.val (-3), float.val 0, float.val 0⟩ : vec3f R)
      = ⟨float.val (-1), float.val 0, float.val 0⟩ := by
    rw [normalize_val (g := 3) (by norm_num) (by norm_num)]
    norm_num
  have hn1 : normalize (⟨float.val 1, float.val 0, float.val 0⟩ : vec3f R)
      = ⟨float.val 1, float.val 0, float.val 0⟩ := by
    rw [normalize_val (g := 1) (by norm_num) (by norm_num)]
    norm_num
  have hsub : (⟨float.val 0, float.val 0, float.val 0⟩ : vec3f R)
      - ⟨float.val 3, float.val 0, float.val 0⟩ = ⟨float.val (-3), float.val 0, float.val 0⟩ := by
    simp only [vec3f.sub_def, float.val_sub_val]
    norm_num
  have hFs : vec3f.smul (float.val (-1) * float.val 1 * (float.val 3 - float.val 2))
      (⟨float.val (-1), float.val 0, float.val 0⟩ : vec3f R)
      = ⟨float.val 1, float.val 0, float.val 0⟩ := by
    simp only [vec3f.smul, float.val_mul_val, float.val_sub_val]
    norm_num
  have h1 : (1 : R) ≠ 0 := one_ne_zero
  simp only [springForce, stretched, List.getD_cons_zero, List.getD_cons_succ, Fs_ij, Fd_ij, hd,
    hsub, hn, hFs, hn1]
  simp only [vec3f.eq, float.eq, vec3f.splat, vec3f.zero_eq, vec3f.sub_def, vec3f.add_def, dot,
    vec3f.smul, float.val_mul_val, float.val_sub_val, float.val_add_val]
  norm_num

theorem hooke_stretched :
    hooke (stretched (R := R)).2.ks (stretched (R := R)).2.l
      (((stretched (R := R)).1.getD 1 default).x - ((stretched (R := R)).1.getD 0 default).x)
      = ⟨float.val (-1), float.val 0, float.val 0⟩ := by
  have hl : length (⟨float.val 3, float.val 0, float.val 0⟩ : vec3f R) = float.val 3 := by
    have := distance_val (a := (3 : R)) (b := 0) (c := 0) (d := 0) (e := 0) (f := 0) (g := 3)
      (by norm_num) (by norm_num)
    simpa [distance, vec3f.sub_def] using this
  have hn : normalize (⟨float.val 3, float.val 0, float.val 0⟩ : vec3f R)
      = ⟨float.val 1, float.val 0, float.val 0⟩ := by
    rw [normalize_val (g := 3) (by norm_num) (by norm_num)]
    norm_num
  have hsub : (⟨float.val 3, float.val 0, float.val 0⟩ : vec3f R)
      - ⟨float.val 0, float.val 0, float.val 0⟩ = ⟨float.val 3, float.val 0, float.val 0⟩ := by
    simp only [vec3f.sub_def, float.val_sub_val]
    norm_num
  simp only [hooke, stretched, List.getD_cons_zero, List.getD_cons_succ, hsub, hl, hn,
    vec3f.smul, float.neg_val, float.val_mul_val, float.val_sub_val]
  norm_num

/-! ### Springs between particles at one position -/

theorem vec3f.divs_nan (m : float R) : vec3f.divs vec3f.nan m = vec3f.nan := by
  simp [vec3f.divs, vec3f.nan]

theorem vec3f.muls_nan (dt : float R) : vec3f.muls vec3f.nan dt = vec3f.nan := by
  simp [vec3f.muls, vec3f.nan]

theorem float.le_abs_sub_self (a : R) :
    float.le (float.abs (float.val a - float.val a)) (float.val 2) = true := by
  simp [float.le, float.abs]

theorem integrate_nan (g : vec3f R) (dt : float R) (p : Particle R)
    (hm : float.gt p.m (float.val 0) = true) (hF : p.F = vec3f.nan) :
    integrate g dt p = ⟨vec3f.nan, vec3f.nan, p.m, 0⟩ := by
  rw [integrate_of_free g dt hm, hF]
  simp only [vec3f.vnan_add, vec3f.divs_nan, vec3f.muls_nan, vec3f.add_vnan]

namespace CubeModel

theorem cube_resetSprings_mem_of (ps : List (Particle R)) {i j : Nat} (hi : i < ps.length)
    (hj : j < i) {a b c : R} (hxi : (ps.getD i default).x = ⟨float.val a, float.val b, float.val c⟩)
    (hxj : (ps.getD j default).x = ⟨float.val a, float.val b, float.val c⟩) :
    Spring.new ps i j ks kd ∈ resetSprings ps [] := by
  rw [cube_resetSprings_eq, List.nil_append, List.mem_flatMap]
  refine ⟨i, List.mem_range.mpr hi, List.mem_map.mpr ⟨j, List.mem_filter.mpr ⟨List.mem_range.mpr hj, ?_⟩, rfl⟩⟩
  simp only [hxi, hxj, vec3f.abs, vec3f.sub_x, vec3f.sub_y, vec3f.sub_z, float.le_abs_sub_self,
    Bool.and_self]

theorem cube_reset_getD (s : Model R) {n : Nat} (h : n < 1296) :
    (reset s).particles.getD n default
      = newParticle (n / 216) (n % 216 / 36) (n % 216 % 36 / 6) (n % 216 % 36 % 6) := by
  rw [cube_reset_particles, getD_map_range _ h]

theorem cube_reset_getElem? (s : Model R) {n : Nat} (h : n < 1296) :
    (reset s).particles[n]?
      = some (newParticle (n / 216) (n % 216 / 36) (n % 216 % 36 / 6) (n % 216 % 36 % 6)) := by
  rw [cube_reset_particles, getElem?_map_range _ h]

theorem cube_reset_length (s : Model R) : (reset s).particles.length = 1296 := by
  rw [cube_reset_particles, List.length_map, List.length_range]

end CubeModel

theorem contribution_of_coincident (kd0 : float R) (ps : List (Particle R)) (sp : Spring R)
    {k : Nat} (h : (ps.getD sp.pi default).x = (ps.getD sp.pj default).x)
    (hk : sp.pi = k ∨ sp.pj = k) : contribution kd0 ps k sp = vec3f.nan := by
  unfold contribution
  rw [springForce_of_coincident kd0 ps sp h]
  rcases hk with hk | hk
  · rw [if_pos hk, vec3f.vnan_add]
  · rw [if_pos hk, vec3f.neg_vnan, vec3f.add_vnan]

theorem springSum_eq_nan_of_endpoint (s : Model R) {sp : Spring R} {k : Nat}
    (hsp : sp ∈ s.springs)
    (h : (s.particles.getD sp.pi default).x = (s.particles.getD sp.pj default).x)
    (hk : sp.pi = k ∨ sp.pj = k) : springSum s k = vec3f.nan := by
  unfold springSum
  cases hs : s.springs with
  | nil => simp [hs] at hsp
  | cons sp0 sps =>
    apply sum_eq_nan
    rw [← hs]
    exact List.mem_map.mpr ⟨sp, hsp, contribution_of_coincident _ _ _ h hk⟩

namespace CubeModel

theorem cube_newParticle_x (i j k h : Nat) :
    (newParticle (R := R) i j k h).x
      = ⟨float.val ((2 * i : Nat) : R), float.val ((2 * h : Nat) : R),
          float.val (2 * ((j : R) - 5))⟩ := rfl

theorem cube_reset_x (s : Model R) {n : Nat} (h : n < 1296) :
    ((reset s).particles.getD n default).x
      = ⟨float.val ((2 * (n / 216) : Nat) : R), float.val ((2 * (n % 216 % 36 % 6) : Nat) : R),
          float.val (2 * (((n % 216 / 36 : Nat) : R) - 5))⟩ := by
  rw [cube_reset_getD s h, cube_newParticle_x]

theorem cube_twin_spring (s : Model R) {i j : Nat} (hi : i < 1296) (hj : j < i)
    (h1 : j / 216 = i / 216) (h2 : j % 216 / 36 = i % 216 / 36)
    (h3 : j % 216 % 36 % 6 = i % 216 % 36 % 6) :
    Spring.new (reset s).particles i j ks kd ∈ (reset s).springs ∧
    ((reset s).particles.getD i default).x = ((reset s).particles.getD j default).x := by
  have hxi := cube_reset_x s hi
  have hxj := cube_reset_x s (show j < 1296 by omega)
  rw [h1, h2, h3] at hxj
  refine ⟨?_, hxi.trans hxj.symm⟩
  rw [cube_reset_springs]
  exact cube_resetSprings_mem_of _ (by rw [cube_reset_length]; exact hi) hj hxi hxj

theorem cube_springSum_nan (s : Model R) {n : Nat} (hn : n < 1296) :
    springSum (reset s) n = vec3f.nan := by
  by_cases hc : n % 36 / 6 = 0
  · obtain ⟨hmem, hx⟩ := cube_twin_spring s (i := n + 6) (j := n) (by omega) (by omega)
      (by omega) (by omega) (by omega)
    exact springSum_eq_nan_of_endpoint (reset s) hmem (by simpa only [Spring.new] using hx)
      (Or.inr (by simp only [Spring.new]))
  · obtain ⟨hmem, hx⟩ := cube_twin_spring s (i := n) (j := n - 6) hn (by omega)
      (by omega) (by omega) (by omega)
    exact springSum_eq_nan_of_endpoint (reset s) hmem (by simpa only [Spring.new] using hx)
      (Or.inl (by simp only [Spring.new]))

theorem cube_step_reset_all (s : Model R) (dt : float R) {n : Nat} (hn : n < 1296) :
    (step (reset s) dt).particles[n]? = some ⟨vec3f.nan, vec3f.nan, mass, 0⟩ := by
  rw [step, stepWith_getElem?, cube_reset_getElem? s hn, Option.map_some',
    cube_springSum_nan s hn]
  rw [integrate_nan]
  · simp [newParticle]
  · simp [newParticle, mass, float.gt]
  · simp only [vec3f.add_vnan]

end CubeModel

theorem stepWith_length (g : vec3f R) (s : Model R) (dt : float R) :
    (stepWith g s dt).particles.length = s.particles.length := by
  have h := congrArg List.length (springLoop_map_kin s.particles s.springs)
  simp only [List.length_map] at h
  simp only [stepWith, List.length_map, h]

namespace CubeModel

theorem cube_step_reset (s : Model R) (dt : float R) :
    (step (reset s) dt).particles
      = List.replicate 1296 ⟨vec3f.nan, vec3f.nan, mass, 0⟩ := by
  apply List.ext_getElem?
  intro n
  by_cases hn : n < 1296
  · rw [cube_step_reset_all s dt hn, List.getElem?_replicate, if_pos hn]
  · rw [List.getElem?_eq_none, List.getElem?_eq_none]
    · rw [List.length_replicate]
      exact not_lt.mp hn
    · rw [step, stepWith_length, cube_reset_length]
      exact not_lt.mp hn

end CubeModel

/-! ### Further lemmas for the statements below -/

theorem mass_freeForcesZero {s : Model R} (h : MassOnASpringModel.WellFormed s) :
    FreeForcesZero s := by
  obtain ⟨x, v, rfl⟩ := h
  intro p hp hm
  simp only [List.mem_cons, List.mem_singleton, List.not_mem_nil, or_false] at hp
  rcases hp with rfl | rfl
  · simp [MassOnASpringModel.p0, float.gt] at hm
  · rfl

theorem mass_step_springs {s s' : Model R} {dt : float R}
    (h : MassOnASpringModel.step s dt = some s') : s'.springs = s.springs := by
  unfold MassOnASpringModel.step at h
  split at h
  · simp only [Option.some.injEq] at h
    rw [← h]
  · simp at h

/-- C1. Fixed-particle invariant: in each of the four models a sequence of `step(dt)` calls
with arbitrary `dt` values leaves every particle with `mass == 0` at the same position and with
the same velocity.  For `MassOnASpringModel` this is shown from every reachable state, where
every call of `step` returns; for the three other models from every state, reachable or not. -/
theorem fixed_particle_invariant :
    (∀ (s : Model R) (dts : List (float R)), MassOnASpringModel.Reachable s →
      ∃ s', MassOnASpringModel.steps s dts = some s' ∧ FixedKept s s') ∧
    (∀ (s : Model R) (dts : List (float R)),
      FixedKept s (stepsWith ChainPendulumModel.step s dts)) ∧
    (∀ (s : Model R) (dts : List (float R)), FixedKept s (stepsWith ClothModel.step s dts)) ∧
    (∀ (s : Model R) (dts : List (float R)), FixedKept s (stepsWith CubeModel.step s dts)) := by
  refine ⟨?_, ?_, ?_, ?_⟩
  · intro s dts hs
    have hw := MassOnASpringModel.mass_wellFormed_of_reachable hs
    obtain ⟨s', hs', hw'⟩ := MassOnASpringModel.mass_steps_of_wellFormed dts hw
    exact ⟨s', hs', MassOnASpringModel.mass_fixedKept_of_wellFormed hw hw'⟩
  · exact fun s dts => stepsWith_fixedKept ChainPendulumModel.gravity dts s
  · exact fun s dts => stepsWith_fixedKept ClothModel.gravity dts s
  · exact fun s dts => stepsWith_fixedKept CubeModel.gravity dts s

/-- Witness for C1: the mass on a spring after `reset()`, two steps, the anchor. -/
theorem fixed_particle_invariant_witness :
    ∃ s', MassOnASpringModel.steps (MassOnASpringModel.reset (⟨[], []⟩ : Model ℝ))
        [float.val 0.01, float.val 0.02] = some s' ∧
      ∃ p', s'.particles[0]? = some p' ∧
        p'.x = (MassOnASpringModel.p0 (R := ℝ)).x ∧ p'.v = (MassOnASpringModel.p0 (R := ℝ)).v ∧
        p'.m = (MassOnASpringModel.p0 (R := ℝ)).m := by
  obtain ⟨s', h1, h2⟩ := (fixed_particle_invariant (R := ℝ)).1
    (MassOnASpringModel.reset ⟨[], []⟩) [float.val 0.01, float.val 0.02]
    (MassOnASpringModel.Reachable.init _)
  exact ⟨s', h1, h2 0 MassOnASpringModel.p0
    (by rw [MassOnASpringModel.mass_reset_eq]; rfl) rfl⟩

/-- C2. Force-accumulator invariant: in each of the four models, after `reset()` and after every
completed `step(dt)`, every free particle (`m > 0`) has a zero force accumulator. -/
theorem force_accumulator_invariant :
    (∀ s : Model R, MassOnASpringModel.Reachable s → FreeForcesZero s) ∧
    (∀ s : Model R, Reachable ChainPendulumModel.reset ChainPendulumModel.step s →
      FreeForcesZero s) ∧
    (∀ s : Model R, Reachable ClothModel.reset ClothModel.step s → FreeForcesZero s) ∧
    (∀ s : Model R, Reachable CubeModel.reset CubeModel.step s → FreeForcesZero s) := by
  refine ⟨?_, ?_, ?_, ?_⟩
  · exact fun s hs => mass_freeForcesZero (MassOnASpringModel.mass_wellFormed_of_reachable hs)
  · exact fun s hs => freeForcesZero_of_reachable ChainPendulumModel.chain_reset_forces hs
  · exact fun s hs => freeForcesZero_of_reachable ClothModel.cloth_reset_forces hs
  · exact fun s hs => freeForcesZero_of_reachable CubeModel.cube_reset_forces hs

/-- Witness for C2: the free particle of the mass on a spring after `reset()`. -/
theorem force_accumulator_invariant_witness :
    (⟨⟨float.val 0, float.val 2.5, float.val 0⟩, 0, MassOnASpringModel.mass, 0⟩ :
      Particle ℝ).F = 0 :=
  (force_accumulator_invariant (R := ℝ)).1 (MassOnASpringModel.reset ⟨[], []⟩)
    (MassOnASpringModel.Reachable.init _)
    ⟨⟨float.val 0, float.val 2.5, float.val 0⟩, 0, MassOnASpringModel.mass, 0⟩
    (by rw [MassOnASpringModel.mass_reset_eq]; simp)
    (by simp [MassOnASpringModel.mass, float.gt]; norm_num)

theorem mass_restLength {s : Model R} (h : MassOnASpringModel.WellFormed s) :
    ∀ sp ∈ s.springs,
      sp.l = distance (((MassOnASpringModel.resetCreate s).1.particles.getD sp.pi default).x)
        (((MassOnASpringModel.resetCreate s).1.particles.getD sp.pj default).x) ∧
      sp.l = float.val 10 := by
  obtain ⟨x, v, rfl⟩ := h
  intro sp hsp
  simp only [List.mem_singleton] at hsp
  subst hsp
  refine ⟨?_, rfl⟩
  simp only [MassOnASpringModel.mass_resetCreate_eq, List.getD_cons_zero, List.getD_cons_succ,
    MassOnASpringModel.p0]
  exact (distance_val (by norm_num) (by norm_num)).symm

theorem mass_reset_distance (s : Model R) :
    distance (((MassOnASpringModel.reset s).particles.getD 0 default).x)
      (((MassOnASpringModel.reset s).particles.getD 1 default).x) = float.val 2.5 := by
  simp only [MassOnASpringModel.mass_reset_eq, List.getD_cons_zero, List.getD_cons_succ,
    MassOnASpringModel.p0]
  exact distance_val (by norm_num) (by norm_num)

theorem chain_springs_construct (s : Model R) {k : Nat} (hk : k < 10) :
    (ChainPendulumModel.reset s).springs[k]?
      = some (Spring.new ((ChainPendulumModel.reset s).particles.take (k + 2)) k (k + 1)
          ChainPendulumModel.ks ChainPendulumModel.kd) := by
  have h1 : ((ChainPendulumModel.reset s).particles.take (k + 2)).getD k default
      = (ChainPendulumModel.reset s).particles.getD k default := by
    rw [List.getD_eq_getElem?_getD, List.getD_eq_getElem?_getD,
      List.getElem?_take, if_pos (show k < k + 2 by omega)]
  have h2 : ((ChainPendulumModel.reset s).particles.take (k + 2)).getD (k + 1) default
      = (ChainPendulumModel.reset s).particles.getD (k + 1) default := by
    rw [List.getD_eq_getElem?_getD, List.getD_eq_getElem?_getD,
      List.getElem?_take, if_pos (show k + 1 < k + 2 by omega)]
  have hmem : (⟨ChainPendulumModel.ks, ChainPendulumModel.kd, k, k + 1, float.val 2⟩ : Spring R)
      ∈ (ChainPendulumModel.reset s).springs := by
    rw [ChainPendulumModel.chain_reset_springs]
    exact List.mem_map.mpr ⟨k, List.mem_range.mpr hk, rfl⟩
  have hl := (ChainPendulumModel.chain_restLength_reset s _ hmem).2
  simp only [Spring.new, h1, h2]
  rw [ChainPendulumModel.chain_reset_springs, getElem?_map_range _ hk]
  rw [ChainPendulumModel.chain_reset_particles] at hl ⊢
  simp only at hl
  rw [← hl]

/-- C3. Rest-length invariant: in every state `s` reachable from `reset()` by calls of
`step(dt)`, the rest length `l` of every spring is the distance that its two endpoints had when
`reset()`, called in whatever prior state `s0`, constructed the spring.  The single spring has
`l = 10`, the distance at the end of `resetCreate`, while its endpoints are `2.5` apart when
`reset()` returns; every chain spring has `l = 2` and is constructed from the first `k + 2`
particles, which `reset()` does not move afterwards; the springs of the cloth and of the cube are
constructed when all particles are in place.  No `step` changes the list of springs, so no `l`,
`ks` or `kd`. -/
theorem rest_length_invariant :
    (∀ s0 s : Model R, MassOnASpringModel.Reachable s → ∀ sp ∈ s.springs,
      sp.l = distance (((MassOnASpringModel.resetCreate s0).1.particles.getD sp.pi default).x)
        (((MassOnASpringModel.resetCreate s0).1.particles.getD sp.pj default).x) ∧
      sp.l = float.val 10) ∧
    (∀ s0 : Model R, distance (((MassOnASpringModel.reset s0).particles.getD 0 default).x)
      (((MassOnASpringModel.reset s0).particles.getD 1 default).x) = float.val 2.5) ∧
    (∀ s0 s : Model R, Reachable ChainPendulumModel.reset ChainPendulumModel.step s →
      ∀ sp ∈ s.springs, sp.l = float.val 2 ∧
        sp.l = distance (((ChainPendulumModel.reset s0).particles.getD sp.pi default).x)
          (((ChainPendulumModel.reset s0).particles.getD sp.pj default).x)) ∧
    (∀ (s0 : Model R) (k : Nat), k < 10 → (ChainPendulumModel.reset s0).springs[k]?
      = some (Spring.new ((ChainPendulumModel.reset s0).particles.take (k + 2)) k (k + 1)
          ChainPendulumModel.ks ChainPendulumModel.kd)) ∧
    (∀ s0 s : Model R, Reachable ClothModel.reset ClothModel.step s →
      ∀ sp ∈ s.springs,
        sp.l = distance (((ClothModel.reset s0).particles.getD sp.pi default).x)
          (((ClothModel.reset s0).particles.getD sp.pj default).x)) ∧
    (∀ s0 s : Model R, Reachable CubeModel.reset CubeModel.step s →
      ∀ sp ∈ s.springs,
        sp.l = distance (((CubeModel.reset s0).particles.getD sp.pi default).x)
          (((CubeModel.reset s0).particles.getD sp.pj default).x)) ∧
    (∀ (s s' : Model R) (dt : float R), MassOnASpringModel.step s dt = some s' →
      s'.springs = s.springs) ∧
    (∀ (s : Model R) (dt : float R), (ChainPendulumModel.step s dt).springs = s.springs) ∧
    (∀ (s : Model R) (dt : float R), (ClothModel.step s dt).springs = s.springs) ∧
    (∀ (s : Model R) (dt : float R), (CubeModel.step s dt).springs = s.springs) := by
  refine ⟨?_, mass_reset_distance, ?_, ?_, ?_, ?_, ?_, ?_, ?_, ?_⟩
  · intro s0 s hs
    have h := mass_restLength (MassOnASpringModel.mass_wellFormed_of_reachable hs)
    rw [MassOnASpringModel.mass_resetCreate_eq] at h
    rw [MassOnASpringModel.mass_resetCreate_eq]
    exact h
  · intro s0 s hs sp hsp
    rw [springs_of_reachable ChainPendulumModel.chain_reset_const hs,
      ChainPendulumModel.chain_reset_const s s0] at hsp
    exact ChainPendulumModel.chain_restLength_reset s0 sp hsp
  · exact fun s0 k hk => chain_springs_construct s0 hk
  · intro s0 s hs sp hsp
    rw [springs_of_reachable ClothModel.cloth_reset_const hs,
      ClothModel.cloth_reset_const s s0] at hsp
    exact ClothModel.cloth_restLength_reset s0 sp hsp
  · intro s0 s hs sp hsp
    rw [springs_of_reachable CubeModel.cube_reset_const hs,
      CubeModel.cube_reset_const s s0] at hsp
    exact CubeModel.cube_restLength_reset s0 sp hsp
  · exact fun s s' dt h => mass_step_springs h
  · exact fun s dt => rfl
  · exact fun s dt => rfl
  · exact fun s dt => rfl

/-- Witness for C3: the spring of the mass on a spring after `reset()`. -/
theorem rest_length_invariant_witness :
    (⟨MassOnASpringModel.ks, MassOnASpringModel.kd, 0, 1, float.val 10⟩ : Spring ℝ).l
      = float.val 10 :=
  ((rest_length_invariant (R := ℝ)).1 ⟨[], []⟩ (MassOnASpringModel.reset ⟨[], []⟩)
    (MassOnASpringModel.Reachable.init _)
    ⟨MassOnASpringModel.ks, MassOnASpringModel.kd, 0, 1, float.val 10⟩
    (by rw [MassOnASpringModel.mass_reset_eq]; simp)).2

/-- C4. `reset()` is deterministic and idempotent: in each of the four models the result of
`reset()` is the same for every prior state, so that `reset()` after `reset()` changes
nothing. -/
theorem reset_deterministic (s t : Model R) :
    (MassOnASpringModel.reset s = MassOnASpringModel.reset t ∧
      MassOnASpringModel.reset (MassOnASpringModel.reset s) = MassOnASpringModel.reset s) ∧
    (ChainPendulumModel.reset s = ChainPendulumModel.reset t ∧
      ChainPendulumModel.reset (ChainPendulumModel.reset s) = ChainPendulumModel.reset s) ∧
    (ClothModel.reset s = ClothModel.reset t ∧
      ClothModel.reset (ClothModel.reset s) = ClothModel.reset s) ∧
    (CubeModel.reset s = CubeModel.reset t ∧
      CubeModel.reset (CubeModel.reset s) = CubeModel.reset s) := by
  refine ⟨⟨?_, ?_⟩, ⟨?_, ?_⟩, ⟨?_, ?_⟩, ⟨?_, ?_⟩⟩
  · rw [MassOnASpringModel.mass_reset_eq, MassOnASpringModel.mass_reset_eq]
  · rw [MassOnASpringModel.mass_reset_eq, MassOnASpringModel.mass_reset_eq]
  · exact ChainPendulumModel.chain_reset_const s t
  · exact ChainPendulumModel.chain_reset_const _ s
  · exact ClothModel.cloth_reset_const s t
  · exact ClothModel.cloth_reset_const _ s
  · exact CubeModel.cube_reset_const s t
  · exact CubeModel.cube_reset_const _ s

theorem Fd_ij_stretched_spec :
    Fd_ij (float.val 0.5) (⟨float.val (-1), float.val 0, float.val 0⟩ : vec3f R)
      ⟨⟨float.val 0, float.val 0, float.val 0⟩, 0, float.val 1, 0⟩
      ⟨⟨float.val 3, float.val 0, float.val 0⟩, 0, float.val 1, 0⟩
      = ⟨float.val 0, float.val 0, float.val 0⟩ := by
  have hn : normalize (⟨float.val (-1), float.val 0, float.val 0⟩ : vec3f R)
      = ⟨float.val (-1), float.val 0, float.val 0⟩ := by
    rw [normalize_val (g := 1) (by norm_num) (by norm_num)]
    norm_num
  simp only [Fd_ij, hn]
  simp only [vec3f.eq, float.eq, vec3f.splat, vec3f.zero_eq, vec3f.sub_def, dot,
    vec3f.smul, float.val_mul_val, float.val_sub_val, float.val_add_val]
  norm_num

/-- C6, as stated, fails.  For the stretched spring (`xi = (0, 0, 0)`, `xj = (3, 0, 0)`, `l = 2`,
`ks = 1`, both particles at rest) the loop body of `step` leaves `(1, 0, 0)` in the accumulator of
particle `i`, which pulls `i` towards `j`; the Hookean term of the claim, with `d = xj - xi`,
is `(-1, 0, 0)` and its damping term is zero, so that the claim asks for `(-1, 0, 0)`. -/
theorem force_law_counterexample :
    (springBody (float.val 0.5) (stretched (R := ℝ)).1 (stretched (R := ℝ)).2)[0]?
      = some ⟨⟨float.val 0, float.val 0, float.val 0⟩, 0, float.val 1,
          ⟨float.val 1, float.val 0, float.val 0⟩⟩ ∧
    hooke (float.val 1) (float.val 2)
      ((⟨float.val 3, float.val 0, float.val 0⟩ : vec3f ℝ)
        - ⟨float.val 0, float.val 0, float.val 0⟩)
      = ⟨float.val (-1), float.val 0, float.val 0⟩ ∧
    (springBody (float.val 0.5) (stretched (R := ℝ)).1 (stretched (R := ℝ)).2)[0]?
      ≠ some ⟨⟨float.val 0, float.val 0, float.val 0⟩, 0, float.val 1,
          (0 : vec3f ℝ) + (hooke (float.val 1) (float.val 2)
            ((⟨float.val 3, float.val 0, float.val 0⟩ : vec3f ℝ)
              - ⟨float.val 0, float.val 0, float.val 0⟩)
            + Fd_ij (float.val 0.5) (hooke (float.val 1) (float.val 2)
                ((⟨float.val 3, float.val 0, float.val 0⟩ : vec3f ℝ)
                  - ⟨float.val 0, float.val 0, float.val 0⟩))
              ⟨⟨float.val 0, float.val 0, float.val 0⟩, 0, float.val 1, 0⟩
              ⟨⟨float.val 3, float.val 0, float.val 0⟩, 0, float.val 1, 0⟩)⟩ := by
  have hb : (springBody (float.val 0.5) (stretched (R := ℝ)).1 (stretched (R := ℝ)).2)[0]?
      = some ⟨⟨float.val 0, float.val 0, float.val 0⟩, 0, float.val 1,
          ⟨float.val 1, float.val 0, float.val 0⟩⟩ := by
    have h := (springBody_endpoints (float.val 0.5) (stretched (R := ℝ)).1
      (stretched (R := ℝ)).2 ⟨⟨float.val 0, float.val 0, float.val 0⟩, 0, float.val 1, 0⟩
      ⟨⟨float.val 3, float.val 0, float.val 0⟩, 0, float.val 1, 0⟩
      (by simp [stretched]) (by simp [stretched]) (by simp [stretched])).1
    rw [springForce_stretched] at h
    simpa [stretched, vec3f.add_def] using h
  have hh : hooke (float.val 1) (float.val 2)
      ((⟨float.val 3, float.val 0, float.val 0⟩ : vec3f ℝ)
        - ⟨float.val 0, float.val 0, float.val 0⟩)
      = ⟨float.val (-1), float.val 0, float.val 0⟩ := by
    simpa [stretched] using hooke_stretched (R := ℝ)
  refine ⟨hb, hh, ?_⟩
  rw [hb, hh, Fd_ij_stretched_spec]
  simp [vec3f.add_def]
  norm_num

/-- C6, amended.  For every spring whose endpoints `i = pi` and `j = pj` are distinct particles,
the loop body of `step` adds `Fs + Fd` to the accumulator of particle `i` and subtracts it from
that of particle `j`, where the Hookean term is `Fs = -ks * (len - l) * normalize(d)` with the
displacement taken as `d = xi - xj` (and `len = |d|`), and `Fd` is the damping force computed
for this `Fs`. -/
theorem force_law (kd0 : float R) (particles : List (Particle R)) (spring : Spring R)
    (pi pj : Particle R) (hi : particles[spring.pi]? = some pi)
    (hj : particles[spring.pj]? = some pj) (hij : spring.pi ≠ spring.pj) :
    (springBody kd0 particles spring)[spring.pi]?
      = some { pi with F := pi.F + (hooke spring.ks spring.l (pi.x - pj.x)
          + Fd_ij kd0 (hooke spring.ks spring.l (pi.x - pj.x)) pi pj) } ∧
    (springBody kd0 particles spring)[spring.pj]?
      = some { pj with F := pj.F - (hooke spring.ks spring.l (pi.x - pj.x)
          + Fd_ij kd0 (hooke spring.ks spring.l (pi.x - pj.x)) pi pj) } := by
  have h := springBody_endpoints kd0 particles spring pi pj hi hj hij
  have hf : springForce kd0 particles spring = hooke spring.ks spring.l (pi.x - pj.x)
      + Fd_ij kd0 (hooke spring.ks spring.l (pi.x - pj.x)) pi pj := by
    have h1 : particles.getD spring.pi default = pi := by
      rw [List.getD_eq_getElem?_getD, hi, Option.getD_some]
    have h2 : particles.getD spring.pj default = pj := by
      rw [List.getD_eq_getElem?_getD, hj, Option.getD_some]
    simp only [springForce, h1, h2, Fs_ij_eq_hooke]
  rw [hf] at h
  exact h

/-- Witness for C6 (amended): the stretched spring. -/
theorem force_law_witness :
    (springBody (float.val 0.5) (stretched (R := ℝ)).1 (stretched (R := ℝ)).2)[0]?
      = some ⟨⟨float.val 0, float.val 0, float.val 0⟩, 0, float.val 1,
          (0 : vec3f ℝ) + (hooke (float.val 1) (float.val 2)
            ((⟨float.val 0, float.val 0, float.val 0⟩ : vec3f ℝ)
              - ⟨float.val 3, float.val 0, float.val 0⟩)
            + Fd_ij (float.val 0.5) (hooke (float.val 1) (float.val 2)
                ((⟨float.val 0, float.val 0, float.val 0⟩ : vec3f ℝ)
                  - ⟨float.val 3, float.val 0, float.val 0⟩))
              ⟨⟨float.val 0, float.val 0, float.val 0⟩, 0, float.val 1, 0⟩
              ⟨⟨float.val 3, float.val 0, float.val 0⟩, 0, float.val 1, 0⟩)⟩ :=
  (force_law (float.val 0.5) (stretched (R := ℝ)).1 (stretched (R := ℝ)).2
    ⟨⟨float.val 0, float.val 0, float.val 0⟩, 0, float.val 1, 0⟩
    ⟨⟨float.val 3, float.val 0, float.val 0⟩, 0, float.val 1, 0⟩
    (by simp [stretched]) (by simp [stretched]) (by simp [stretched])).1

/-- The single-spring scenario in exact arithmetic: `reset()` followed by one `step(dt)` with a
finite `dt = t > 0` returns; the anchor (index `0`) is unchanged, and the free particle (index `1`) has velocity
`(0, -750 t, 0)` and position `(0, 2.5 - 750 t², 0)`, so that its distance from the anchor at
`(0, 5, 0)` has grown from `2.5` to `2.5 + 750 t²`.  For `dt = 0.01` the velocity is
`(0, -7.5, 0)` and the position `(0, 2.425, 0)`. -/
theorem mass_first_step_exact (s : Model R) (t : R) (ht : 0 < t) :
    (∃ s', MassOnASpringModel.step (MassOnASpringModel.reset s) (float.val t) = some s' ∧
      s'.particles[1]? = some ⟨⟨float.val 0, float.val (2.5 - 750 * t ^ 2), float.val 0⟩,
        ⟨float.val 0, float.val (-750 * t), float.val 0⟩, float.val 0.1, 0⟩ ∧
      s'.particles[0]? = (MassOnASpringModel.reset s).particles[0]? ∧
      s'.particles[0]? = some ⟨⟨float.val 0, float.val 5, float.val 0⟩, 0, float.val 0, 0⟩ ∧
      distance ((MassOnASpringModel.reset s).particles.getD 0 default).x
        ((MassOnASpringModel.reset s).particles.getD 1 default).x = float.val 2.5 ∧
      distance (s'.particles.getD 0 default).x (s'.particles.getD 1 default).x
        = float.val (2.5 + 750 * t ^ 2) ∧
      (2.5 : R) < 2.5 + 750 * t ^ 2) ∧
    (∃ s', MassOnASpringModel.step (MassOnASpringModel.reset s) (float.val 0.01) = some s' ∧
      s'.particles[1]? = some ⟨⟨float.val 0, float.val 2.425, float.val 0⟩,
        ⟨float.val 0, float.val (-7.5), float.val 0⟩, float.val 0.1, 0⟩) := by
  refine ⟨⟨_, MassOnASpringModel.mass_step_reset s t, ?_, ?_, ?_, mass_reset_distance s, ?_, ?_⟩,
    ⟨_, MassOnASpringModel.mass_step_reset s 0.01, ?_⟩⟩
  · simp only [List.getElem?_cons_succ, List.getElem?_cons_zero, MassOnASpringModel.mass,
      Option.some.injEq, Particle.mk.injEq, vec3f.mk.injEq, float.val.injEq, and_true, true_and]
    ring
  · rw [MassOnASpringModel.mass_reset_eq]
    rfl
  · rfl
  · simp only [List.getD_cons_zero, List.getD_cons_succ, MassOnASpringModel.p0]
    refine distance_val (by positivity) ?_
    ring
  · have := pow_pos ht 2
    linarith
  · simp only [List.getElem?_cons_succ, List.getElem?_cons_zero, MassOnASpringModel.mass,
      Option.some.injEq, Particle.mk.injEq, vec3f.mk.injEq, float.val.injEq, and_true, true_and]
    norm_num

/-- C8 fails on the code.  `CubeModel::reset` joins the particles with indices `6` and `0`, which
are at the same position, by a spring of rest length `0`; in the first `step(dt)` this spring
contributes `Fs_ij + Fd_ij = (nan, nan, nan)`, not zero, because `normalize` is evaluated on the
zero vector.  Every particle of the cube is an endpoint of such a spring, and after the first
`step(dt)`, whatever `dt` is, all 1296 particles have position and velocity
`(nan, nan, nan)`. -/
theorem cube_first_step_nan (s : Model R) (dt : float R) :
    Spring.new (CubeModel.reset s).particles 6 0 CubeModel.ks CubeModel.kd
      ∈ (CubeModel.reset s).springs ∧
    ((CubeModel.reset s).particles.getD 6 default).x
      = ((CubeModel.reset s).particles.getD 0 default).x ∧
    (Spring.new (CubeModel.reset s).particles 6 0 CubeModel.ks CubeModel.kd).l = float.val 0 ∧
    springForce CubeModel.kd (CubeModel.reset s).particles
      (Spring.new (CubeModel.reset s).particles 6 0 CubeModel.ks CubeModel.kd) = vec3f.nan ∧
    (CubeModel.step (CubeModel.reset s) dt).particles
      = List.replicate 1296 ⟨vec3f.nan, vec3f.nan, CubeModel.mass, 0⟩ := by
  obtain ⟨hmem, hx⟩ := CubeModel.cube_twin_spring s (i := 6) (j := 0) (by norm_num)
    (by norm_num) (by norm_num) (by norm_num) (by norm_num)
  refine ⟨hmem, hx, ?_, ?_, CubeModel.cube_step_reset s dt⟩
  · simp only [Spring.new, hx]
    rw [CubeModel.cube_reset_x s (show 0 < 1296 by norm_num)]
    exact distance_val (le_refl _) (by norm_num)
  · exact springForce_of_coincident _ _ _ (by simp only [Spring.new]; exact hx)

theorem cloth_newParticle_fixed_iff {n : Nat} :
    ((ClothModel.newParticle (R := R) (n / 10) (n % 10)).m = float.val 0) ↔ (n = 0 ∨ n = 9) := by
  have hiff : ((n / 10 = 0 ∧ n % 10 = 0) ∨ (n / 10 = 0 ∧ n % 10 = 9)) ↔ (n = 0 ∨ n = 9) := by
    omega
  by_cases hc : (n / 10 = 0 ∧ n % 10 = 0) ∨ (n / 10 = 0 ∧ n % 10 = 9)
  · simp only [ClothModel.newParticle, if_pos hc, true_iff]
    exact hiff.mp hc
  · have hne : (0.1 : R) ≠ 0 := by norm_num
    simp only [ClothModel.newParticle, if_neg hc, ClothModel.mass, float.val.injEq, hne,
      false_iff]
    exact fun h => hc (hiff.mpr h)

/-- C9. Chain topology: `ChainPendulumModel::reset` produces 11 particles and 10 springs.
Particle `0` is at `(0, 10, 0)` and is the only particle of mass `0`; particle `k`, for
`k = 1, ..., 10`, is at `(2k, 10, 0)` with mass `0.5`; all velocities and forces are zero;
spring `k`, for `k = 0, ..., 9`, has `pi` = particle `k`, `pj` = particle `k + 1`, `ks = 500`,
`kd = 0.5` and rest length `2`. -/
theorem chain_topology (s : Model R) :
    (ChainPendulumModel.reset s).particles.length = 11 ∧
    (ChainPendulumModel.reset s).springs.length = 10 ∧
    (ChainPendulumModel.reset s).particles[0]?
      = some ⟨⟨float.val 0, float.val 10, float.val 0⟩, 0, float.val 0, 0⟩ ∧
    (∀ k : Nat, 1 ≤ k → k ≤ 10 → (ChainPendulumModel.reset s).particles[k]?
      = some ⟨⟨float.val (2 * (k : R)), float.val 10, float.val 0⟩, 0, float.val 0.5, 0⟩) ∧
    (∀ (k : Nat) (p : Particle R), (ChainPendulumModel.reset s).particles[k]? = some p →
      (p.m = float.val 0 ↔ k = 0)) ∧
    (∀ k : Nat, k < 10 → (ChainPendulumModel.reset s).springs[k]?
      = some ⟨float.val 500, float.val 0.5, k, k + 1, float.val 2⟩) := by
  rw [ChainPendulumModel.chain_reset_particles, ChainPendulumModel.chain_reset_springs]
  refine ⟨by simp, by simp, ?_, ?_, ?_, ?_⟩
  · rw [getElem?_map_range _ (by norm_num)]
    simp
  · intro k h1 h10
    rw [getElem?_map_range _ (show k < 11 by omega)]
    have hk : k ≠ 0 := by omega
    simp [hk, ChainPendulumModel.mass]
  · intro k p hp
    have hk : k < 11 := by
      by_contra hk
      rw [List.getElem?_eq_none (by simpa using hk)] at hp
      exact Option.noConfusion hp
    rw [getElem?_map_range _ hk, Option.some.injEq] at hp
    subst hp
    by_cases h0 : k = 0
    · simp [h0]
    · simp only [h0, if_false, ChainPendulumModel.mass, float.val.injEq, iff_false]
      norm_num
  · intro k hk
    rw [getElem?_map_range _ hk]
    rfl

/-- Witness for C9: particle `3` and spring `3` of the chain. -/
theorem chain_topology_witness :
    (ChainPendulumModel.reset (⟨[], []⟩ : Model ℝ)).particles[3]?
      = some ⟨⟨float.val (2 * ((3 : Nat) : ℝ)), float.val 10, float.val 0⟩, 0, float.val 0.5, 0⟩ ∧
    (ChainPendulumModel.reset (⟨[], []⟩ : Model ℝ)).springs[3]?
      = some ⟨float.val 500, float.val 0.5, 3, 3 + 1, float.val 2⟩ :=
  ⟨(chain_topology (⟨[], []⟩ : Model ℝ)).2.2.2.1 3 (by decide) (by decide),
    (chain_topology (⟨[], []⟩ : Model ℝ)).2.2.2.2.2 3 (by decide)⟩

/-- C10. Cloth particles: `ClothModel::reset` produces 100 particles; the particle with list
index `10 i + j`, for `0 ≤ i, j ≤ 9`, is at `(2 (i - 5), 0, 2 (j - 5))` with zero velocity and
force, and has mass `0` for the grid cells `(0, 0)` and `(0, 9)` and mass `0.1` otherwise.  The
particles of mass `0` are exactly those with list indices `0` and `9`: there are 2 of them, and
98 of mass `0.1`. -/
theorem cloth_particles (s : Model R) :
    (ClothModel.reset s).particles.length = 100 ∧
    (∀ i j : Nat, i ≤ 9 → j ≤ 9 →
      (ClothModel.reset s).particles[10 * i + j]?
        = some ⟨⟨float.val (2 * ((i : R) - 5)), float.val 0, float.val (2 * ((j : R) - 5))⟩, 0,
            if (i = 0 ∧ j = 0) ∨ (i = 0 ∧ j = 9) then float.val 0 else float.val 0.1, 0⟩) ∧
    (∀ (n : Nat) (p : Particle R), (ClothModel.reset s).particles[n]? = some p →
      (p.m = float.val 0 ↔ n = 0 ∨ n = 9) ∧ (p.m = float.val 0 ∨ p.m = float.val 0.1)) ∧
    (ClothModel.reset s).particles.countP (fun p => decide (p.m = float.val 0)) = 2 ∧
    (ClothModel.reset s).particles.countP (fun p => decide (p.m = float.val 0.1)) = 98 := by
  have hne : (0.1 : R) ≠ 0 := by norm_num
  rw [ClothModel.cloth_reset_particles]
  refine ⟨by simp, ?_, ?_, ?_, ?_⟩
  · intro i j hi hj
    rw [getElem?_map_range _ (show 10 * i + j < 100 by omega)]
    have h1 : (10 * i + j) / 10 = i := by omega
    have h2 : (10 * i + j) % 10 = j := by omega
    rw [h1, h2]
    rfl
  · intro n p hp
    have hn : n < 100 := by
      by_contra hn
      rw [List.getElem?_eq_none (by simpa using hn)] at hp
      exact Option.noConfusion hp
    rw [getElem?_map_range _ hn, Option.some.injEq] at hp
    subst hp
    refine ⟨cloth_newParticle_fixed_iff, ?_⟩
    by_cases hc : (n / 10 = 0 ∧ n % 10 = 0) ∨ (n / 10 = 0 ∧ n % 10 = 9)
    · exact Or.inl (by simp only [ClothModel.newParticle, if_pos hc])
    · exact Or.inr (by simp only [ClothModel.newParticle, if_neg hc, ClothModel.mass])
  · rw [List.countP_map]
    have h : ((fun p : Particle R => decide (p.m = float.val 0))
        ∘ fun k => ClothModel.newParticle (k / 10) (k % 10))
        = fun n => decide (n = 0 ∨ n = 9) := by
      funext n
      simp only [Function.comp, cloth_newParticle_fixed_iff]
    rw [h]
    decide
  · rw [List.countP_map]
    have h : ((fun p : Particle R => decide (p.m = float.val 0.1))
        ∘ fun k => ClothModel.newParticle (k / 10) (k % 10))
        = fun n => decide (¬ (n = 0 ∨ n = 9)) := by
      funext n
      have hiff : ((n / 10 = 0 ∧ n % 10 = 0) ∨ (n / 10 = 0 ∧ n % 10 = 9)) ↔ (n = 0 ∨ n = 9) := by
        omega
      by_cases hc : (n / 10 = 0 ∧ n % 10 = 0) ∨ (n / 10 = 0 ∧ n % 10 = 9)
      · simp only [Function.comp, ClothModel.newParticle, if_pos hc, float.val.injEq,
          hiff.mp hc, not_true_eq_false, decide_False, decide_eq_false_iff_not]
        exact fun h => hne h.symm
      · have hc2 : ¬ (n = 0 ∨ n = 9) := fun h => hc (hiff.mpr h)
        simp only [Function.comp, ClothModel.newParticle, if_neg hc, ClothModel.mass, hc2,
          not_false_eq_true, decide_True]
    rw [h]
    rfl

/-- Witness for C10: the particle of grid cell `(2, 3)`. -/
theorem cloth_particles_witness :
    (ClothModel.reset (⟨[], []⟩ : Model ℝ)).particles[10 * 2 + 3]?
      = some ⟨⟨float.val (2 * (((2 : Nat) : ℝ) - 5)), float.val 0,
          float.val (2 * (((3 : Nat) : ℝ) - 5))⟩, 0,
          if ((2 : Nat) = 0 ∧ (3 : Nat) = 0) ∨ ((2 : Nat) = 0 ∧ (3 : Nat) = 9) then float.val 0
          else float.val 0.1, 0⟩ :=
  (cloth_particles (⟨[], []⟩ : Model ℝ)).2.1 2 3 (by decide) (by decide)

/-! ### The particles of the cube -/

/-- C12. Cube particles: `CubeModel::reset` produces 1296 particles, one for each index tuple
`(i, j, k, h)` with `i, j, k, h < 6`, at list index `216 i + 36 j + 6 k + h` and at position
`(2 i, 2 h, 2 (j - 5))`; none is fixed: every particle has mass `1`, zero velocity and zero
force. -/
theorem cube_particles (s : Model R) :
    (CubeModel.reset s).particles.length = 1296 ∧
    (∀ i j k h : Nat, i < 6 → j < 6 → k < 6 → h < 6 →
      (CubeModel.reset s).particles[216 * i + 36 * j + 6 * k + h]?
        = some ⟨⟨float.val (2 * (i : R)), float.val (2 * (h : R)),
            float.val (2 * ((j : R) - 5))⟩, 0, float.val 1, 0⟩) ∧
    (∀ p ∈ (CubeModel.reset s).particles, p.m = float.val 1 ∧ p.v = 0 ∧ p.F = 0) ∧
    (∀ p ∈ (CubeModel.reset s).particles, p.m ≠ float.val 0) := by
  have hall : ∀ p ∈ (CubeModel.reset s).particles, p.m = float.val 1 ∧ p.v = 0 ∧ p.F = 0 := by
    intro p hp
    rw [CubeModel.cube_reset_particles, List.mem_map] at hp
    obtain ⟨n, _, rfl⟩ := hp
    exact ⟨rfl, rfl, rfl⟩
  refine ⟨CubeModel.cube_reset_length s, ?_, hall, ?_⟩
  · intro i j k h hi hj hk hh
    rw [CubeModel.cube_reset_getElem? s (show 216 * i + 36 * j + 6 * k + h < 1296 by omega)]
    have h1 : (216 * i + 36 * j + 6 * k + h) / 216 = i := by omega
    have h2 : (216 * i + 36 * j + 6 * k + h) % 216 / 36 = j := by omega
    have h3 : (216 * i + 36 * j + 6 * k + h) % 216 % 36 / 6 = k := by omega
    have h4 : (216 * i + 36 * j + 6 * k + h) % 216 % 36 % 6 = h := by omega
    rw [h1, h2, h3, h4]
    simp only [CubeModel.newParticle, CubeModel.mass, vec3f.splat_zero, float.val_mul_val,
      float.val_sub_val, Nat.cast_mul, Nat.cast_ofNat]
  · intro p hp h0
    rw [(hall p hp).1, float.val.injEq] at h0
    exact one_ne_zero h0

/-- Witness for C12: the particle with indices `(1, 2, 3, 4)`. -/
theorem cube_particles_witness :
    (CubeModel.reset (⟨[], []⟩ : Model ℝ)).particles[216 * 1 + 36 * 2 + 6 * 3 + 4]?
      = some ⟨⟨float.val (2 * ((1 : Nat) : ℝ)), float.val (2 * ((4 : Nat) : ℝ)),
          float.val (2 * (((2 : Nat) : ℝ) - 5))⟩, 0, float.val 1, 0⟩ :=
  (cube_particles (⟨[], []⟩ : Model ℝ)).2.1 1 2 3 4 (by decide) (by decide) (by decide)
    (by decide)

/-! ### The unchecked accesses of the mass on a spring -/

/-- C20. In every state reachable from `MassOnASpringModel::reset` by calls of `step(dt)` the
spring list holds exactly one spring, with `pi` = particle `0` and `pj` = particle `1`, and the
particle list exactly two particles, with `particles[0].m = 0` and `particles[1].m = 0.1`,
which is not zero; so `springs[0]` and `particles[1]` are in range, every call of `step`
returns, and the divisor `particles[1]->m` is never zero. -/
theorem single_spring_accesses_safe (s : Model R) (h : MassOnASpringModel.Reachable s) :
    s.springs.length = 1 ∧ s.particles.length = 2 ∧
    (∃ sp : Spring R, s.springs[0]? = some sp ∧ sp.pi = 0 ∧ sp.pj = 1) ∧
    (∃ p0 p1 : Particle R, s.particles[0]? = some p0 ∧ s.particles[1]? = some p1 ∧
      p0.m = float.val 0 ∧ p1.m = float.val 0.1 ∧ p1.m ≠ float.val 0) ∧
    (∀ dt : float R, ∃ s', MassOnASpringModel.step s dt = some s') := by
  have hw := MassOnASpringModel.mass_wellFormed_of_reachable h
  have hstep : ∀ dt : float R, ∃ s', MassOnASpringModel.step s dt = some s' := fun dt =>
    (MassOnASpringModel.mass_step_of_wellFormed hw dt).imp fun _ hs => hs.1
  obtain ⟨x, v, rfl⟩ := hw
  refine ⟨rfl, rfl, ⟨_, rfl, rfl, rfl⟩, ⟨_, _, rfl, rfl, rfl, rfl, ?_⟩, hstep⟩
  simp only [MassOnASpringModel.mass, ne_eq, float.val.injEq]
  norm_num

/-- Witness for C20: the state after `reset()`. -/
theorem single_spring_accesses_safe_witness :
    (MassOnASpringModel.reset (⟨[], []⟩ : Model ℝ)).springs.length = 1 ∧
    (MassOnASpringModel.reset (⟨[], []⟩ : Model ℝ)).particles.length = 2 :=
  ⟨(single_spring_accesses_safe _ (MassOnASpringModel.Reachable.init _)).1,
    (single_spring_accesses_safe _ (MassOnASpringModel.Reachable.init _)).2.1⟩

/-! ### The damping coefficient and the order of the springs -/

theorem foldl_springBody_ownKd (kd0 : float R) (sps : List (Spring R))
    (h : ∀ sp ∈ sps, sp.kd = kd0) (ps : List (Particle R)) :
    sps.foldl (springBody kd0) ps = sps.foldl springBodyOwnKd ps := by
  induction sps generalizing ps with
  | nil => rfl
  | cons sp sps ih =>
    rw [List.foldl_cons, List.foldl_cons, ih (fun sp' hsp' => h sp' (List.mem_cons_of_mem _ hsp')),
      springBodyOwnKd, h sp (List.mem_cons_self _ _)]

theorem stepWith_eq_stepOwnKd (g : vec3f R) (s : Model R) (dt : float R) (kd0 : float R)
    (h : ∀ sp ∈ s.springs, sp.kd = kd0) : stepWith g s dt = stepOwnKd g s dt := by
  have hl : springLoop s.particles s.springs = s.springs.foldl springBodyOwnKd s.particles := by
    unfold springLoop
    cases hs : s.springs with
    | nil => rfl
    | cons sp0 sps =>
      rw [hs] at h
      simp only []
      rw [h sp0 (List.mem_cons_self _ _)]
      exact foldl_springBody_ownKd kd0 _ h _
  simp only [stepWith, stepOwnKd, hl]

theorem springSum_of_kd (s : Model R) (kd0 : float R) (h : ∀ sp ∈ s.springs, sp.kd = kd0)
    (k : Nat) : springSum s k = (s.springs.map (contribution kd0 s.particles k)).sum := by
  unfold springSum
  cases hs : s.springs with
  | nil => rfl
  | cons sp0 sps =>
    rw [hs] at h
    simp only []
    rw [h sp0 (List.mem_cons_self _ _)]

theorem stepWith_perm (g : vec3f R) (s : Model R) (dt : float R) (kd0 : float R)
    (h : ∀ sp ∈ s.springs, sp.kd = kd0) (springs : List (Spring R))
    (hp : springs.Perm s.springs) :
    (stepWith g ⟨s.particles, springs⟩ dt).particles = (stepWith g s dt).particles := by
  apply List.ext_getElem?
  intro k
  have h' : ∀ sp ∈ (⟨s.particles, springs⟩ : Model R).springs, sp.kd = kd0 :=
    fun sp hsp => h sp (hp.subset hsp)
  rw [stepWith_getElem?, stepWith_getElem?, springSum_of_kd _ kd0 h' k, springSum_of_kd _ kd0 h k,
    (hp.map (contribution kd0 s.particles k)).sum_eq]

theorem chain_springs_consts (s : Model R) :
    ∀ sp ∈ (ChainPendulumModel.reset s).springs,
      sp.ks = ChainPendulumModel.ks ∧ sp.kd = ChainPendulumModel.kd := by
  intro sp hsp
  rw [ChainPendulumModel.chain_reset_springs, List.mem_map] at hsp
  obtain ⟨k, _, rfl⟩ := hsp
  exact ⟨rfl, rfl⟩

theorem cloth_springs_consts (s : Model R) :
    ∀ sp ∈ (ClothModel.reset s).springs, sp.ks = ClothModel.ks ∧ sp.kd = ClothModel.kd := by
  intro sp hsp
  rw [ClothModel.cloth_reset_springs] at hsp
  obtain ⟨i, j, rfl⟩ := ClothModel.cloth_resetSprings_mem _ hsp
  simp only [Spring.new, and_self]

theorem cube_springs_consts (s : Model R) :
    ∀ sp ∈ (CubeModel.reset s).springs, sp.ks = CubeModel.ks ∧ sp.kd = CubeModel.kd := by
  intro sp hsp
  rw [CubeModel.cube_reset_springs] at hsp
  obtain ⟨i, j, rfl⟩ := CubeModel.cube_resetSprings_mem _ hsp
  simp only [Spring.new, and_self]

theorem springs_consts_of_reachable {reset : Model R → Model R} {g : vec3f R} {ks kd : float R}
    (hreset : ∀ s t, reset s = reset t)
    (hc : ∀ s, ∀ sp ∈ (reset s).springs, sp.ks = ks ∧ sp.kd = kd) {s : Model R}
    (h : Reachable reset (stepWith g) s) : ∀ sp ∈ s.springs, sp.ks = ks ∧ sp.kd = kd := by
  rw [springs_of_reachable hreset h]
  exact hc s

/-- C13. Spring-order independence: in every state of `ChainPendulumModel`, `ClothModel` and
`CubeModel` reachable from `reset()`, for every `dt`, `step(dt)` applied to the state with its
spring list replaced by any permutation of it yields the same particles (positions, velocities,
masses and forces) as `step(dt)` applied to the state itself. -/
theorem spring_order_independence :
    (∀ (s : Model R) (springs : List (Spring R)) (dt : float R),
      Reachable ChainPendulumModel.reset ChainPendulumModel.step s → springs.Perm s.springs →
      (ChainPendulumModel.step ⟨s.particles, springs⟩ dt).particles
        = (ChainPendulumModel.step s dt).particles) ∧
    (∀ (s : Model R) (springs : List (Spring R)) (dt : float R),
      Reachable ClothModel.reset ClothModel.step s → springs.Perm s.springs →
      (ClothModel.step ⟨s.particles, springs⟩ dt).particles
        = (ClothModel.step s dt).particles) ∧
    (∀ (s : Model R) (springs : List (Spring R)) (dt : float R),
      Reachable CubeModel.reset CubeModel.step s → springs.Perm s.springs →
      (CubeModel.step ⟨s.particles, springs⟩ dt).particles
        = (CubeModel.step s dt).particles) := by
  refine ⟨?_, ?_, ?_⟩
  · intro s springs dt hs hp
    exact stepWith_perm _ s dt ChainPendulumModel.kd (fun sp hsp =>
      (springs_consts_of_reachable ChainPendulumModel.chain_reset_const chain_springs_consts
        hs sp hsp).2) springs hp
  · intro s springs dt hs hp
    exact stepWith_perm _ s dt ClothModel.kd (fun sp hsp =>
      (springs_consts_of_reachable ClothModel.cloth_reset_const cloth_springs_consts
        hs sp hsp).2) springs hp
  · intro s springs dt hs hp
    exact stepWith_perm _ s dt CubeModel.kd (fun sp hsp =>
      (springs_consts_of_reachable CubeModel.cube_reset_const cube_springs_consts
        hs sp hsp).2) springs hp

/-- Witness for C13: the chain pendulum after `reset()`, with its springs in reverse order. -/
theorem spring_order_independence_witness :
    (ChainPendulumModel.step ⟨(ChainPendulumModel.reset (⟨[], []⟩ : Model ℝ)).particles,
        (ChainPendulumModel.reset (⟨[], []⟩ : Model ℝ)).springs.reverse⟩ (float.val 0.01)).particles
      = (ChainPendulumModel.step (ChainPendulumModel.reset (⟨[], []⟩ : Model ℝ))
          (float.val 0.01)).particles :=
  (spring_order_independence (R := ℝ)).1 _ _ _ (Reachable.init _) (List.reverse_perm _)

/-- C17. Use of `springs[0].kd` is harmless: in every state of `ChainPendulumModel`,
`ClothModel` and `CubeModel` reachable from `reset()`, every spring has the `ks` and `kd` of the
model, hence the `kd` of `springs[0]`, and `step(dt)` yields the same state as `stepOwnKd`, the
step that uses each spring's own `kd`. -/
theorem springs0_kd_harmless :
    (∀ s : Model R, Reachable ChainPendulumModel.reset ChainPendulumModel.step s →
      (∀ sp ∈ s.springs, sp.ks = ChainPendulumModel.ks ∧ sp.kd = ChainPendulumModel.kd) ∧
      (∀ sp ∈ s.springs, ∀ sp0, s.springs[0]? = some sp0 → sp.kd = sp0.kd) ∧
      ∀ dt, ChainPendulumModel.step s dt = stepOwnKd ChainPendulumModel.gravity s dt) ∧
    (∀ s : Model R, Reachable ClothModel.reset ClothModel.step s →
      (∀ sp ∈ s.springs, sp.ks = ClothModel.ks ∧ sp.kd = ClothModel.kd) ∧
      (∀ sp ∈ s.springs, ∀ sp0, s.springs[0]? = some sp0 → sp.kd = sp0.kd) ∧
      ∀ dt, ClothModel.step s dt = stepOwnKd ClothModel.gravity s dt) ∧
    (∀ s : Model R, Reachable CubeModel.reset CubeModel.step s →
      (∀ sp ∈ s.springs, sp.ks = CubeModel.ks ∧ sp.kd = CubeModel.kd) ∧
      (∀ sp ∈ s.springs, ∀ sp0, s.springs[0]? = some sp0 → sp.kd = sp0.kd) ∧
      ∀ dt, CubeModel.step s dt = stepOwnKd CubeModel.gravity s dt) := by
  have key : ∀ (g : vec3f R) (ks kd : float R) (s : Model R),
      (∀ sp ∈ s.springs, sp.ks = ks ∧ sp.kd = kd) →
      (∀ sp ∈ s.springs, sp.ks = ks ∧ sp.kd = kd) ∧
      (∀ sp ∈ s.springs, ∀ sp0, s.springs[0]? = some sp0 → sp.kd = sp0.kd) ∧
      ∀ dt, stepWith g s dt = stepOwnKd g s dt := by
    intro g ks kd s h
    refine ⟨h, ?_, fun dt => stepWith_eq_stepOwnKd g s dt kd (fun sp hsp => (h sp hsp).2)⟩
    intro sp hsp sp0 h0
    rw [(h sp hsp).2, (h sp0 (List.getElem?_mem h0)).2]
  exact ⟨fun s hs => key _ _ _ s
      (springs_consts_of_reachable ChainPendulumModel.chain_reset_const chain_springs_consts hs),
    fun s hs => key _ _ _ s
      (springs_consts_of_reachable ClothModel.cloth_reset_const cloth_springs_consts hs),
    fun s hs => key _ _ _ s
      (springs_consts_of_reachable CubeModel.cube_reset_const cube_springs_consts hs)⟩


/-- Witness for C17: the chain pendulum after `reset()`. -/
theorem springs0_kd_harmless_witness :
    ChainPendulumModel.step (ChainPendulumModel.reset (⟨[], []⟩ : Model ℝ)) (float.val 0.01)
      = stepOwnKd ChainPendulumModel.gravity (ChainPendulumModel.reset (⟨[], []⟩ : Model ℝ))
          (float.val 0.01) :=
  ((springs0_kd_harmless (R := ℝ)).1 _ (Reachable.init _)).2.2 _

/-! ### Finite vectors that are not zero -/

theorem sumsq_nonneg (a b c : R) : 0 ≤ a * a + b * b + c * c :=
  add_nonneg (add_nonneg (mul_self_nonneg a) (mul_self_nonneg b)) (mul_self_nonneg c)

theorem sumsq_pos {a b c : R} (h : ¬ (a = 0 ∧ b = 0 ∧ c = 0)) : 0 < a * a + b * b + c * c := by
  by_contra hn
  have h0 : a * a + b * b + c * c = 0 :=
    le_antisymm (not_lt.mp hn) (sumsq_nonneg a b c)
  have ha : a = 0 := by nlinarith [mul_self_nonneg a, mul_self_nonneg b, mul_self_nonneg c]
  have hb : b = 0 := by nlinarith [mul_self_nonneg a, mul_self_nonneg b, mul_self_nonneg c]
  have hc : c = 0 := by nlinarith [mul_self_nonneg a, mul_self_nonneg b, mul_self_nonneg c]
  exact h ⟨ha, hb, hc⟩

theorem sqrt_pos_of_pos {x : R} (h : 0 < x) : 0 < SqrtField.sqrt x := by
  rcases lt_or_eq_of_le (SqrtField.sqrt_nonneg x) with h1 | h1
  · exact h1
  · have h2 := SqrtField.sqrt_mul_self x (le_of_lt h)
    rw [← h1, mul_zero] at h2
    exact absurd h2.symm (ne_of_gt h)

theorem length_val (a b c : R) :
    length (⟨float.val a, float.val b, float.val c⟩ : vec3f R)
      = float.val (SqrtField.sqrt (a * a + b * b + c * c)) := by
  have h : ¬ (a * a + b * b + c * c < 0) := not_lt.mpr (sumsq_nonneg a b c)
  simp only [length, dot, float.val_mul_val, float.val_add_val, float.sqrt, h, if_false]

theorem normalize_of_ne_zero {a b c : R} (h : ¬ (a = 0 ∧ b = 0 ∧ c = 0)) :
    normalize (⟨float.val a, float.val b, float.val c⟩ : vec3f R)
      = ⟨float.val (a / SqrtField.sqrt (a * a + b * b + c * c)),
          float.val (b / SqrtField.sqrt (a * a + b * b + c * c)),
          float.val (c / SqrtField.sqrt (a * a + b * b + c * c))⟩ :=
  normalize_val (sqrt_pos_of_pos (sumsq_pos h))
    (SqrtField.sqrt_mul_self _ (le_of_lt (sumsq_pos h)))

theorem unit_of_ne_zero {a b c : R} (h : ¬ (a = 0 ∧ b = 0 ∧ c = 0)) :
    a / SqrtField.sqrt (a * a + b * b + c * c) * (a / SqrtField.sqrt (a * a + b * b + c * c))
      + b / SqrtField.sqrt (a * a + b * b + c * c) * (b / SqrtField.sqrt (a * a + b * b + c * c))
      + c / SqrtField.sqrt (a * a + b * b + c * c) * (c / SqrtField.sqrt (a * a + b * b + c * c))
      = 1 := by
  have hg := sqrt_pos_of_pos (sumsq_pos h)
  have hgg := SqrtField.sqrt_mul_self _ (le_of_lt (sumsq_pos h))
  have hg' : SqrtField.sqrt (a * a + b * b + c * c) ≠ 0 := ne_of_gt hg
  field_simp
  nlinarith [hgg]

/-! ### The damping force along a unit vector -/

theorem damping_unit (kd0 : float R) (dv : vec3f R) {u v w σ : R}
    (hn : u * u + v * v + w * w = 1) (hσ : σ * σ = 1) :
    vec3f.smul (float.val (-1) * kd0
        * (dot dv ⟨float.val (σ * u), float.val (σ * v), float.val (σ * w)⟩
          / dot (⟨float.val (σ * u), float.val (σ * v), float.val (σ * w)⟩ : vec3f R)
              ⟨float.val (σ * u), float.val (σ * v), float.val (σ * w)⟩))
        ⟨float.val (σ * u), float.val (σ * v), float.val (σ * w)⟩
      = vec3f.smul (-kd0)
          (vec3f.smul (dot dv ⟨float.val u, float.val v, float.val w⟩)
            ⟨float.val u, float.val v, float.val w⟩) ∧
    vec3f.smul (float.val (-1) * kd0 * dot dv ⟨float.val u, float.val v, float.val w⟩
        / dot (⟨float.val u, float.val v, float.val w⟩ : vec3f R)
            ⟨float.val u, float.val v, float.val w⟩)
        ⟨float.val u, float.val v, float.val w⟩
      = vec3f.smul (-kd0)
          (vec3f.smul (dot dv ⟨float.val u, float.val v, float.val w⟩)
            ⟨float.val u, float.val v, float.val w⟩) := by
  have h1 : σ * u * (σ * u) + σ * v * (σ * v) + σ * w * (σ * w) = 1 := by
    have : σ * u * (σ * u) + σ * v * (σ * v) + σ * w * (σ * w)
        = (σ * σ) * (u * u + v * v + w * w) := by ring
    rw [this, hσ, hn, one_mul]
  have h10 : (1 : R) ≠ 0 := one_ne_zero
  obtain ⟨dx, dy, dz⟩ := dv
  cases kd0 <;> cases dx <;> cases dy <;> cases dz <;>
    simp only [dot, vec3f.smul, float.val_mul_val, float.val_add_val, float.nan_mul,
      float.mul_nan, float.nan_add, float.add_nan, float.nan_div, float.div_nan, float.neg_nan,
      float.neg_val, h1, hn, float.val_div_val_of_ne _ h10, and_self, div_one]
  rcases mul_self_eq_one_iff.mp hσ with rfl | rfl
  · constructor <;> congr 1 <;> congr 1 <;> ring
  · constructor <;> congr 1 <;> congr 1 <;> ring

theorem normalize_scaled_unit {u v w C : R} (hn : u * u + v * v + w * w = 1) (hC : C ≠ 0) :
    normalize (⟨float.val (C * u), float.val (C * v), float.val (C * w)⟩ : vec3f R)
      = ⟨float.val (C / |C| * u), float.val (C / |C| * v), float.val (C / |C| * w)⟩ := by
  have h : |C| * |C| = C * u * (C * u) + C * v * (C * v) + C * w * (C * w) := by
    have e : C * u * (C * u) + C * v * (C * v) + C * w * (C * w)
        = (C * C) * (u * u + v * v + w * w) := by ring
    rw [e, hn, mul_one, abs_mul_abs_self]
  rw [normalize_val (abs_pos.mpr hC) h]
  simp only [mul_div_right_comm]

theorem sign_mul_self {C : R} (hC : C ≠ 0) : C / |C| * (C / |C|) = 1 := by
  have h : |C| ≠ 0 := abs_ne_zero.mpr hC
  field_simp

theorem Fs_ij_val {spring : Spring R} {pi pj : Particle R} {k l0 a b c a' b' c' : R}
    (hks : spring.ks = float.val k) (hl : spring.l = float.val l0)
    (hxi : pi.x = ⟨float.val a, float.val b, float.val c⟩)
    (hxj : pj.x = ⟨float.val a', float.val b', float.val c'⟩)
    (hne : ¬ (a - a' = 0 ∧ b - b' = 0 ∧ c - c' = 0)) :
    Fs_ij spring pi pj
      = ⟨float.val (-1 * k * (SqrtField.sqrt ((a - a') * (a - a') + (b - b') * (b - b')
              + (c - c') * (c - c')) - l0)
            * ((a - a') / SqrtField.sqrt ((a - a') * (a - a') + (b - b') * (b - b')
              + (c - c') * (c - c')))),
          float.val (-1 * k * (SqrtField.sqrt ((a - a') * (a - a') + (b - b') * (b - b')
              + (c - c') * (c - c')) - l0)
            * ((b - b') / SqrtField.sqrt ((a - a') * (a - a') + (b - b') * (b - b')
              + (c - c') * (c - c')))),
          float.val (-1 * k * (SqrtField.sqrt ((a - a') * (a - a') + (b - b') * (b - b')
              + (c - c') * (c - c')) - l0)
            * ((c - c') / SqrtField.sqrt ((a - a') * (a - a') + (b - b') * (b - b')
              + (c - c') * (c - c'))))⟩ := by
  simp only [Fs_ij, distance, hxi, hxj, hks, hl, vec3f.sub_def, float.val_sub_val, length_val,
    normalize_of_ne_zero hne, vec3f.smul, float.val_mul_val]

theorem sub_ne_of_pos_ne {a b c a' b' c' : R}
    (hne : (⟨float.val a, float.val b, float.val c⟩ : vec3f R)
      ≠ ⟨float.val a', float.val b', float.val c'⟩) :
    ¬ (a - a' = 0 ∧ b - b' = 0 ∧ c - c' = 0) := by
  rintro ⟨h1, h2, h3⟩
  apply hne
  rw [sub_eq_zero.mp h1, sub_eq_zero.mp h2, sub_eq_zero.mp h3]

theorem damping_of_finite (kd0 : float R) {spring : Spring R} {pi pj : Particle R}
    {k l0 a b c a' b' c' : R}
    (hks : spring.ks = float.val k) (hl : spring.l = float.val l0)
    (hxi : pi.x = ⟨float.val a, float.val b, float.val c⟩)
    (hxj : pj.x = ⟨float.val a', float.val b', float.val c'⟩) (hne : pi.x ≠ pj.x) :
    dampingFallback kd0 (pi.x - pj.x) (pi.v - pj.v)
      = vec3f.smul (-kd0) (axisProjection (pi.x - pj.x) (pi.v - pj.v)) ∧
    (vec3f.eq (Fs_ij spring pi pj) (vec3f.splat (float.val 0)) = false →
      (∃ C : R, C ≠ 0 ∧ Fs_ij spring pi pj = vec3f.smul (float.val C) (pi.x - pj.x)) ∧
      dampingElse kd0 (Fs_ij spring pi pj) (pi.v - pj.v)
        = dampingFallback kd0 (pi.x - pj.x) (pi.v - pj.v)) := by
  have hd : ¬ (a - a' = 0 ∧ b - b' = 0 ∧ c - c' = 0) := by
    rw [hxi, hxj] at hne
    exact sub_ne_of_pos_ne hne
  have hn := unit_of_ne_zero hd
  have hFs := Fs_ij_val hks hl hxi hxj hd
  have hg := sqrt_pos_of_pos (sumsq_pos hd)
  have hfb : dampingFallback kd0 (pi.x - pj.x) (pi.v - pj.v)
      = vec3f.smul (-kd0) (axisProjection (pi.x - pj.x) (pi.v - pj.v)) := by
    simp only [dampingFallback, axisProjection, hxi, hxj, vec3f.sub_def, float.val_sub_val,
      normalize_of_ne_zero hd]
    exact (damping_unit kd0 _ hn (one_mul (1 : R))).2
  refine ⟨hfb, fun hz => ?_⟩
  have hC : -1 * k * (SqrtField.sqrt ((a - a') * (a - a') + (b - b') * (b - b')
      + (c - c') * (c - c')) - l0) ≠ 0 := by
    intro h0
    rw [hFs, h0] at hz
    simp [vec3f.eq, float.eq, vec3f.splat] at hz
  refine ⟨⟨_, div_ne_zero hC (ne_of_gt hg), ?_⟩, ?_⟩
  · rw [hFs]
    simp only [hxi, hxj, vec3f.sub_def, float.val_sub_val, vec3f.smul, float.val_mul_val,
      vec3f.mk.injEq, float.val.injEq]
    refine ⟨?_, ?_, ?_⟩ <;> ring
  · rw [hfb]
    simp only [dampingElse, axisProjection, hFs, normalize_scaled_unit hn hC]
    simp only [hxi, hxj, vec3f.sub_def, float.val_sub_val, normalize_of_ne_zero hd]
    exact (damping_unit kd0 _ hn (sign_mul_self hC)).1

theorem Fd_ij_eq (kd0 : float R) (Fs : vec3f R) (pi pj : Particle R) :
    Fd_ij kd0 Fs pi pj
      = if vec3f.eq Fs (vec3f.splat (float.val 0)) then
          dampingFallback kd0 (pi.x - pj.x) (pi.v - pj.v)
        else dampingElse kd0 Fs (pi.v - pj.v) := rfl

theorem Fs_ij_stretched :
    Fs_ij (stretched (R := R)).2 ⟨⟨float.val 0, float.val 0, float.val 0⟩, 0, float.val 1, 0⟩
      ⟨⟨float.val 3, float.val 0, float.val 0⟩, 0, float.val 1, 0⟩
      = ⟨float.val 1, float.val 0, float.val 0⟩ := by
  have hd : distance (⟨float.val 0, float.val 0, float.val 0⟩ : vec3f R)
      ⟨float.val 3, float.val 0, float.val 0⟩ = float.val 3 :=
    distance_val (by norm_num) (by norm_num)
  have hn : normalize (⟨float.val (-3), float.val 0, float.val 0⟩ : vec3f R)
      = ⟨float.val (-1), float.val 0, float.val 0⟩ := by
    rw [normalize_val (g := 3) (by norm_num) (by norm_num)]
    norm_num
  have hsub : (⟨float.val 0, float.val 0, float.val 0⟩ : vec3f R)
      - ⟨float.val 3, float.val 0, float.val 0⟩ = ⟨float.val (-3), float.val 0, float.val 0⟩ := by
    simp only [vec3f.sub_def, float.val_sub_val]
    norm_num
  simp only [Fs_ij, stretched, hd, hsub, hn, vec3f.smul, float.val_mul_val, float.val_sub_val]
  norm_num

/-! ### Springs at their rest length -/

theorem vec3f.smul_zero_val (c : R) : vec3f.smul (float.val c) (0 : vec3f R) = 0 := by
  simp only [vec3f.smul, vec3f.zero_x, vec3f.zero_y, vec3f.zero_z, float.val_mul_val, mul_zero,
    vec3f.zero_eq]

theorem cloth_reset_length (s : Model R) : (ClothModel.reset s).particles.length = 100 := by
  rw [ClothModel.cloth_reset_particles, List.length_map, List.length_range]

theorem cloth_reset_getD (s : Model R) {n : Nat} (h : n < 100) :
    (ClothModel.reset s).particles.getD n default = ClothModel.newParticle (n / 10) (n % 10) := by
  rw [ClothModel.cloth_reset_particles, getD_map_range _ h]

theorem cloth_newParticle_x (i j : Nat) :
    (ClothModel.newParticle (R := R) i j).x
      = ⟨float.val (2 * ((i : R) - 5)), float.val 0, float.val (2 * ((j : R) - 5))⟩ := rfl

theorem cube_totalForce_reset (s : Model R) : totalForce (CubeModel.reset s).particles = 0 := by
  unfold totalForce
  apply List.sum_eq_zero
  intro x hx
  obtain ⟨p, hp, rfl⟩ := List.mem_map.mp hx
  exact CubeModel.cube_reset_forces s p hp

theorem cube_momentum_reset (s : Model R) : momentum (CubeModel.reset s) = 0 := by
  unfold momentum
  apply List.sum_eq_zero
  intro x hx
  obtain ⟨p, hp, rfl⟩ := List.mem_map.mp hx
  rw [CubeModel.cube_reset_particles, List.mem_map] at hp
  obtain ⟨n, _, rfl⟩ := hp
  simp only [CubeModel.newParticle, CubeModel.mass, vec3f.splat_zero, vec3f.smul_zero_val]

theorem cube_totalForce_springLoop (s : Model R) :
    totalForce (springLoop (CubeModel.reset s).particles (CubeModel.reset s).springs)
      = vec3f.nan := by
  unfold totalForce
  apply sum_eq_nan
  have h := springLoop_getElem? (CubeModel.reset s) 0
  rw [CubeModel.cube_reset_getElem? s (show 0 < 1296 by norm_num), Option.map_some',
    CubeModel.cube_springSum_nan s (show 0 < 1296 by norm_num), vec3f.add_vnan] at h
  exact List.mem_map.mpr ⟨_, List.getElem?_mem h, rfl⟩

theorem cube_momentum_step (s : Model R) (dt : float R) :
    momentum (CubeModel.step (CubeModel.reset s) dt) = vec3f.nan := by
  unfold momentum
  apply sum_eq_nan
  rw [CubeModel.cube_step_reset, List.map_replicate]
  refine List.mem_replicate.mpr ⟨by norm_num, ?_⟩
  simp only [CubeModel.mass, vec3f.smul, vec3f.nan, float.mul_nan]

/-- C19 fails on the code.  In the state that `CubeModel::reset` produces all force accumulators
are zero and the total momentum is zero; the spring loop of the first `step(dt)` turns the
vector sum of the accumulators from `0` into `(nan, nan, nan)`, because the springs between
particles at one position contribute `(nan, nan, nan)`, and the total momentum after the step is
`(nan, nan, nan)`, not `(0, -9.81 * 1296 * t, 0)`, whatever `dt = t` is. -/
theorem cube_momentum_nan (s : Model R) (t : R) :
    (∀ p ∈ (CubeModel.reset s).particles, p.F = 0) ∧
    totalForce (CubeModel.reset s).particles = 0 ∧
    totalForce (springLoop (CubeModel.reset s).particles (CubeModel.reset s).springs)
      = vec3f.nan ∧
    momentum (CubeModel.reset s) = 0 ∧
    momentum (CubeModel.step (CubeModel.reset s) (float.val t)) = vec3f.nan ∧
    momentum (CubeModel.step (CubeModel.reset s) (float.val t))
      ≠ momentum (CubeModel.reset s)
        + ⟨float.val 0, float.val (-9.81 * 1296 * t), float.val 0⟩ := by
  refine ⟨CubeModel.cube_reset_forces s, cube_totalForce_reset s, cube_totalForce_springLoop s,
    cube_momentum_reset s, cube_momentum_step s _, ?_⟩
  rw [cube_momentum_step, cube_momentum_reset]
  simp [vec3f.nan, vec3f.add_def]

/-! ### The springs of the cloth -/

theorem grid_abs_le (m n : Nat) :
    |2 * ((m : R) - 5) - 2 * ((n : R) - 5)| ≤ 2 ↔ m ≤ n + 1 ∧ n ≤ m + 1 := by
  rw [abs_le]
  constructor
  · rintro ⟨h1, h2⟩
    have e1 : (m : R) ≤ (n : R) + 1 := by linarith
    have e2 : (n : R) ≤ (m : R) + 1 := by linarith
    exact ⟨by exact_mod_cast e1, by exact_mod_cast e2⟩
  · rintro ⟨h1, h2⟩
    have e1 : (m : R) ≤ (n : R) + 1 := by exact_mod_cast h1
    have e2 : (n : R) ≤ (m : R) + 1 := by exact_mod_cast h2
    constructor <;> linarith

theorem cloth_adjacent_eq (s : Model R) {a b : Nat} (ha : a < 100) (hb : b < 100) :
    (float.le (vec3f.abs (((ClothModel.reset s).particles.getD a default).x
        - ((ClothModel.reset s).particles.getD b default).x)).x (float.val 2)
      && float.le (vec3f.abs (((ClothModel.reset s).particles.getD a default).x
        - ((ClothModel.reset s).particles.getD b default).x)).z (float.val 2))
      = ClothModel.adjacent a b := by
  rw [cloth_reset_getD s ha, cloth_reset_getD s hb, cloth_newParticle_x, cloth_newParticle_x]
  simp only [vec3f.abs, vec3f.sub_x, vec3f.sub_z, float.val_sub_val, float.abs, float.le,
    ClothModel.adjacent, grid_abs_le, ← Bool.decide_and, and_assoc]

theorem cloth_springs_eq_map (s : Model R) :
    (ClothModel.reset s).springs = ClothModel.pairs.map
      (fun p => Spring.new (ClothModel.reset s).particles p.1 p.2 ClothModel.ks ClothModel.kd) := by
  rw [ClothModel.cloth_reset_springs, ClothModel.cloth_resetSprings_eq, List.nil_append,
    cloth_reset_length]
  delta ClothModel.pairs
  rw [List.map_flatMap]
  apply List.flatMap_congr
  intro a ha
  rw [List.mem_range] at ha
  have key := fun b (hb : b ∈ List.range a) =>
    cloth_adjacent_eq s ha (show b < 100 by have := List.mem_range.mp hb; omega)
  rw [List.map_map, List.filter_congr key]
  rfl

theorem cloth_pairs_mem (a b : Nat) :
    (a, b) ∈ ClothModel.pairs ↔ a < 100 ∧ b < a ∧ ClothModel.adjacent a b = true := by
  simp only [ClothModel.pairs, List.mem_flatMap, List.mem_map, List.mem_filter, List.mem_range,
    Prod.mk.injEq]
  constructor
  · rintro ⟨x, hx, y, ⟨hy, hadj⟩, rfl, rfl⟩
    exact ⟨hx, hy, hadj⟩
  · rintro ⟨hx, hy, hadj⟩
    exact ⟨a, hx, b, ⟨hy, hadj⟩, rfl, rfl⟩

theorem cloth_pairs_nodup : ClothModel.pairs.Nodup := by
  rw [ClothModel.pairs, List.nodup_flatMap]
  constructor
  · intro a _
    exact ((List.nodup_range a).filter _).map (fun x y h => (Prod.mk.inj h).2)
  · refine (List.pairwise_lt_range 100).imp ?_
    intro a b hab p hpa hpb
    obtain ⟨x, _, rfl⟩ := List.mem_map.mp hpa
    obtain ⟨y, _, h⟩ := List.mem_map.mp hpb
    have := (Prod.mk.inj h).1
    omega

set_option maxRecDepth 1000000 in
theorem cloth_pairs_length : ClothModel.pairs.length = 342 := by decide

set_option maxRecDepth 1000000 in
theorem cloth_pairs_axis :
    ClothModel.pairs.countP (fun p => ClothModel.axisAligned p.1 p.2) = 180 := by decide

set_option maxRecDepth 1000000 in
theorem cloth_pairs_diagonal :
    ClothModel.pairs.countP (fun p => !ClothModel.axisAligned p.1 p.2) = 162 := by decide

theorem grid_diff (m n : Nat) (h1 : m ≤ n + 1) (h2 : n ≤ m + 1) :
    (m = n ∧ (m : R) - n = 0) ∨ (m ≠ n ∧ ((m : R) - n) ^ 2 = 1) := by
  rcases (by omega : m = n ∨ m = n + 1 ∨ n = m + 1) with h | h | h
  · left
    exact ⟨h, by rw [h]; ring⟩
  · right
    refine ⟨by omega, ?_⟩
    rw [h]
    push_cast
    ring
  · right
    refine ⟨by omega, ?_⟩
    rw [h]
    push_cast
    ring

theorem grid_distance_axis {a c a' c' : R} (h : (a - a') ^ 2 + (c - c') ^ 2 = 1) :
    distance (⟨float.val (2 * (a - 5)), float.val 0, float.val (2 * (c - 5))⟩ : vec3f R)
      ⟨float.val (2 * (a' - 5)), float.val 0, float.val (2 * (c' - 5))⟩ = float.val 2 :=
  distance_val (by norm_num) (by linear_combination (-4) * h)

theorem grid_distance_diagonal {a c a' c' : R} (h : (a - a') ^ 2 + (c - c') ^ 2 = 2) :
    distance (⟨float.val (2 * (a - 5)), float.val 0, float.val (2 * (c - 5))⟩ : vec3f R)
      ⟨float.val (2 * (a' - 5)), float.val 0, float.val (2 * (c' - 5))⟩
      = float.val (2 * SqrtField.sqrt 2) :=
  distance_val (mul_nonneg (by norm_num) (SqrtField.sqrt_nonneg 2))
    (by linear_combination 4 * SqrtField.sqrt_mul_self (2 : R) (by norm_num) - 4 * h)

theorem cloth_distance (i j i' j' : Nat) (h1 : i ≤ i' + 1) (h2 : i' ≤ i + 1) (h3 : j ≤ j' + 1)
    (h4 : j' ≤ j + 1) (hne : i ≠ i' ∨ j ≠ j') :
    distance (ClothModel.newParticle (R := R) i j).x (ClothModel.newParticle (R := R) i' j').x
      = if i = i' ∨ j = j' then float.val 2 else float.val (2 * SqrtField.sqrt 2) := by
  rw [cloth_newParticle_x, cloth_newParticle_x]
  rcases grid_diff (R := R) i i' h1 h2 with ⟨e1, d1⟩ | ⟨e1, d1⟩ <;>
    rcases grid_diff (R := R) j j' h3 h4 with ⟨e2, d2⟩ | ⟨e2, d2⟩
  · exact absurd e2 (hne.resolve_left (not_not.mpr e1))
  · rw [if_pos (Or.inl e1)]
    exact grid_distance_axis (by rw [d1, d2]; norm_num)
  · rw [if_pos (Or.inr e2)]
    exact grid_distance_axis (by rw [d1, d2]; norm_num)
  · rw [if_neg (by tauto)]
    exact grid_distance_diagonal (by rw [d1, d2]; norm_num)

theorem cloth_spring_length (s : Model R) {a b : Nat} (ha : a < 100) (hb : b < a)
    (hadj : ClothModel.adjacent a b = true) :
    (Spring.new (ClothModel.reset s).particles a b ClothModel.ks ClothModel.kd).l
      = if ClothModel.axisAligned a b = true then float.val 2
        else float.val (2 * SqrtField.sqrt 2) := by
  simp only [ClothModel.adjacent, decide_eq_true_eq] at hadj
  simp only [Spring.new, ClothModel.axisAligned, decide_eq_true_eq]
  rw [cloth_reset_getD s ha, cloth_reset_getD s (show b < 100 by omega)]
  exact cloth_distance _ _ _ _ hadj.1 hadj.2.1 hadj.2.2.1 hadj.2.2.2 (by omega)

omit [SqrtField R] in
theorem Spring.joins_comm (sp : Spring R) (a b : Nat) : sp.joins a b = sp.joins b a := by
  simp only [Spring.joins]
  exact Bool.or_comm _ _

theorem cloth_adjacent_comm (a b : Nat) : ClothModel.adjacent a b = ClothModel.adjacent b a := by
  simp only [ClothModel.adjacent, decide_eq_decide]
  omega

theorem countP_eq_of_nodup {α : Type} [DecidableEq α] (a : α) (l : List α) (h : l.Nodup) :
    l.countP (fun x => decide (x = a)) = if a ∈ l then 1 else 0 := by
  induction l with
  | nil => simp
  | cons x l ih =>
    rw [List.nodup_cons] at h
    rw [List.countP_cons, ih h.2]
    by_cases hx : x = a
    · subst hx
      simp [h.1]
    · have hx2 : ¬ a = x := fun e => hx e.symm
      simp [hx, hx2]

theorem cloth_count_joins (s : Model R) {a b : Nat} (ha : a < 100) (hb : b < a) :
    (ClothModel.reset s).springs.countP (fun sp => sp.joins a b)
      = if ClothModel.adjacent a b = true then 1 else 0 := by
  rw [cloth_springs_eq_map, List.countP_map]
  have h1 : ClothModel.pairs.countP ((fun sp : Spring R => sp.joins a b) ∘ fun p =>
      Spring.new (ClothModel.reset s).particles p.1 p.2 ClothModel.ks ClothModel.kd)
      = ClothModel.pairs.countP (fun p => decide (p = (a, b))) := by
    apply List.countP_congr
    rintro ⟨x, y⟩ hp
    have hxy := ((cloth_pairs_mem x y).mp hp).2.1
    simp only [Function.comp, Spring.joins, Spring.new, Bool.or_eq_true, Bool.and_eq_true,
      beq_iff_eq, Prod.mk.injEq, decide_eq_true_eq]
    omega
  rw [h1, countP_eq_of_nodup _ _ cloth_pairs_nodup]
  simp only [cloth_pairs_mem, ha, hb, true_and]

theorem cloth_spring_props (s : Model R) : ∀ sp ∈ (ClothModel.reset s).springs,
    sp.pj < sp.pi ∧ sp.pi < 100 ∧
      sp.l = if ClothModel.axisAligned sp.pi sp.pj = true then float.val 2
        else float.val (2 * SqrtField.sqrt 2) := by
  intro sp hsp
  rw [cloth_springs_eq_map, List.mem_map] at hsp
  obtain ⟨⟨a, b⟩, hp, rfl⟩ := hsp
  obtain ⟨ha, hb, hadj⟩ := (cloth_pairs_mem a b).mp hp
  exact ⟨hb, ha, cloth_spring_length s ha hb hadj⟩

/-- C11: after `ClothModel::reset`, two distinct grid particles (index `n` is the particle of
cell `(n / 10, n % 10)`) are joined by exactly one spring when their rows and their columns
differ by at most one, and by none otherwise; every spring has `pi` the later-created and `pj`
the earlier-created particle, so none joins a particle to itself; there are 342 springs, 180 of
them axis-aligned with rest length `2` and 162 diagonal with rest length `2 * sqrt 2`. -/
theorem cloth_springs (s : Model R) :
    (∀ a b : Nat, a < 100 → b < 100 → a ≠ b →
      (ClothModel.reset s).springs.countP (fun sp => sp.joins a b)
        = if ClothModel.adjacent a b = true then 1 else 0) ∧
    (∀ sp ∈ (ClothModel.reset s).springs, sp.pj < sp.pi ∧ sp.pi < 100 ∧
      sp.l = if ClothModel.axisAligned sp.pi sp.pj = true then float.val 2
        else float.val (2 * SqrtField.sqrt 2)) ∧
    (ClothModel.reset s).springs.length = 342 ∧
    (ClothModel.reset s).springs.countP
      (fun sp => ClothModel.axisAligned sp.pi sp.pj && decide (sp.l = float.val 2)) = 180 ∧
    (ClothModel.reset s).springs.countP
      (fun sp => !ClothModel.axisAligned sp.pi sp.pj
        && decide (sp.l = float.val (2 * SqrtField.sqrt 2))) = 162 := by
  refine ⟨?_, cloth_spring_props s, ?_, ?_, ?_⟩
  · intro a b ha hb hab
    rcases Nat.lt_or_gt_of_ne hab with h | h
    · have e : (fun sp : Spring R => sp.joins a b) = fun sp => sp.joins b a :=
        funext fun sp => sp.joins_comm a b
      rw [e, cloth_adjacent_comm a b]
      exact cloth_count_joins s hb h
    · exact cloth_count_joins s ha h
  · rw [cloth_springs_eq_map, List.length_map, cloth_pairs_length]
  · have h : (ClothModel.reset s).springs.countP
        (fun sp => ClothModel.axisAligned sp.pi sp.pj && decide (sp.l = float.val 2))
        = (ClothModel.reset s).springs.countP (fun sp => ClothModel.axisAligned sp.pi sp.pj) := by
      apply List.countP_congr
      intro sp hsp
      have hl := (cloth_spring_props s sp hsp).2.2
      simp only [Bool.and_eq_true, decide_eq_true_eq]
      constructor
      · exact fun h => h.1
      · intro h
        rw [if_pos h] at hl
        exact ⟨h, hl⟩
    rw [h, cloth_springs_eq_map, List.countP_map]
    exact cloth_pairs_axis
  · have h : (ClothModel.reset s).springs.countP
        (fun sp => !ClothModel.axisAligned sp.pi sp.pj
          && decide (sp.l = float.val (2 * SqrtField.sqrt 2)))
        = (ClothModel.reset s).springs.countP
          (fun sp => !ClothModel.axisAligned sp.pi sp.pj) := by
      apply List.countP_congr
      intro sp hsp
      have hl := (cloth_spring_props s sp hsp).2.2
      simp only [Bool.and_eq_true, decide_eq_true_eq, Bool.not_eq_true']
      constructor
      · exact fun h => h.1
      · intro h
        rw [if_neg (by rw [h]; exact Bool.false_ne_true)] at hl
        exact ⟨h, hl⟩
    rw [h, cloth_springs_eq_map, List.countP_map]
    exact cloth_pairs_diagonal

/-- The cloth over the reals has 342 springs after `reset`. -/
theorem cloth_springs_witness :
    (ClothModel.reset (⟨[], []⟩ : Model ℝ)).springs.length = 342 :=
  (cloth_springs (⟨[], []⟩ : Model ℝ)).2.2.1

/-! ### Counting pairs of a symmetric relation -/

theorem countP_eq_sum_ite {α : Type} (p : α → Bool) (l : List α) :
    l.countP p = (l.map (fun a => if p a = true then 1 else 0)).sum := by
  induction l with
  | nil => rfl
  | cons x l ih =>
    rw [List.countP_cons, ih, List.map_cons, List.sum_cons]
    omega

theorem countP_flatMap_sum {α β : Type} (p : β → Bool) (l : List α) (f : α → List β) :
    (l.flatMap f).countP p = (l.map (fun a => (f a).countP p)).sum := by
  induction l with
  | nil => rfl
  | cons x l ih =>
    rw [List.flatMap_cons, List.countP_append, ih, List.map_cons, List.sum_cons]

theorem length_flatMap_sum {α β : Type} (l : List α) (f : α → List β) :
    (l.flatMap f).length = (l.map (fun a => (f a).length)).sum := by
  induction l with
  | nil => rfl
  | cons x l ih =>
    rw [List.flatMap_cons, List.length_append, ih, List.map_cons, List.sum_cons]

theorem sum_map_add_nat {α : Type} (l : List α) (f g : α → Nat) :
    (l.map (fun a => f a + g a)).sum = (l.map f).sum + (l.map g).sum := by
  induction l with
  | nil => rfl
  | cons x l ih =>
    simp only [List.map_cons, List.sum_cons, ih]
    omega

theorem sum_countP_symm (r : Nat → Nat → Bool) (hr : ∀ a b, r a b = r b a) (n : Nat) :
    ((List.range n).map (fun a => (List.range n).countP (r a))).sum
      = 2 * ((List.range n).map (fun a => (List.range a).countP (r a))).sum
        + (List.range n).countP (fun a => r a a) := by
  induction n with
  | zero => rfl
  | succ n ih =>
    have h1 : ((List.range n).map (fun a => (List.range (n + 1)).countP (r a))).sum
        = ((List.range n).map (fun a => (List.range n).countP (r a))).sum
          + (List.range n).countP (r n) := by
      have e : (fun a => (List.range (n + 1)).countP (r a))
          = fun a => (List.range n).countP (r a) + (if r n a = true then 1 else 0) := by
        funext a
        rw [List.range_succ, List.countP_append, List.countP_cons, List.countP_nil, hr a n]
        omega
      rw [e, sum_map_add_nat, ← countP_eq_sum_ite]
    rw [List.range_succ, List.map_append, List.sum_append, List.map_append, List.sum_append,
      List.countP_append, ← List.range_succ, h1, ih]
    simp only [List.map_cons, List.map_nil, List.sum_cons, List.sum_nil, List.countP_cons,
      List.countP_nil]
    rw [List.range_succ, List.countP_append, List.countP_cons, List.countP_nil]
    omega

theorem countP_div_mod (p q : Nat → Bool) (n c : Nat) :
    (List.range (n * c)).countP (fun b => p (b / c) && q (b % c))
      = (List.range n).countP p * (List.range c).countP q := by
  induction n with
  | zero => simp
  | succ n ih =>
    have h : ((List.range c).map (fun x => n * c + x)).countP (fun b => p (b / c) && q (b % c))
        = if p n = true then (List.range c).countP q else 0 := by
      rw [List.countP_map]
      by_cases hp : p n = true
      · rw [if_pos hp]
        apply List.countP_congr
        intro k hk
        have hk' : k < c := List.mem_range.mp hk
        have hc : 0 < c := Nat.lt_of_le_of_lt (Nat.zero_le k) hk'
        simp only [Function.comp]
        rw [Nat.mul_comm n c, Nat.mul_add_div hc, Nat.mul_add_mod, Nat.div_eq_of_lt hk',
          Nat.mod_eq_of_lt hk', Nat.add_zero, hp, Bool.true_and]
      · rw [if_neg hp, List.countP_eq_zero]
        intro k hk
        have hk' : k < c := List.mem_range.mp hk
        have hc : 0 < c := Nat.lt_of_le_of_lt (Nat.zero_le k) hk'
        simp only [Function.comp]
        rw [Nat.mul_comm n c, Nat.mul_add_div hc, Nat.div_eq_of_lt hk', Nat.add_zero]
        simp [hp]
    rw [Nat.succ_mul, List.range_add, List.countP_append, ih, h, List.range_succ,
      List.countP_append, List.countP_cons, List.countP_nil, Nat.add_mul]
    by_cases hp : p n = true <;> simp [hp]

/-! ### Counting the springs of the cube -/

theorem cube_count_rel3 (r : Nat → Nat → Bool) (a : Nat) :
    (List.range 1296).countP (CubeModel.rel3 r a)
      = (List.range 6).countP (r (a / 216)) * ((List.range 6).countP (r (a % 216 / 36))
        * (6 * (List.range 6).countP (r (a % 216 % 36 % 6)))) := by
  have h3 : (List.range (6 * 6)).countP
      (fun m => (fun _ => true) (m / 6) && r (a % 216 % 36 % 6) (m % 6))
      = (List.range 6).countP (fun _ => true) * (List.range 6).countP (r (a % 216 % 36 % 6)) :=
    countP_div_mod (fun _ => true) (r (a % 216 % 36 % 6)) 6 6
  have h2 : (List.range (6 * 36)).countP
      (fun m => r (a % 216 / 36) (m / 36) && (fun m => r (a % 216 % 36 % 6) (m % 6)) (m % 36))
      = (List.range 6).countP (r (a % 216 / 36))
        * (List.range 36).countP (fun m => r (a % 216 % 36 % 6) (m % 6)) :=
    countP_div_mod (r (a % 216 / 36)) (fun m => r (a % 216 % 36 % 6) (m % 6)) 6 36
  have h1 : (List.range (6 * 216)).countP
      (fun b => r (a / 216) (b / 216) && (fun m => r (a % 216 / 36) (m / 36)
        && r (a % 216 % 36 % 6) (m % 36 % 6)) (b % 216))
      = (List.range 6).countP (r (a / 216))
        * (List.range 216).countP (fun m => r (a % 216 / 36) (m / 36)
          && r (a % 216 % 36 % 6) (m % 36 % 6)) :=
    countP_div_mod (r (a / 216)) (fun m => r (a % 216 / 36) (m / 36)
      && r (a % 216 % 36 % 6) (m % 36 % 6)) 6 216
  simp only [Bool.true_and, List.countP_true, List.length_range, Nat.reduceMul] at h1 h2 h3
  unfold CubeModel.rel3
  rw [h1, h2, h3]

theorem cube_near_comm (u v : Nat) : CubeModel.near u v = CubeModel.near v u := by
  simp only [CubeModel.near, decide_eq_decide]
  omega

theorem cube_adjacent_comm (a b : Nat) : CubeModel.adjacent a b = CubeModel.adjacent b a := by
  simp only [CubeModel.adjacent, CubeModel.rel3, cube_near_comm (a / 216),
    cube_near_comm (a % 216 / 36), cube_near_comm (a % 216 % 36 % 6)]

theorem cube_colocated_comm (a b : Nat) :
    CubeModel.colocated a b = CubeModel.colocated b a := by
  simp only [CubeModel.colocated, CubeModel.rel3, eq_comm]

theorem cube_adjacent_self (a : Nat) : CubeModel.adjacent a a = true := by
  simp [CubeModel.adjacent, CubeModel.rel3, CubeModel.near]

theorem cube_colocated_self (a : Nat) : CubeModel.colocated a a = true := by
  simp [CubeModel.colocated, CubeModel.rel3]

theorem cube_adjacent_of_colocated {a b : Nat} (h : CubeModel.colocated a b = true) :
    CubeModel.adjacent a b = true := by
  simp only [CubeModel.colocated, CubeModel.rel3, Bool.and_eq_true, decide_eq_true_eq] at h
  simp only [CubeModel.adjacent, CubeModel.rel3, CubeModel.near, Bool.and_eq_true,
    decide_eq_true_eq]
  omega

set_option maxRecDepth 1000000 in
theorem cube_sum_adjacent :
    ((List.range 1296).map (fun a => (List.range 6).countP (CubeModel.near (a / 216))
      * ((List.range 6).countP (CubeModel.near (a % 216 / 36))
        * (6 * (List.range 6).countP (CubeModel.near (a % 216 % 36 % 6)))))).sum = 147456 := by
  decide

set_option maxRecDepth 1000000 in
theorem cube_sum_colocated :
    ((List.range 1296).map (fun a => (List.range 6).countP (fun v => decide (a / 216 = v))
      * ((List.range 6).countP (fun v => decide (a % 216 / 36 = v))
        * (6 * (List.range 6).countP (fun v => decide (a % 216 % 36 % 6 = v)))))).sum = 7776 := by
  decide

theorem cube_count_below (r : Nat → Nat → Bool) (hr : ∀ a b, CubeModel.rel3 r a b
    = CubeModel.rel3 r b a) (hs : ∀ a, CubeModel.rel3 r a a = true) (t : Nat)
    (ht : ((List.range 1296).map (fun a => (List.range 6).countP (r (a / 216))
      * ((List.range 6).countP (r (a % 216 / 36))
        * (6 * (List.range 6).countP (r (a % 216 % 36 % 6)))))).sum = 2 * t + 1296) :
    ((List.range 1296).map (fun a => (List.range a).countP (CubeModel.rel3 r a))).sum = t := by
  have h := sum_countP_symm (CubeModel.rel3 r) hr 1296
  have hd : (List.range 1296).countP (fun a => CubeModel.rel3 r a a) = 1296 := by
    have e : (fun a => CubeModel.rel3 r a a) = fun _ => true := funext hs
    rw [e, List.countP_true, List.length_range]
  have e2 : (fun a => (List.range 1296).countP (CubeModel.rel3 r a))
      = fun a => (List.range 6).countP (r (a / 216))
        * ((List.range 6).countP (r (a % 216 / 36))
          * (6 * (List.range 6).countP (r (a % 216 % 36 % 6)))) :=
    funext (cube_count_rel3 r)
  rw [e2, ht, hd] at h
  omega

theorem cube_pairs_length : CubeModel.pairs.length = 73080 := by
  unfold CubeModel.pairs
  rw [length_flatMap_sum]
  simp only [List.length_map, ← List.countP_eq_length_filter]
  exact cube_count_below CubeModel.near cube_adjacent_comm cube_adjacent_self 73080
    cube_sum_adjacent

theorem cube_pairs_colocated :
    CubeModel.pairs.countP (fun p => CubeModel.colocated p.1 p.2) = 3240 := by
  unfold CubeModel.pairs
  rw [countP_flatMap_sum]
  simp only [List.countP_map, List.countP_filter]
  have e : (fun a => (List.range a).countP (fun b =>
      ((fun p : Nat × Nat => CubeModel.colocated p.1 p.2) ∘ fun b => (a, b)) b
        && CubeModel.adjacent a b))
      = fun a => (List.range a).countP (CubeModel.rel3 (fun u v => decide (u = v)) a) := by
    funext a
    apply List.countP_congr
    intro b _
    simp only [Function.comp, Bool.and_eq_true]
    exact ⟨fun h => h.1, fun h => ⟨h, cube_adjacent_of_colocated h⟩⟩
  rw [e]
  exact cube_count_below _ cube_colocated_comm cube_colocated_self 3240 cube_sum_colocated

/-! ### Positions and rest lengths in the cube -/

theorem distance_eq_zero {a b c d e f : R}
    (h : distance (⟨float.val a, float.val b, float.val c⟩ : vec3f R)
      ⟨float.val d, float.val e, float.val f⟩ = float.val 0) : a = d ∧ b = e ∧ c = f := by
  have hx := sumsq_nonneg (a - d) (b - e) (c - f)
  rw [distance_val (SqrtField.sqrt_nonneg _) (SqrtField.sqrt_mul_self _ hx)] at h
  have h0 := float.val.inj h
  have h1 := SqrtField.sqrt_mul_self _ hx
  rw [h0, mul_zero] at h1
  have ha : (a - d) * (a - d) = 0 := by
    nlinarith [mul_self_nonneg (a - d), mul_self_nonneg (b - e), mul_self_nonneg (c - f)]
  have hb : (b - e) * (b - e) = 0 := by
    nlinarith [mul_self_nonneg (a - d), mul_self_nonneg (b - e), mul_self_nonneg (c - f)]
  have hc : (c - f) * (c - f) = 0 := by
    nlinarith [mul_self_nonneg (a - d), mul_self_nonneg (b - e), mul_self_nonneg (c - f)]
  exact ⟨sub_eq_zero.mp (mul_self_eq_zero.mp ha), sub_eq_zero.mp (mul_self_eq_zero.mp hb),
    sub_eq_zero.mp (mul_self_eq_zero.mp hc)⟩

theorem distance_self_val (a b c : R) :
    distance (⟨float.val a, float.val b, float.val c⟩ : vec3f R)
      ⟨float.val a, float.val b, float.val c⟩ = float.val 0 :=
  distance_val (le_refl 0) (by ring)

theorem cube_latticePoint_inj (i j h i' j' h' : Nat) :
    CubeModel.latticePoint (R := R) i j h = CubeModel.latticePoint i' j' h'
      ↔ i = i' ∧ j = j' ∧ h = h' := by
  simp only [CubeModel.latticePoint, float.val_sub_val, float.val_mul_val, vec3f.mk.injEq,
    float.val.injEq, Nat.cast_inj]
  constructor
  · rintro ⟨h1, h2, h3⟩
    have e : (j : R) = (j' : R) := by linarith
    exact ⟨by omega, by exact_mod_cast e, by omega⟩
  · rintro ⟨rfl, rfl, rfl⟩
    exact ⟨rfl, rfl, rfl⟩

theorem cube_reset_lattice (s : Model R) {n : Nat} (h : n < 1296) :
    ((CubeModel.reset s).particles.getD n default).x
      = CubeModel.latticePoint (n / 216) (n % 216 / 36) (n % 216 % 36 % 6) := by
  rw [CubeModel.cube_reset_getD s h]
  rfl

theorem cube_colocated_iff (a b : Nat) :
    CubeModel.colocated a b = true ↔ a / 216 = b / 216 ∧ a % 216 / 36 = b % 216 / 36
      ∧ a % 216 % 36 % 6 = b % 216 % 36 % 6 := by
  simp only [CubeModel.colocated, CubeModel.rel3, Bool.and_eq_true, decide_eq_true_eq]

theorem cube_position_eq_iff (s : Model R) {a b : Nat} (ha : a < 1296) (hb : b < 1296) :
    ((CubeModel.reset s).particles.getD a default).x
      = ((CubeModel.reset s).particles.getD b default).x ↔ CubeModel.colocated a b = true := by
  rw [cube_reset_lattice s ha, cube_reset_lattice s hb, cube_latticePoint_inj,
    cube_colocated_iff]

theorem near_abs_le (m n : Nat) :
    |((2 * m : Nat) : R) - ((2 * n : Nat) : R)| ≤ 2 ↔ m ≤ n + 1 ∧ n ≤ m + 1 := by
  rw [abs_le]
  push_cast
  constructor
  · rintro ⟨h1, h2⟩
    have e1 : (m : R) ≤ (n : R) + 1 := by linarith
    have e2 : (n : R) ≤ (m : R) + 1 := by linarith
    exact ⟨by exact_mod_cast e1, by exact_mod_cast e2⟩
  · rintro ⟨h1, h2⟩
    have e1 : (m : R) ≤ (n : R) + 1 := by exact_mod_cast h1
    have e2 : (n : R) ≤ (m : R) + 1 := by exact_mod_cast h2
    constructor <;> linarith

theorem cube_adjacent_eq (s : Model R) {a b : Nat} (ha : a < 1296) (hb : b < 1296) :
    (float.le (vec3f.abs (((CubeModel.reset s).particles.getD a default).x
        - ((CubeModel.reset s).particles.getD b default).x)).x (float.val 2)
      && float.le (vec3f.abs (((CubeModel.reset s).particles.getD a default).x
        - ((CubeModel.reset s).particles.getD b default).x)).y (float.val 2)
      && float.le (vec3f.abs (((CubeModel.reset s).particles.getD a default).x
        - ((CubeModel.reset s).particles.getD b default).x)).z (float.val 2))
      = CubeModel.adjacent a b := by
  rw [CubeModel.cube_reset_x s ha, CubeModel.cube_reset_x s hb, Bool.eq_iff_iff]
  simp only [vec3f.abs, vec3f.sub_x, vec3f.sub_y, vec3f.sub_z, float.val_sub_val, float.abs,
    float.le, CubeModel.adjacent, CubeModel.rel3, CubeModel.near, Bool.and_eq_true,
    decide_eq_true_eq, near_abs_le, grid_abs_le]
  tauto

theorem cube_springs_eq_map (s : Model R) :
    (CubeModel.reset s).springs = CubeModel.pairs.map
      (fun p => Spring.new (CubeModel.reset s).particles p.1 p.2 CubeModel.ks CubeModel.kd) := by
  rw [CubeModel.cube_reset_springs, CubeModel.cube_resetSprings_eq, List.nil_append,
    CubeModel.cube_reset_length]
  unfold CubeModel.pairs
  rw [List.map_flatMap]
  apply List.flatMap_congr
  intro a ha
  rw [List.mem_range] at ha
  have key := fun b (hb : b ∈ List.range a) =>
    cube_adjacent_eq s ha (show b < 1296 by have := List.mem_range.mp hb; omega)
  rw [List.map_map, List.filter_congr key]
  rfl

theorem cube_pairs_mem (a b : Nat) :
    (a, b) ∈ CubeModel.pairs ↔ a < 1296 ∧ b < a ∧ CubeModel.adjacent a b = true := by
  simp only [CubeModel.pairs, List.mem_flatMap, List.mem_map, List.mem_filter, List.mem_range,
    Prod.mk.injEq]
  constructor
  · rintro ⟨x, hx, y, ⟨hy, hadj⟩, rfl, rfl⟩
    exact ⟨hx, hy, hadj⟩
  · rintro ⟨hx, hy, hadj⟩
    exact ⟨a, hx, b, ⟨hy, hadj⟩, rfl, rfl⟩

theorem cube_spring_length_iff (s : Model R) {a b : Nat} (ha : a < 1296) (hb : b < 1296) :
    (Spring.new (CubeModel.reset s).particles a b CubeModel.ks CubeModel.kd).l = float.val 0
      ↔ CubeModel.colocated a b = true := by
  rw [← cube_position_eq_iff s ha hb]
  simp only [Spring.new]
  rw [CubeModel.cube_reset_x s ha, CubeModel.cube_reset_x s hb]
  constructor
  · intro h
    obtain ⟨h1, h2, h3⟩ := distance_eq_zero h
    rw [h1, h2, h3]
  · intro h
    rw [h]
    exact distance_self_val _ _ _

theorem count_eq_range6 {u : Nat} (hu : u < 6) :
    (List.range 6).countP (fun v => decide (u = v)) = 1 := by
  interval_cases u <;> rfl

theorem cube_count_position (s : Model R) {i j h : Nat} (hi : i < 6) (hj : j < 6) (hh : h < 6) :
    (CubeModel.reset s).particles.countP
      (fun p => decide (p.x = CubeModel.latticePoint i j h)) = 6 := by
  rw [CubeModel.cube_reset_particles, List.countP_map]
  have e : (List.range 1296).countP ((fun p : Particle R =>
      decide (p.x = CubeModel.latticePoint i j h)) ∘ fun n =>
        CubeModel.newParticle (n / 216) (n % 216 / 36) (n % 216 % 36 / 6) (n % 216 % 36 % 6))
      = (List.range 1296).countP
        (CubeModel.rel3 (fun u v => decide (u = v)) (216 * i + 36 * j + h)) := by
    apply List.countP_congr
    intro n _
    have hx : (CubeModel.newParticle (R := R) (n / 216) (n % 216 / 36) (n % 216 % 36 / 6)
        (n % 216 % 36 % 6)).x
        = CubeModel.latticePoint (n / 216) (n % 216 / 36) (n % 216 % 36 % 6) := rfl
    simp only [Function.comp, hx, decide_eq_true_eq, cube_latticePoint_inj, CubeModel.rel3,
      Bool.and_eq_true]
    omega
  rw [e, cube_count_rel3, count_eq_range6 (show (216 * i + 36 * j + h) / 216 < 6 by omega),
    count_eq_range6 (show (216 * i + 36 * j + h) % 216 / 36 < 6 by omega),
    count_eq_range6 (show (216 * i + 36 * j + h) % 216 % 36 % 6 < 6 by omega)]

theorem cube_spring_props (s : Model R) : ∀ sp ∈ (CubeModel.reset s).springs,
    sp.pj < sp.pi ∧ sp.pi < 1296 ∧
      (sp.l = float.val 0 ↔ ((CubeModel.reset s).particles.getD sp.pi default).x
        = ((CubeModel.reset s).particles.getD sp.pj default).x) := by
  intro sp hsp
  rw [cube_springs_eq_map, List.mem_map] at hsp
  obtain ⟨⟨a, b⟩, hp, rfl⟩ := hsp
  obtain ⟨ha, hb, _⟩ := (cube_pairs_mem a b).mp hp
  have hb' : b < 1296 := by omega
  refine ⟨hb, ha, ?_⟩
  rw [cube_spring_length_iff s ha hb']
  exact (cube_position_eq_iff s ha hb').symm

theorem cube_twin_joined (s : Model R) {a b : Nat} (ha : a < 1296) (hb : b < a)
    (hx : ((CubeModel.reset s).particles.getD a default).x
      = ((CubeModel.reset s).particles.getD b default).x) :
    ∃ sp ∈ (CubeModel.reset s).springs, sp.joins a b = true ∧ sp.l = float.val 0 ∧
      distance ((CubeModel.reset s).particles.getD sp.pi default).x
        ((CubeModel.reset s).particles.getD sp.pj default).x = float.val 0 := by
  have hb' : b < 1296 := by omega
  have hc := (cube_colocated_iff a b).mp ((cube_position_eq_iff s ha hb').mp hx)
  have hmem := (CubeModel.cube_twin_spring s ha hb hc.1.symm hc.2.1.symm hc.2.2.symm).1
  have hl := (cube_spring_length_iff s ha hb').mpr ((cube_position_eq_iff s ha hb').mp hx)
  refine ⟨_, hmem, ?_, hl, ?_⟩
  · simp [Spring.joins, Spring.new]
  · simpa only [Spring.new] using hl

/-- C16: after `CubeModel::reset` every particle sits on one of the lattice positions given by
`i, j, h < 6` (the loop index `k` does not enter the position), distinct triples give distinct
positions, and each of these 216 positions is occupied by exactly 6 particles; any two distinct
particles at one position are joined by a spring whose rest length is `0` and whose current
length is `0`; a spring has rest length `0` exactly when its two particles are at one position,
and there are 3240 such springs among 73080 springs in total. -/
theorem cube_colocated_springs (s : Model R) :
    (∀ p ∈ (CubeModel.reset s).particles, ∃ i j h : Nat, i < 6 ∧ j < 6 ∧ h < 6 ∧
      p.x = CubeModel.latticePoint i j h) ∧
    (∀ i j h i' j' h' : Nat, CubeModel.latticePoint (R := R) i j h
      = CubeModel.latticePoint i' j' h' → i = i' ∧ j = j' ∧ h = h') ∧
    (∀ i j h : Nat, i < 6 → j < 6 → h < 6 → (CubeModel.reset s).particles.countP
      (fun p => decide (p.x = CubeModel.latticePoint i j h)) = 6) ∧
    (∀ a b : Nat, a < 1296 → b < 1296 → a ≠ b →
      ((CubeModel.reset s).particles.getD a default).x
        = ((CubeModel.reset s).particles.getD b default).x →
      ∃ sp ∈ (CubeModel.reset s).springs, sp.joins a b = true ∧ sp.l = float.val 0 ∧
        distance ((CubeModel.reset s).particles.getD sp.pi default).x
          ((CubeModel.reset s).particles.getD sp.pj default).x = float.val 0) ∧
    (∀ sp ∈ (CubeModel.reset s).springs, sp.pj < sp.pi ∧ sp.pi < 1296 ∧
      (sp.l = float.val 0 ↔ ((CubeModel.reset s).particles.getD sp.pi default).x
        = ((CubeModel.reset s).particles.getD sp.pj default).x)) ∧
    (CubeModel.reset s).springs.length = 73080 ∧
    (CubeModel.reset s).springs.countP (fun sp => decide (sp.l = float.val 0)) = 3240 := by
  refine ⟨?_, ?_, ?_, ?_, cube_spring_props s, ?_, ?_⟩
  · intro p hp
    rw [CubeModel.cube_reset_particles, List.mem_map] at hp
    obtain ⟨n, hn, rfl⟩ := hp
    rw [List.mem_range] at hn
    exact ⟨n / 216, n % 216 / 36, n % 216 % 36 % 6, by omega, by omega, by omega, rfl⟩
  · intro i j h i' j' h' e
    exact (cube_latticePoint_inj i j h i' j' h').mp e
  · intro i j h hi hj hh
    exact cube_count_position s hi hj hh
  · intro a b ha hb hab hx
    rcases Nat.lt_or_gt_of_ne hab with hlt | hlt
    · obtain ⟨sp, hm, hj, hl, hd⟩ := cube_twin_joined s hb hlt hx.symm
      exact ⟨sp, hm, (sp.joins_comm a b).trans hj, hl, hd⟩
    · exact cube_twin_joined s ha hlt hx
  · rw [cube_springs_eq_map, List.length_map, cube_pairs_length]
  · rw [cube_springs_eq_map, List.countP_map, ← cube_pairs_colocated]
    apply List.countP_congr
    rintro ⟨a, b⟩ hp
    obtain ⟨ha, hb, _⟩ := (cube_pairs_mem a b).mp hp
    simp only [Function.comp, decide_eq_true_eq]
    exact cube_spring_length_iff s ha (by omega)

/-- The cube over the reals has 3240 springs of rest length `0` after `reset`. -/
theorem cube_colocated_springs_witness :
    (CubeModel.reset (⟨[], []⟩ : Model ℝ)).springs.countP
      (fun sp => decide (sp.l = float.val 0)) = 3240 :=
  (cube_colocated_springs (⟨[], []⟩ : Model ℝ)).2.2.2.2.2.2

/-! ### The damping branches of the single-spring model -/

theorem mass_Fd_ij_eq (spring0 : Spring R) (Fs : vec3f R) (pi pj : Particle R) :
    MassOnASpringModel.Fd_ij spring0 Fs pi pj
      = if vec3f.eq Fs (vec3f.splat (float.val 0)) then
          dampingFallback spring0.kd (pj.x - pi.x) (pj.v - pi.v)
        else dampingElse spring0.kd Fs (pj.v - pi.v) := rfl

theorem mass_step_named (s : Model R) (dt : float R) (spring0 : Spring R) (p : Particle R)
    (h0 : s.springs[0]? = some spring0) (h1 : s.particles[1]? = some p) :
    let pi := s.particles.getD spring0.pi default
    let pj := s.particles.getD spring0.pj default
    let Fs := MassOnASpringModel.Fs_ij spring0 pi pj
    let Fd := MassOnASpringModel.Fd_ij spring0 Fs pi pj
    let particles := update s.particles 1 (fun p => { p with F := p.F + (Fs + Fd) })
    let particles := update particles 1
      (fun p => { p with v := p.v + vec3f.muls (vec3f.divs p.F p.m) dt })
    let particles := update particles 1 (fun p => { p with x := p.x + vec3f.muls p.v dt })
    let particles := update particles 1 (fun p => { p with F := vec3f.splat (float.val 0) })
    MassOnASpringModel.step s dt = some { s with particles := particles } := by
  simp only [MassOnASpringModel.step, h0, h1]
  rfl

theorem mass_Fs_ij_swap {spring : Spring R} {pi pj : Particle R} {k l0 a b c a' b' c' : R}
    (hks : spring.ks = float.val k) (hl : spring.l = float.val l0)
    (hxi : pi.x = ⟨float.val a, float.val b, float.val c⟩)
    (hxj : pj.x = ⟨float.val a', float.val b', float.val c'⟩) (hne : pi.x ≠ pj.x) :
    MassOnASpringModel.Fs_ij spring pi pj = Fs_ij spring pj pi := by
  have hd : ¬ (a' - a = 0 ∧ b' - b = 0 ∧ c' - c = 0) := by
    rw [hxi, hxj] at hne
    exact sub_ne_of_pos_ne (Ne.symm hne)
  have hg : SqrtField.sqrt ((a' - a) * (a' - a) + (b' - b) * (b' - b) + (c' - c) * (c' - c)) ≠ 0 :=
    ne_of_gt (sqrt_pos_of_pos (sumsq_pos hd))
  rw [Fs_ij_val hks hl hxj hxi hd]
  simp only [MassOnASpringModel.Fs_ij, distance, hxi, hxj, hks, hl, vec3f.sub_def,
    float.val_sub_val, length_val, vec3f.smul, vec3f.divs, float.val_mul_val,
    float.val_div_val_of_ne _ hg, mul_div_assoc]

/-- C15, amended.  In exact arithmetic the two damping branches agree.  For every spring with
finite `ks` and `l` whose endpoints are at distinct (finite) positions, in the step of
`ChainPendulumModel`, `ClothModel` and `CubeModel` (displacement `d = xi - xj`, relative velocity
`dv = vi - vj`) and in `MassOnASpringModel::step` (which takes `d = xj - xi`, `dv = vj - vi` and
obtains `Fs_ij` by a division by the distance): the fallback-branch value is `-kd` times the
projection of `dv` onto the spring axis; whenever `Fs_ij == 0` is false, `Fs_ij` is a non-zero
scalar multiple of `d` and the else-branch value equals the fallback-branch value; so the
damping force is `-kd` times that projection whichever branch the test selects. -/
theorem damping_branches_agree (kd0 : float R) (spring : Spring R) (pi pj : Particle R)
    (k l0 a b c a' b' c' : R)
    (hks : spring.ks = float.val k) (hl : spring.l = float.val l0)
    (hxi : pi.x = ⟨float.val a, float.val b, float.val c⟩)
    (hxj : pj.x = ⟨float.val a', float.val b', float.val c'⟩) (hne : pi.x ≠ pj.x) :
    (dampingFallback kd0 (pi.x - pj.x) (pi.v - pj.v)
        = vec3f.smul (-kd0) (axisProjection (pi.x - pj.x) (pi.v - pj.v)) ∧
      (vec3f.eq (Fs_ij spring pi pj) (vec3f.splat (float.val 0)) = false →
        (∃ C : R, C ≠ 0 ∧ Fs_ij spring pi pj = vec3f.smul (float.val C) (pi.x - pj.x)) ∧
        dampingElse kd0 (Fs_ij spring pi pj) (pi.v - pj.v)
          = dampingFallback kd0 (pi.x - pj.x) (pi.v - pj.v)) ∧
      Fd_ij kd0 (Fs_ij spring pi pj) pi pj
        = vec3f.smul (-kd0) (axisProjection (pi.x - pj.x) (pi.v - pj.v))) ∧
    (dampingFallback spring.kd (pj.x - pi.x) (pj.v - pi.v)
        = vec3f.smul (-spring.kd) (axisProjection (pj.x - pi.x) (pj.v - pi.v)) ∧
      (vec3f.eq (MassOnASpringModel.Fs_ij spring pi pj) (vec3f.splat (float.val 0)) = false →
        (∃ C : R, C ≠ 0 ∧
          MassOnASpringModel.Fs_ij spring pi pj = vec3f.smul (float.val C) (pj.x - pi.x)) ∧
        dampingElse spring.kd (MassOnASpringModel.Fs_ij spring pi pj) (pj.v - pi.v)
          = dampingFallback spring.kd (pj.x - pi.x) (pj.v - pi.v)) ∧
      MassOnASpringModel.Fd_ij spring (MassOnASpringModel.Fs_ij spring pi pj) pi pj
        = vec3f.smul (-spring.kd) (axisProjection (pj.x - pi.x) (pj.v - pi.v))) := by
  constructor
  · obtain ⟨h1, h2⟩ := damping_of_finite kd0 hks hl hxi hxj hne
    refine ⟨h1, h2, ?_⟩
    rw [Fd_ij_eq]
    cases hz : vec3f.eq (Fs_ij spring pi pj) (vec3f.splat (float.val 0))
    · rw [if_neg (by simp), (h2 hz).2, h1]
    · rw [if_pos rfl, h1]
  · obtain ⟨h1, h2⟩ := damping_of_finite spring.kd hks hl hxj hxi (Ne.symm hne)
    rw [mass_Fd_ij_eq, mass_Fs_ij_swap hks hl hxi hxj hne]
    refine ⟨h1, h2, ?_⟩
    cases hz : vec3f.eq (Fs_ij spring pj pi) (vec3f.splat (float.val 0))
    · rw [if_neg (by simp), (h2 hz).2, h1]
    · rw [if_pos rfl, h1]

/-- Witness for C15: the stretched spring between `(0, 0, 0)` and `(3, 0, 0)` with relative
velocity `vi - vj = (1, 2, 0)`; its spring force `(1, 0, 0)` is not zero, and the else-branch
value equals the fallback-branch value. -/
theorem damping_branches_agree_witness :
    dampingElse (float.val 0.5)
        (Fs_ij (stretched (R := ℝ)).2
          ⟨⟨float.val 0, float.val 0, float.val 0⟩,
            ⟨float.val 1, float.val 2, float.val 0⟩, float.val 1, 0⟩
          ⟨⟨float.val 3, float.val 0, float.val 0⟩, 0, float.val 1, 0⟩)
        ((⟨float.val 1, float.val 2, float.val 0⟩ : vec3f ℝ) - 0)
      = dampingFallback (float.val 0.5)
          ((⟨float.val 0, float.val 0, float.val 0⟩ : vec3f ℝ)
            - ⟨float.val 3, float.val 0, float.val 0⟩)
          ((⟨float.val 1, float.val 2, float.val 0⟩ : vec3f ℝ) - 0) :=
  ((damping_branches_agree (float.val 0.5) (stretched (R := ℝ)).2
    ⟨⟨float.val 0, float.val 0, float.val 0⟩,
      ⟨float.val 1, float.val 2, float.val 0⟩, float.val 1, 0⟩
    ⟨⟨float.val 3, float.val 0, float.val 0⟩, 0, float.val 1, 0⟩ 1 2 0 0 0 3 0 0
    rfl rfl rfl rfl (by simp)).1.2.1
    (by
      have h : Fs_ij (stretched (R := ℝ)).2
          ⟨⟨float.val 0, float.val 0, float.val 0⟩,
            ⟨float.val 1, float.val 2, float.val 0⟩, float.val 1, 0⟩
          ⟨⟨float.val 3, float.val 0, float.val 0⟩, 0, float.val 1, 0⟩
          = Fs_ij (stretched (R := ℝ)).2
            ⟨⟨float.val 0, float.val 0, float.val 0⟩, 0, float.val 1, 0⟩
            ⟨⟨float.val 3, float.val 0, float.val 0⟩, 0, float.val 1, 0⟩ := rfl
      rw [h, Fs_ij_stretched]
      simp [vec3f.eq, float.eq, vec3f.splat])).2

/-! ### The single-spring model in binary32 arithmetic -/

theorem mass_reset32_const (s : binary32.Model) :
    binary32.MassOnASpringModel.reset s = binary32.MassOnASpringModel.reset ⟨[], []⟩ := rfl

set_option maxRecDepth 100000 in
theorem mass_reset32_eq :
    binary32.MassOnASpringModel.reset ⟨[], []⟩ =
      ⟨[⟨⟨float32.lit 0 1, float32.lit 5 1, float32.lit 0 1⟩,
          binary32.vec3f.splat (float32.lit 0 1), float32.lit 0 1,
          binary32.vec3f.splat (float32.lit 0 1)⟩,
        ⟨⟨float32.lit 0 1, float32.lit 25 10, float32.lit 0 1⟩,
          binary32.vec3f.splat (float32.lit 0 1), float32.lit 1 10,
          binary32.vec3f.splat (float32.lit 0 1)⟩],
       [⟨float32.lit 10 1, float32.lit 5 10, 0, 1, float32.lit 10 1⟩]⟩ := by
  decide

theorem mass_step32_shape (p0 p1 : binary32.Particle) (k d l : float32) (dt : float32)
    (a : binary32.vec3f)
    (ha : binary32.vec3f.divs (p1.F + (binary32.MassOnASpringModel.Fs_ij ⟨k, d, 0, 1, l⟩ p0 p1
      + (if binary32.vec3f.eq (binary32.MassOnASpringModel.Fs_ij ⟨k, d, 0, 1, l⟩ p0 p1)
            (binary32.vec3f.splat (float32.lit 0 1)) then
          binary32.dampingFallback d (p1.x - p0.x) (p1.v - p0.v)
        else binary32.dampingElse d (binary32.MassOnASpringModel.Fs_ij ⟨k, d, 0, 1, l⟩ p0 p1)
          (p1.v - p0.v)))) p1.m = a) :
    binary32.MassOnASpringModel.step ⟨[p0, p1], [⟨k, d, 0, 1, l⟩]⟩ dt
      = some ⟨[p0, ⟨p1.x + binary32.vec3f.muls (p1.v + binary32.vec3f.muls a dt) dt,
          p1.v + binary32.vec3f.muls a dt, p1.m, binary32.vec3f.splat (float32.lit 0 1)⟩],
        [⟨k, d, 0, 1, l⟩]⟩ := by
  subst ha
  rfl

set_option maxRecDepth 100000 in
theorem mass_step32_reset (s : binary32.Model) (dt : float32) :
    binary32.MassOnASpringModel.step (binary32.MassOnASpringModel.reset s) dt = some
      ⟨[⟨⟨float32.lit 0 1, float32.lit 5 1, float32.lit 0 1⟩,
          binary32.vec3f.splat (float32.lit 0 1), float32.lit 0 1,
          binary32.vec3f.splat (float32.lit 0 1)⟩,
        ⟨(⟨float32.lit 0 1, float32.lit 25 10, float32.lit 0 1⟩ : binary32.vec3f)
            + binary32.vec3f.muls (binary32.vec3f.splat (float32.lit 0 1)
              + binary32.vec3f.muls ⟨float32.lit 0 1, -(float32.lit 750 1), float32.lit 0 1⟩ dt)
              dt,
          binary32.vec3f.splat (float32.lit 0 1)
            + binary32.vec3f.muls ⟨float32.lit 0 1, -(float32.lit 750 1), float32.lit 0 1⟩ dt,
          float32.lit 1 10, binary32.vec3f.splat (float32.lit 0 1)⟩],
       [⟨float32.lit 10 1, float32.lit 5 10, 0, 1, float32.lit 10 1⟩]⟩ := by
  rw [mass_reset32_const s, mass_reset32_eq]
  exact mass_step32_shape _ _ _ _ _ dt _ (by decide)

set_option maxRecDepth 100000 in
theorem mass_step32_small :
    (⟨float32.lit 0 1, float32.lit 25 10, float32.lit 0 1⟩ : binary32.vec3f)
        + binary32.vec3f.muls (binary32.vec3f.splat (float32.lit 0 1)
          + binary32.vec3f.muls ⟨float32.lit 0 1, -(float32.lit 750 1), float32.lit 0 1⟩
            (float32.fin false 1 (-17))) (float32.fin false 1 (-17))
      = ⟨float32.lit 0 1, float32.lit 25 10, float32.lit 0 1⟩ ∧
    binary32.vec3f.splat (float32.lit 0 1)
        + binary32.vec3f.muls ⟨float32.lit 0 1, -(float32.lit 750 1), float32.lit 0 1⟩
          (float32.fin false 1 (-17))
      = ⟨float32.lit 0 1, float32.fin true 375 (-16), float32.lit 0 1⟩ ∧
    binary32.distance ⟨float32.lit 0 1, float32.lit 5 1, float32.lit 0 1⟩
      ⟨float32.lit 0 1, float32.lit 25 10, float32.lit 0 1⟩ = float32.lit 25 10 ∧
    float32.gt (float32.lit 25 10) (float32.lit 25 10) = false ∧
    float32.gt (float32.fin false 1 (-17)) (float32.lit 0 1) = true := by
  decide

set_option maxRecDepth 100000 in
theorem mass_step32_hundredth :
    (⟨float32.lit 0 1, float32.lit 25 10, float32.lit 0 1⟩ : binary32.vec3f)
        + binary32.vec3f.muls (binary32.vec3f.splat (float32.lit 0 1)
          + binary32.vec3f.muls ⟨float32.lit 0 1, -(float32.lit 750 1), float32.lit 0 1⟩
            (float32.lit 1 100)) (float32.lit 1 100)
      = ⟨float32.lit 0 1, float32.lit 2425 1000, float32.lit 0 1⟩ ∧
    binary32.vec3f.splat (float32.lit 0 1)
        + binary32.vec3f.muls ⟨float32.lit 0 1, -(float32.lit 750 1), float32.lit 0 1⟩
          (float32.lit 1 100)
      = ⟨float32.lit 0 1, -(float32.lit 75 10), float32.lit 0 1⟩ ∧
    float32.gt (binary32.distance ⟨float32.lit 0 1, float32.lit 5 1, float32.lit 0 1⟩
      ⟨float32.lit 0 1, float32.lit 2425 1000, float32.lit 0 1⟩) (float32.lit 25 10) = true := by
  decide

/-- C7, as stated, fails on the program's binary32 arithmetic.  For `dt = 2^(-17)`, which is
greater than zero, `reset()` followed by one `step(dt)` gives the free particle the velocity
`(0, -750 * 2^(-17), 0)` but leaves its position at `(0, 2.5, 0)`, because
`2.5 - 750 * 2^(-34)` rounds to `2.5`: the particle has not moved, and its distance from the
anchor is `2.5` as before, not greater. -/
theorem single_spring_first_step_counterexample :
    float32.gt (float32.fin false 1 (-17)) (float32.lit 0 1) = true ∧
    ∃ s', binary32.MassOnASpringModel.step (binary32.MassOnASpringModel.reset ⟨[], []⟩)
        (float32.fin false 1 (-17)) = some s' ∧
      s'.particles[0]? = some ⟨⟨float32.lit 0 1, float32.lit 5 1, float32.lit 0 1⟩,
        binary32.vec3f.splat (float32.lit 0 1), float32.lit 0 1,
        binary32.vec3f.splat (float32.lit 0 1)⟩ ∧
      s'.particles[1]? = some ⟨⟨float32.lit 0 1, float32.lit 25 10, float32.lit 0 1⟩,
        ⟨float32.lit 0 1, float32.fin true 375 (-16), float32.lit 0 1⟩, float32.lit 1 10,
        binary32.vec3f.splat (float32.lit 0 1)⟩ ∧
      (binary32.MassOnASpringModel.reset ⟨[], []⟩).particles[1]?
        = some ⟨⟨float32.lit 0 1, float32.lit 25 10, float32.lit 0 1⟩,
          binary32.vec3f.splat (float32.lit 0 1), float32.lit 1 10,
          binary32.vec3f.splat (float32.lit 0 1)⟩ ∧
      binary32.distance ⟨float32.lit 0 1, float32.lit 5 1, float32.lit 0 1⟩
        ⟨float32.lit 0 1, float32.lit 25 10, float32.lit 0 1⟩ = float32.lit 25 10 ∧
      float32.gt
        (binary32.distance ⟨float32.lit 0 1, float32.lit 5 1, float32.lit 0 1⟩
          ⟨float32.lit 0 1, float32.lit 25 10, float32.lit 0 1⟩)
        (float32.lit 25 10) = false := by
  obtain ⟨hx, hv, hd, hg, hpos⟩ := mass_step32_small
  refine ⟨hpos, _, mass_step32_reset _ _, rfl, ?_, ?_, hd, ?_⟩
  · rw [List.getElem?_cons_succ, List.getElem?_cons_zero, hx, hv]
  · rw [mass_reset32_eq]
    rfl
  · rw [hd]
    exact hg

/-- C7, amended.  `reset()` followed by one `step(dt)` leaves the anchor unchanged and gives the
free particle (index `1`) the velocity `(0, -750 dt, 0)` and the position `(0, 2.5 + v dt, 0)`,
`v` being the new velocity.  In exact arithmetic, for a finite `dt = t > 0`, these are
`(0, -750 t, 0)` and `(0, 2.5 - 750 t², 0)`, and the distance from the anchor at `(0, 5, 0)` has
increased from `2.5` to `2.5 + 750 t²`; for `dt = 0.01` they are `(0, -7.5, 0)` and
`(0, 2.425, 0)`.  In the binary32 arithmetic of the program every product and sum is rounded,
for every `dt`: the velocity is `0 + (0, -750, 0) * dt` and the position
`(0, 2.5, 0) + velocity * dt` in binary32 operations; for `dt = 0.01f` the velocity is exactly
`(0, -7.5f, 0)`, the position is `(0, 2.425f, 0)` and the distance from the anchor has
increased. -/
theorem single_spring_first_step (s : Model R) (t : R) (ht : 0 < t) (s32 : binary32.Model)
    (dt : float32) :
    (∃ s', MassOnASpringModel.step (MassOnASpringModel.reset s) (float.val t) = some s' ∧
      s'.particles[1]? = some ⟨⟨float.val 0, float.val (2.5 - 750 * t ^ 2), float.val 0⟩,
        ⟨float.val 0, float.val (-750 * t), float.val 0⟩, float.val 0.1, 0⟩ ∧
      s'.particles[0]? = (MassOnASpringModel.reset s).particles[0]? ∧
      s'.particles[0]? = some ⟨⟨float.val 0, float.val 5, float.val 0⟩, 0, float.val 0, 0⟩ ∧
      distance ((MassOnASpringModel.reset s).particles.getD 0 default).x
        ((MassOnASpringModel.reset s).particles.getD 1 default).x = float.val 2.5 ∧
      distance (s'.particles.getD 0 default).x (s'.particles.getD 1 default).x
        = float.val (2.5 + 750 * t ^ 2) ∧
      (2.5 : R) < 2.5 + 750 * t ^ 2) ∧
    (∃ s', MassOnASpringModel.step (MassOnASpringModel.reset s) (float.val 0.01) = some s' ∧
      s'.particles[1]? = some ⟨⟨float.val 0, float.val 2.425, float.val 0⟩,
        ⟨float.val 0, float.val (-7.5), float.val 0⟩, float.val 0.1, 0⟩) ∧
    (∃ s', binary32.MassOnASpringModel.step (binary32.MassOnASpringModel.reset s32) dt
        = some s' ∧
      s'.particles[0]? = (binary32.MassOnASpringModel.reset s32).particles[0]? ∧
      s'.particles[0]? = some ⟨⟨float32.lit 0 1, float32.lit 5 1, float32.lit 0 1⟩,
        binary32.vec3f.splat (float32.lit 0 1), float32.lit 0 1,
        binary32.vec3f.splat (float32.lit 0 1)⟩ ∧
      s'.particles[1]? = some
        ⟨(⟨float32.lit 0 1, float32.lit 25 10, float32.lit 0 1⟩ : binary32.vec3f)
            + binary32.vec3f.muls (binary32.vec3f.splat (float32.lit 0 1)
              + binary32.vec3f.muls ⟨float32.lit 0 1, -(float32.lit 750 1), float32.lit 0 1⟩ dt)
              dt,
          binary32.vec3f.splat (float32.lit 0 1)
            + binary32.vec3f.muls ⟨float32.lit 0 1, -(float32.lit 750 1), float32.lit 0 1⟩ dt,
          float32.lit 1 10, binary32.vec3f.splat (float32.lit 0 1)⟩) ∧
    (∃ s', binary32.MassOnASpringModel.step (binary32.MassOnASpringModel.reset s32)
        (float32.lit 1 100) = some s' ∧
      s'.particles[1]? = some ⟨⟨float32.lit 0 1, float32.lit 2425 1000, float32.lit 0 1⟩,
        ⟨float32.lit 0 1, -(float32.lit 75 10), float32.lit 0 1⟩, float32.lit 1 10,
        binary32.vec3f.splat (float32.lit 0 1)⟩ ∧
      float32.gt
        (binary32.distance ⟨float32.lit 0 1, float32.lit 5 1, float32.lit 0 1⟩
          ⟨float32.lit 0 1, float32.lit 2425 1000, float32.lit 0 1⟩)
        (binary32.distance ⟨float32.lit 0 1, float32.lit 5 1, float32.lit 0 1⟩
          ⟨float32.lit 0 1, float32.lit 25 10, float32.lit 0 1⟩) = true) := by
  obtain ⟨hx, hv, hg⟩ := mass_step32_hundredth
  refine ⟨(mass_first_step_exact s t ht).1, (mass_first_step_exact s t ht).2,
    ⟨_, mass_step32_reset s32 dt, ?_, rfl, rfl⟩, ⟨_, mass_step32_reset s32 _, ?_, ?_⟩⟩
  · rw [mass_reset32_const s32, mass_reset32_eq]
    rfl
  · rw [List.getElem?_cons_succ, List.getElem?_cons_zero, hx, hv]
  · rw [mass_step32_small.2.2.1]
    exact hg

/-- Witness for C7: `dt = 0.5` in exact arithmetic. -/
theorem single_spring_first_step_witness :
    ∃ s', MassOnASpringModel.step (MassOnASpringModel.reset (⟨[], []⟩ : Model ℝ))
        (float.val 0.5) = some s' ∧
      s'.particles[1]? = some ⟨⟨float.val 0, float.val (2.5 - 750 * (0.5 : ℝ) ^ 2), float.val 0⟩,
        ⟨float.val 0, float.val (-750 * (0.5 : ℝ)), float.val 0⟩, float.val 0.1, 0⟩ := by
  obtain ⟨s', h1, h2, _⟩ :=
    (single_spring_first_step (⟨[], []⟩ : Model ℝ) 0.5 (by norm_num) ⟨[], []⟩
      (float32.lit 1 100)).1
  exact ⟨s', h1, h2⟩

/-! ### The damping branches in binary32 arithmetic -/

set_option maxRecDepth 1000000 in
theorem chain_step32_spring0 :
    (binary32.ChainPendulumModel.step (binary32.ChainPendulumModel.reset ⟨[], []⟩)
        (float32.lit 1 100)).springs[0]?
      = some ⟨float32.lit 500 1, float32.lit 5 10, 0, 1, float32.lit 2 1⟩ ∧
    (binary32.ChainPendulumModel.step (binary32.ChainPendulumModel.reset ⟨[], []⟩)
        (float32.lit 1 100)).particles[0]?
      = some ⟨⟨float32.lit 0 1, float32.lit 10 1, float32.lit 0 1⟩,
          binary32.vec3f.splat (float32.lit 0 1), float32.lit 0 1,
          binary32.vec3f.splat (float32.lit 0 1)⟩ ∧
    (binary32.ChainPendulumModel.step (binary32.ChainPendulumModel.reset ⟨[], []⟩)
        (float32.lit 1 100)).particles[1]?
      = some ⟨⟨float32.lit 2 1, float32.fin false 10484731 (-20), float32.lit 0 1⟩,
          ⟨float32.lit 0 1, float32.fin true 13166759 (-27), float32.lit 0 1⟩,
          float32.lit 5 10, binary32.vec3f.splat (float32.lit 0 1)⟩ := by
  decide

set_option maxRecDepth 1000000 in
theorem chain_branches32 :
    binary32.vec3f.eq
      (binary32.Fs_ij ⟨float32.lit 500 1, float32.lit 5 10, 0, 1, float32.lit 2 1⟩
        ⟨⟨float32.lit 0 1, float32.lit 10 1, float32.lit 0 1⟩,
          binary32.vec3f.splat (float32.lit 0 1), float32.lit 0 1,
          binary32.vec3f.splat (float32.lit 0 1)⟩
        ⟨⟨float32.lit 2 1, float32.fin false 10484731 (-20), float32.lit 0 1⟩,
          ⟨float32.lit 0 1, float32.fin true 13166759 (-27), float32.lit 0 1⟩,
          float32.lit 5 10, binary32.vec3f.splat (float32.lit 0 1)⟩)
      (binary32.vec3f.splat (float32.lit 0 1)) = false ∧
    binary32.dampingElse (float32.lit 5 10)
      (binary32.Fs_ij ⟨float32.lit 500 1, float32.lit 5 10, 0, 1, float32.lit 2 1⟩
        ⟨⟨float32.lit 0 1, float32.lit 10 1, float32.lit 0 1⟩,
          binary32.vec3f.splat (float32.lit 0 1), float32.lit 0 1,
          binary32.vec3f.splat (float32.lit 0 1)⟩
        ⟨⟨float32.lit 2 1, float32.fin false 10484731 (-20), float32.lit 0 1⟩,
          ⟨float32.lit 0 1, float32.fin true 13166759 (-27), float32.lit 0 1⟩,
          float32.lit 5 10, binary32.vec3f.splat (float32.lit 0 1)⟩)
      (binary32.vec3f.splat (float32.lit 0 1)
        - ⟨float32.lit 0 1, float32.fin true 13166759 (-27), float32.lit 0 1⟩)
      = ⟨float32.fin false 13231045 (-39), float32.fin true 13295649 (-50),
          float32.fin true 0 0⟩ ∧
    binary32.dampingFallback (float32.lit 5 10)
      ((⟨float32.lit 0 1, float32.lit 10 1, float32.lit 0 1⟩ : binary32.vec3f)
        - ⟨float32.lit 2 1, float32.fin false 10484731 (-20), float32.lit 0 1⟩)
      (binary32.vec3f.splat (float32.lit 0 1)
        - ⟨float32.lit 0 1, float32.fin true 13166759 (-27), float32.lit 0 1⟩)
      = ⟨float32.fin false 6615523 (-38), float32.fin true 13295651 (-50),
          float32.fin true 0 0⟩ := by
  decide

set_option maxRecDepth 1000000 in
theorem mass_steps32_tenth :
    binary32.MassOnASpringModel.steps (binary32.MassOnASpringModel.reset ⟨[], []⟩)
        [float32.lit 1 10, float32.lit 1 10]
      = some ⟨[⟨⟨float32.lit 0 1, float32.lit 5 1, float32.lit 0 1⟩,
            binary32.vec3f.splat (float32.lit 0 1), float32.lit 0 1,
            binary32.vec3f.splat (float32.lit 0 1)⟩,
          ⟨⟨float32.lit 0 1, -(float32.lit 875 100), float32.lit 0 1⟩,
            ⟨float32.lit 0 1, -(float32.lit 375 10), float32.lit 0 1⟩, float32.lit 1 10,
            binary32.vec3f.splat (float32.lit 0 1)⟩],
         [⟨float32.lit 10 1, float32.lit 5 10, 0, 1, float32.lit 10 1⟩]⟩ := by
  decide

set_option maxRecDepth 1000000 in
theorem mass_branches32 :
    binary32.MassOnASpringModel.Fs_ij ⟨float32.lit 10 1, float32.lit 5 10, 0, 1, float32.lit 10 1⟩
        ⟨⟨float32.lit 0 1, float32.lit 5 1, float32.lit 0 1⟩,
          binary32.vec3f.splat (float32.lit 0 1), float32.lit 0 1,
          binary32.vec3f.splat (float32.lit 0 1)⟩
        ⟨⟨float32.lit 0 1, -(float32.lit 875 100), float32.lit 0 1⟩,
          ⟨float32.lit 0 1, -(float32.lit 375 10), float32.lit 0 1⟩, float32.lit 1 10,
          binary32.vec3f.splat (float32.lit 0 1)⟩
      = ⟨float32.fin true 0 0, float32.lit 375 10, float32.fin true 0 0⟩ ∧
    binary32.vec3f.eq ⟨float32.fin true 0 0, float32.lit 375 10, float32.fin true 0 0⟩
      (binary32.vec3f.splat (float32.lit 0 1)) = false ∧
    binary32.dampingElse (float32.lit 5 10)
      ⟨float32.fin true 0 0, float32.lit 375 10, float32.fin true 0 0⟩
      ((⟨float32.lit 0 1, -(float32.lit 375 10), float32.lit 0 1⟩ : binary32.vec3f)
        - binary32.vec3f.splat (float32.lit 0 1))
      = ⟨float32.fin true 0 0, float32.lit 1875 100, float32.fin true 0 0⟩ ∧
    binary32.dampingFallback (float32.lit 5 10)
      ((⟨float32.lit 0 1, -(float32.lit 875 100), float32.lit 0 1⟩ : binary32.vec3f)
        - ⟨float32.lit 0 1, float32.lit 5 1, float32.lit 0 1⟩)
      ((⟨float32.lit 0 1, -(float32.lit 375 10), float32.lit 0 1⟩ : binary32.vec3f)
        - binary32.vec3f.splat (float32.lit 0 1))
      = ⟨float32.fin true 0 0, float32.fin false 9830399 (-19), float32.fin true 0 0⟩ := by
  decide

/-- C15, as stated, fails on the program's binary32 arithmetic: the two branch values are
roundings, along different paths, of one real value, and need not be the same float.  In the
chain pendulum after `reset()` and one `step(0.01f)`, spring `0` has its endpoints at distinct
positions and a non-zero `Fs_ij`, and the else-branch value
`(13231045 * 2^(-39), -13295649 * 2^(-50), -0)` differs from the fallback-branch value
`(13231046 * 2^(-39), -13295651 * 2^(-50), -0)`.  In the single-spring model after `reset()` and
two calls `step(0.1f)`, `Fs_ij = (-0, 37.5, -0)` is not zero, the else-branch value is
`(-0, 18.75, -0)` and the fallback-branch value is `(-0, 9830399 * 2^(-19), -0)`, which is
about `18.749998`. -/
theorem damping_branches_counterexample :
    (∃ (sp : binary32.Spring) (pi pj : binary32.Particle),
      (binary32.ChainPendulumModel.step (binary32.ChainPendulumModel.reset ⟨[], []⟩)
        (float32.lit 1 100)).springs[0]? = some sp ∧
      (binary32.ChainPendulumModel.step (binary32.ChainPendulumModel.reset ⟨[], []⟩)
        (float32.lit 1 100)).particles[sp.pi]? = some pi ∧
      (binary32.ChainPendulumModel.step (binary32.ChainPendulumModel.reset ⟨[], []⟩)
        (float32.lit 1 100)).particles[sp.pj]? = some pj ∧
      pi.x ≠ pj.x ∧
      binary32.vec3f.eq (binary32.Fs_ij sp pi pj) (binary32.vec3f.splat (float32.lit 0 1))
        = false ∧
      binary32.dampingElse sp.kd (binary32.Fs_ij sp pi pj) (pi.v - pj.v)
        = ⟨float32.fin false 13231045 (-39), float32.fin true 13295649 (-50),
            float32.fin true 0 0⟩ ∧
      binary32.dampingFallback sp.kd (pi.x - pj.x) (pi.v - pj.v)
        = ⟨float32.fin false 6615523 (-38), float32.fin true 13295651 (-50),
            float32.fin true 0 0⟩ ∧
      binary32.dampingElse sp.kd (binary32.Fs_ij sp pi pj) (pi.v - pj.v)
        ≠ binary32.dampingFallback sp.kd (pi.x - pj.x) (pi.v - pj.v)) ∧
    (∃ (s' : binary32.Model) (sp : binary32.Spring) (pi pj : binary32.Particle),
      binary32.MassOnASpringModel.steps (binary32.MassOnASpringModel.reset ⟨[], []⟩)
        [float32.lit 1 10, float32.lit 1 10] = some s' ∧
      s'.springs[0]? = some sp ∧ s'.particles[sp.pi]? = some pi ∧
      s'.particles[sp.pj]? = some pj ∧
      pi.x ≠ pj.x ∧
      binary32.vec3f.eq (binary32.MassOnASpringModel.Fs_ij sp pi pj)
        (binary32.vec3f.splat (float32.lit 0 1)) = false ∧
      binary32.dampingElse sp.kd (binary32.MassOnASpringModel.Fs_ij sp pi pj) (pj.v - pi.v)
        = ⟨float32.fin true 0 0, float32.lit 1875 100, float32.fin true 0 0⟩ ∧
      binary32.dampingFallback sp.kd (pj.x - pi.x) (pj.v - pi.v)
        = ⟨float32.fin true 0 0, float32.fin false 9830399 (-19), float32.fin true 0 0⟩ ∧
      binary32.dampingElse sp.kd (binary32.MassOnASpringModel.Fs_ij sp pi pj) (pj.v - pi.v)
        ≠ binary32.dampingFallback sp.kd (pj.x - pi.x) (pj.v - pi.v)) := by
  obtain ⟨h1, h2, h3⟩ := chain_step32_spring0
  obtain ⟨c1, c2, c3⟩ := chain_branches32
  obtain ⟨m1, m2, m3, m4⟩ := mass_branches32
  refine ⟨⟨_, _, _, h1, h2, h3, by decide, c1, c2, c3, ?_⟩,
    ⟨_, ⟨float32.lit 10 1, float32.lit 5 10, 0, 1, float32.lit 10 1⟩,
      ⟨⟨float32.lit 0 1, float32.lit 5 1, float32.lit 0 1⟩,
        binary32.vec3f.splat (float32.lit 0 1), float32.lit 0 1,
        binary32.vec3f.splat (float32.lit 0 1)⟩,
      ⟨⟨float32.lit 0 1, -(float32.lit 875 100), float32.lit 0 1⟩,
        ⟨float32.lit 0 1, -(float32.lit 375 10), float32.lit 0 1⟩, float32.lit 1 10,
        binary32.vec3f.splat (float32.lit 0 1)⟩,
      mass_steps32_tenth, rfl, rfl, rfl, by decide, ?_, ?_, m4, ?_⟩⟩
  · rw [c2, c3]
    decide
  · rw [m1]
    exact m2
  · rw [m1]
    exact m3
  · rw [m1, m3, m4]
    decide

end simulation
